import Mathlib

/-!
# LedgerDelta: nested change tracking for ledger entries

A shallow embedding of `src/ledger/LedgerDelta.cpp`.

* The containers `std::map<LedgerKey, EntryFrame::pointer, LedgerEntryIdCmp>` and
  `std::set<LedgerKey, LedgerEntryIdCmp>` are key-ordered association lists
  (`KeyMap`); the key type `K` with its comparator and the header type `H` are
  parameters, since their declarations are in headers outside this file.
* A C++ `throw` and a failed `assert` end the call with an `Error`; the object
  state at that point is kept in the `Outcome`, so that what a failed call
  has already changed stays visible.
* Objects that refer to each other (`mOuterDelta`, `mHeader`) live in a `Store`
  addressed by natural numbers.
-/

set_option linter.unusedSectionVars false

namespace Stellar

/-! ## Ordered containers -/

section Raw

variable {K : Type} [LinearOrder K] {V : Type}

/-- Lookup in an association list: `std::map::find`. -/
def rawFind (k : K) : List (K × V) → Option V
  | [] => none
  | p :: xs => if k = p.1 then some p.2 else rawFind k xs

/-- Removal of a key: `std::map::erase`. -/
def rawErase (k : K) : List (K × V) → List (K × V)
  | [] => []
  | p :: xs => if k = p.1 then rawErase k xs else p :: rawErase k xs

/-- Insert-or-overwrite at the key's place in the order: `m[k] = v`. -/
def rawAssign (k : K) (v : V) : List (K × V) → List (K × V)
  | [] => [(k, v)]
  | p :: xs =>
    if k < p.1 then (k, v) :: p :: xs
    else if k = p.1 then (k, v) :: xs
    else p :: rawAssign k v xs

/-- Keys strictly ascending: the representation invariant of the ordered containers. -/
def Ascending (xs : List (K × V)) : Prop :=
  (xs.map Prod.fst).Pairwise (· < ·)

theorem rawFind_rawAssign (k k' : K) (v : V) (xs : List (K × V)) :
    rawFind k' (rawAssign k v xs) = if k' = k then some v else rawFind k' xs := by
  induction xs with
  | nil => simp [rawAssign, rawFind]
  | cons p xs ih =>
    unfold rawAssign
    by_cases h1 : k < p.1
    · simp [h1, rawFind]
    · by_cases h2 : k = p.1
      · subst h2
        simp only [lt_irrefl, if_false, if_true, rawFind]
        by_cases h3 : k' = p.1 <;> simp [h3]
      · simp only [h1, h2, if_false, rawFind, ih]
        by_cases h3 : k' = k
        · subst h3; simp [h2]
        · simp [h3]

theorem rawFind_rawErase (k k' : K) (xs : List (K × V)) :
    rawFind k' (rawErase k xs) = if k' = k then none else rawFind k' xs := by
  induction xs with
  | nil => simp [rawErase, rawFind]
  | cons p xs ih =>
    unfold rawErase
    by_cases h2 : k = p.1
    · subst h2
      simp only [if_true, ih, rawFind]
      by_cases h3 : k' = p.1 <;> simp [h3]
    · simp only [h2, if_false, rawFind, ih]
      by_cases h3 : k' = k
      · subst h3; simp [h2]
      · simp [h3]

theorem rawFind_isSome_iff (k : K) (xs : List (K × V)) :
    (rawFind k xs).isSome ↔ k ∈ xs.map Prod.fst := by
  induction xs with
  | nil => simp [rawFind]
  | cons p xs ih =>
    by_cases h : k = p.1
    · simp [rawFind, h]
    · simp only [rawFind, h, if_false, ih, List.map_cons, List.mem_cons, false_or]

theorem rawFind_eq_none_iff (k : K) (xs : List (K × V)) :
    rawFind k xs = none ↔ k ∉ xs.map Prod.fst := by
  rw [← rawFind_isSome_iff]
  cases rawFind k xs <;> simp

theorem keys_rawErase (k : K) (xs : List (K × V)) (a : K) :
    a ∈ (rawErase k xs).map Prod.fst ↔ a ≠ k ∧ a ∈ xs.map Prod.fst := by
  rw [← rawFind_isSome_iff, ← rawFind_isSome_iff, rawFind_rawErase]
  by_cases h : a = k <;> simp [h]

theorem keys_rawAssign (k : K) (v : V) (xs : List (K × V)) (a : K) :
    a ∈ (rawAssign k v xs).map Prod.fst ↔ a = k ∨ a ∈ xs.map Prod.fst := by
  rw [← rawFind_isSome_iff, ← rawFind_isSome_iff, rawFind_rawAssign]
  by_cases h : a = k <;> simp [h]

theorem ascending_rawErase (k : K) (xs : List (K × V)) (h : Ascending xs) :
    Ascending (rawErase k xs) := by
  induction xs with
  | nil => simpa [rawErase] using h
  | cons p xs ih =>
    unfold Ascending at h ih ⊢
    rw [List.map_cons, List.pairwise_cons] at h
    unfold rawErase
    by_cases h2 : k = p.1
    · simpa [h2] using ih h.2
    · simp only [h2, if_false, List.map_cons, List.pairwise_cons]
      refine ⟨?_, ih h.2⟩
      intro a ha
      exact h.1 a ((keys_rawErase k xs a).1 ha).2

theorem ascending_rawAssign (k : K) (v : V) (xs : List (K × V)) (h : Ascending xs) :
    Ascending (rawAssign k v xs) := by
  induction xs with
  | nil => simp [rawAssign, Ascending]
  | cons p xs ih =>
    unfold Ascending at h ih ⊢
    rw [List.map_cons, List.pairwise_cons] at h
    unfold rawAssign
    by_cases h1 : k < p.1
    · simp only [h1, if_true, List.map_cons, List.pairwise_cons]
      refine ⟨?_, h.1, h.2⟩
      intro a ha
      rcases List.mem_cons.1 ha with rfl | ha
      · exact h1
      · exact lt_trans h1 (h.1 a ha)
    · by_cases h2 : k = p.1
      · subst h2
        simp only [lt_irrefl, if_false, if_true, List.map_cons, List.pairwise_cons]
        exact ⟨h.1, h.2⟩
      · simp only [h1, h2, if_false, List.map_cons, List.pairwise_cons]
        refine ⟨?_, ih h.2⟩
        intro a ha
        rcases (keys_rawAssign k v xs a).1 ha with rfl | ha
        · exact lt_of_le_of_ne (not_lt.1 h1) (Ne.symm h2)
        · exact h.1 a ha

end Raw

instance {K : Type} [LinearOrder K] {V : Type} (xs : List (K × V)) : Decidable (Ascending xs) := by
  unfold Ascending; infer_instance

/-- The ordered associative container `std::map<K, V, Cmp>`: an association list with
strictly ascending keys. `std::set<K, Cmp>` is the instance `KeyMap K Unit`. -/
structure KeyMap (K V : Type) [LinearOrder K] where
  entries : List (K × V)
  ascending : Ascending entries

namespace KeyMap

variable {K : Type} [LinearOrder K] {V : Type}

instance [DecidableEq V] : DecidableEq (KeyMap K V) := fun a b =>
  decidable_of_iff (a.entries = b.entries)
    ⟨fun h => by cases a; cases b; cases h; rfl, fun h => by rw [h]⟩

/-- A default-constructed container. -/
def empty : KeyMap K V := ⟨[], List.Pairwise.nil⟩

/-- Lookup of a key, `m.find(k)`: `none` stands for `m.end()`. -/
def find (m : KeyMap K V) (k : K) : Option V := rawFind k m.entries

/-- Membership test `m.find(k) != m.end()`. -/
def contains (m : KeyMap K V) (k : K) : Bool := (m.find k).isSome

/-- Removal `m.erase(k)`. -/
def erase (m : KeyMap K V) (k : K) : KeyMap K V :=
  ⟨rawErase k m.entries, ascending_rawErase k m.entries m.ascending⟩

/-- Assignment `m[k] = v`. -/
def assign (m : KeyMap K V) (k : K) (v : V) : KeyMap K V :=
  ⟨rawAssign k v m.entries, ascending_rawAssign k v m.entries m.ascending⟩

/-- Insertion into a set, `s.insert(k)`. -/
def insertKey (s : KeyMap K Unit) (k : K) : KeyMap K Unit := s.assign k ()

/-- Keys in iteration order. -/
def keys (m : KeyMap K V) : List K := m.entries.map Prod.fst

/-- Mapped values in iteration order (`it->second`). -/
def values (m : KeyMap K V) : List V := m.entries.map Prod.snd

end KeyMap

/-! ## The delta object -/

/-- What ends a call early. The first two are the `std::runtime_error`s thrown by
`checkState` and `commit`; the other four are the `assert`s of `addEntry`,
`deleteEntry` and `modEntry`, named after the comments next to them. -/
inductive Error
  | alreadyCommitted
  | unexpectedHeaderState
  | doubleNew
  | modThenNew
  | doubleDelete
  | deleteThenMod
  deriving DecidableEq, Repr

/-- The effect of a call: `error = none` when it returned normally, and the state it left. -/
structure Outcome (σ : Type) where
  error : Option Error
  state : σ

/-- The failed assertions: a key recorded in a way that contradicts what is already
recorded for it. -/
def Error.isKeyConflict : Error → Bool
  | Error.doubleNew => true
  | Error.modThenNew => true
  | Error.doubleDelete => true
  | Error.deleteThenMod => true
  | _ => false

/-- The call ended on a failed assertion. -/
def Outcome.KeyConflict {σ : Type} (o : Outcome σ) : Prop :=
  ∃ e, o.error = some e ∧ e.isKeyConflict = true

instance {σ : Type} (o : Outcome σ) : Decidable o.KeyConflict :=
  decidable_of_iff (o.error.map Error.isKeyConflict = some true)
    (by unfold Outcome.KeyConflict; cases o.error <;> simp)

/-- The part of `EntryFrame` used here: an entry knows its own key. -/
class EntryFrame (E : Type) (K : outParam Type) where
  getKey : E → K

/-- What a `LedgerHeader*` can point to: a header owned outside the deltas, or the
working header `mCurrentHeader.mHeader` of a delta. -/
inductive HeaderRef
  | external (a : Nat)
  | working (d : Nat)
  deriving DecidableEq, Repr

/-- The data members of `class LedgerDelta`. Pointers are addresses into a `Store`;
`none` is `nullptr`. -/
structure LedgerDelta (K E H : Type) [LinearOrder K] where
  mOuterDelta : Option Nat
  mHeader : Option HeaderRef
  mCurrentHeader : H
  mPreviousHeaderValue : H
  mNew : KeyMap K E
  mMod : KeyMap K E
  mDelete : KeyMap K Unit

namespace LedgerDelta

variable {K E H : Type} [LinearOrder K] [EntryFrame E K]

instance [DecidableEq E] [DecidableEq H] : DecidableEq (LedgerDelta K E H) := fun a b =>
  decidable_of_iff
    (a.mOuterDelta = b.mOuterDelta ∧ a.mHeader = b.mHeader ∧
      a.mCurrentHeader = b.mCurrentHeader ∧ a.mPreviousHeaderValue = b.mPreviousHeaderValue ∧
      a.mNew = b.mNew ∧ a.mMod = b.mMod ∧ a.mDelete = b.mDelete)
    ⟨fun ⟨h1, h2, h3, h4, h5, h6, h7⟩ => by
        cases a; cases b; simp only at h1 h2 h3 h4 h5 h6 h7
        subst h1 h2 h3 h4 h5 h6 h7; rfl,
      fun h => by subst h; exact ⟨rfl, rfl, rfl, rfl, rfl, rfl, rfl⟩⟩

/-- `LedgerDelta::checkState`: throws when `mHeader == nullptr`. -/
def checkState (d : LedgerDelta K E H) : Option Error :=
  match d.mHeader with
  | none => some Error.alreadyCommitted
  | some _ => none

/-- `LedgerDelta::addEntry(EntryFrame::pointer)`; the `EntryFrame const&` overload
passes a copy of its argument to it. -/
def addEntry (entry : E) (d : LedgerDelta K E H) : Outcome (LedgerDelta K E H) :=
  match checkState d with
  | some e => ⟨some e, d⟩
  | none =>
    let k := EntryFrame.getKey entry
    if d.mDelete.contains k then
      -- delete + new is an update
      ⟨none, { d with mDelete := d.mDelete.erase k, mMod := d.mMod.assign k entry }⟩
    else if d.mNew.contains k then ⟨some Error.doubleNew, d⟩
    else if d.mMod.contains k then ⟨some Error.modThenNew, d⟩
    else ⟨none, { d with mNew := d.mNew.assign k entry }⟩

/-- `LedgerDelta::deleteEntry(LedgerKey const&)`. -/
def deleteEntry (k : K) (d : LedgerDelta K E H) : Outcome (LedgerDelta K E H) :=
  match checkState d with
  | some e => ⟨some e, d⟩
  | none =>
    if d.mNew.contains k then
      -- new + delete -> don't add it in the first place
      ⟨none, { d with mNew := d.mNew.erase k }⟩
    else if d.mDelete.contains k then ⟨some Error.doubleDelete, d⟩
    else
      -- only keep the delete
      ⟨none, { d with mMod := d.mMod.erase k, mDelete := d.mDelete.insertKey k }⟩

/-- `LedgerDelta::deleteEntry(EntryFrame::pointer)`, and the `EntryFrame const&` overload. -/
def deleteEntryOf (entry : E) (d : LedgerDelta K E H) : Outcome (LedgerDelta K E H) :=
  deleteEntry (EntryFrame.getKey entry) d

/-- `LedgerDelta::modEntry(EntryFrame::pointer)`; the `EntryFrame const&` overload
passes a copy of its argument to it. -/
def modEntry (entry : E) (d : LedgerDelta K E H) : Outcome (LedgerDelta K E H) :=
  match checkState d with
  | some e => ⟨some e, d⟩
  | none =>
    let k := EntryFrame.getKey entry
    if d.mMod.contains k then
      -- collapse mod
      ⟨none, { d with mMod := d.mMod.assign k entry }⟩
    else if d.mNew.contains k then
      -- new + mod = new (with latest value)
      ⟨none, { d with mNew := d.mNew.assign k entry }⟩
    else if d.mDelete.contains k then ⟨some Error.deleteThenMod, d⟩
    else ⟨none, { d with mMod := d.mMod.assign k entry }⟩

end LedgerDelta

/-- A range-based `for` whose body is the call `f`: it stops at the first call that
does not return, with the state as that call left it. -/
def forEach {α σ : Type} (f : α → σ → Outcome σ) : List α → σ → Outcome σ
  | [], s => ⟨none, s⟩
  | a :: rest, s =>
    match (f a s).error with
    | some e => ⟨some e, (f a s).state⟩
    | none => forEach f rest (f a s).state

namespace LedgerDelta

variable {K E H : Type} [LinearOrder K] [EntryFrame E K]

/-- `LedgerDelta::mergeEntries`, the call `d.mergeEntries(other)`: `other` is read only. -/
def mergeEntries (d : LedgerDelta K E H) (other : LedgerDelta K E H) :
    Outcome (LedgerDelta K E H) :=
  match checkState d with
  | some e => ⟨some e, d⟩
  | none =>
    let r1 := forEach deleteEntry other.mDelete.keys d
    match r1.error with
    | some e => ⟨some e, r1.state⟩
    | none =>
      let r2 := forEach addEntry other.mNew.values r1.state
      match r2.error with
      | some e => ⟨some e, r2.state⟩
      | none => forEach modEntry other.mMod.values r2.state

end LedgerDelta

/-! ## Objects in memory: construction, commit, rollback -/

/-- The objects a delta can point to: headers owned outside the deltas, and deltas, each
kind addressed by natural numbers. -/
structure Store (K E H : Type) [LinearOrder K] where
  headers : Nat → H
  deltas : Nat → LedgerDelta K E H

namespace Store

variable {K E H : Type} [LinearOrder K] [EntryFrame E K]

/-- Replace the delta object at address `i`. -/
def setDelta (w : Store K E H) (i : Nat) (d : LedgerDelta K E H) : Store K E H :=
  { w with deltas := fun j => if j = i then d else w.deltas j }

/-- Dereference a header pointer: `*mHeader`. -/
def readHeader (w : Store K E H) : HeaderRef → H
  | HeaderRef.external a => w.headers a
  | HeaderRef.working i => (w.deltas i).mCurrentHeader

/-- Assign through a header pointer: `*mHeader = h`. -/
def writeHeader (w : Store K E H) (ref : HeaderRef) (h : H) : Store K E H :=
  match ref with
  | HeaderRef.external a => { w with headers := fun b => if b = a then h else w.headers b }
  | HeaderRef.working i => w.setDelta i { w.deltas i with mCurrentHeader := h }

/-- `LedgerDelta::LedgerDelta(LedgerDelta& outerDelta)`: the object is built at address
`self`, nested in the delta at address `outer`. -/
def newNested (self outer : Nat) (w : Store K E H) : Store K E H :=
  w.setDelta self
    { mOuterDelta := some outer
      mHeader := some (HeaderRef.working outer)
      mCurrentHeader := (w.deltas outer).mCurrentHeader
      mPreviousHeaderValue := (w.deltas outer).mCurrentHeader
      mNew := KeyMap.empty
      mMod := KeyMap.empty
      mDelete := KeyMap.empty }

/-- `LedgerDelta::LedgerDelta(LedgerHeader& header)`: the object is built at address `self`. -/
def newTopLevel (self : Nat) (header : HeaderRef) (w : Store K E H) : Store K E H :=
  w.setDelta self
    { mOuterDelta := none
      mHeader := some header
      mCurrentHeader := w.readHeader header
      mPreviousHeaderValue := w.readHeader header
      mNew := KeyMap.empty
      mMod := KeyMap.empty
      mDelete := KeyMap.empty }

/-- A member function that touches only its own object, called on the delta at `i`. -/
def call (i : Nat) (f : LedgerDelta K E H → Outcome (LedgerDelta K E H)) (w : Store K E H) :
    Outcome (Store K E H) :=
  ⟨(f (w.deltas i)).error, w.setDelta i (f (w.deltas i)).state⟩

/-- The call `deltas[i].mergeEntries(deltas[j])`. -/
def mergeEntries (i j : Nat) (w : Store K E H) : Outcome (Store K E H) :=
  call i (fun d => d.mergeEntries (w.deltas j)) w

/-- An edit of the working header through the reference that `getHeader()` returns. -/
def setHeader (i : Nat) (h : H) (w : Store K E H) : Store K E H :=
  w.setDelta i { w.deltas i with mCurrentHeader := h }

/-- `LedgerDelta::commit`, called on the delta at `s`. -/
def commit [DecidableEq H] (s : Nat) (w : Store K E H) : Outcome (Store K E H) :=
  -- checkState()
  match (w.deltas s).mHeader with
  | none => ⟨some Error.alreadyCommitted, w⟩
  | some ref =>
    -- checks if we're not about to override changes
    if (w.deltas s).mPreviousHeaderValue ≠ w.readHeader ref then
      ⟨some Error.unexpectedHeaderState, w⟩
    else
      -- if (mOuterDelta) { mOuterDelta->mergeEntries(*this); mOuterDelta = nullptr; }
      let r : Outcome (Store K E H) :=
        match (w.deltas s).mOuterDelta with
        | none => ⟨none, w⟩
        | some p =>
          let m := mergeEntries p s w
          match m.error with
          | some e => ⟨some e, m.state⟩
          | none => ⟨none, m.state.setDelta s { m.state.deltas s with mOuterDelta := none }⟩
      match r.error with
      | some e => ⟨some e, r.state⟩
      | none =>
        -- *mHeader = mCurrentHeader.mHeader; mHeader = nullptr;
        let w3 := r.state.writeHeader ref (r.state.deltas s).mCurrentHeader
        ⟨none, w3.setDelta s { w3.deltas s with mHeader := none }⟩

/-- `LedgerDelta::rollback`, called on the delta at `s`. -/
def rollback (s : Nat) (w : Store K E H) : Outcome (Store K E H) :=
  match (w.deltas s).checkState with
  | some e => ⟨some e, w⟩
  | none => ⟨none, w.setDelta s { w.deltas s with mHeader := none }⟩

end Store

/-! ## Sequences of calls -/

/-- One call on a delta's change sets. -/
inductive Op (K E H : Type) [LinearOrder K]
  | create (entry : E)
  | modify (entry : E)
  | delete (k : K)
  | merge (other : LedgerDelta K E H)

namespace Op

variable {K E H : Type} [LinearOrder K] [EntryFrame E K]

/-- The member function an `Op` stands for. -/
def apply : Op K E H → LedgerDelta K E H → Outcome (LedgerDelta K E H)
  | create entry => LedgerDelta.addEntry entry
  | modify entry => LedgerDelta.modEntry entry
  | delete k => LedgerDelta.deleteEntry k
  | merge other => fun d => d.mergeEntries other

/-- No merge: only create, modify and delete. -/
def isBasic : Op K E H → Bool
  | merge _ => false
  | _ => true

end Op

/-- Run calls one after the other and stop at the first that fails. -/
def run {K E H : Type} [LinearOrder K] [EntryFrame E K] (ops : List (Op K E H))
    (d : LedgerDelta K E H) : Outcome (LedgerDelta K E H) :=
  forEach Op.apply ops d

/-- Run calls one after the other, going on after a failed call from the state it left
(the caller catches the exception). -/
def runAll {K E H : Type} [LinearOrder K] [EntryFrame E K] (ops : List (Op K E H))
    (d : LedgerDelta K E H) : LedgerDelta K E H :=
  ops.foldl (fun acc op => (op.apply acc).state) d

/-! ## One key at a time -/

/-- What the three change sets hold for one key. -/
structure View (E : Type) where
  new : Option E
  mod : Option E
  del : Bool

namespace View

variable {E : Type}

/-- At most one of the three sets holds the key. -/
def Valid (v : View E) : Prop :=
  ¬(v.new.isSome = true ∧ v.mod.isSome = true) ∧ ¬(v.new.isSome = true ∧ v.del = true) ∧
    ¬(v.mod.isSome = true ∧ v.del = true)

/-- The effect of `addEntry` on the entry's own key; `none` when an assertion fails. -/
def add (entry : E) (v : View E) : Option (View E) :=
  if v.del = true then some ⟨v.new, some entry, false⟩
  else if v.new.isSome = true then none
  else if v.mod.isSome = true then none
  else some ⟨some entry, v.mod, v.del⟩

/-- The effect of `deleteEntry` on its key; `none` when the assertion fails. -/
def delete (v : View E) : Option (View E) :=
  if v.new.isSome = true then some ⟨none, v.mod, v.del⟩
  else if v.del = true then none
  else some ⟨v.new, none, true⟩

/-- The effect of `modEntry` on the entry's own key; `none` when the assertion fails. -/
def modify (entry : E) (v : View E) : Option (View E) :=
  if v.mod.isSome = true then some ⟨v.new, some entry, v.del⟩
  else if v.new.isSome = true then some ⟨some entry, v.mod, v.del⟩
  else if v.del = true then none
  else some ⟨v.new, some entry, v.del⟩

/-- The effect on a key of the parent (view `p`) of merging a child whose view of the key
is `c`, when `c` is valid. -/
def merge (c p : View E) : Option (View E) :=
  if c.del = true then p.delete
  else
    match c.new with
    | some entry => p.add entry
    | none =>
      match c.mod with
      | some entry => p.modify entry
      | none => some p

end View

/-! ## Predicates on a delta -/

namespace LedgerDelta

variable {K E H : Type} [LinearOrder K] [EntryFrame E K]

/-- No key is in more than one of `mNew`, `mMod` and `mDelete`. -/
def PairwiseDisjoint (d : LedgerDelta K E H) : Prop :=
  ∀ k, ¬(d.mNew.contains k = true ∧ d.mMod.contains k = true) ∧
    ¬(d.mNew.contains k = true ∧ d.mDelete.contains k = true) ∧
    ¬(d.mMod.contains k = true ∧ d.mDelete.contains k = true)

/-- The same check, over the keys that are stored. -/
def disjointCheck (d : LedgerDelta K E H) : Bool :=
  d.mNew.keys.all (fun k => !d.mMod.contains k && !d.mDelete.contains k) &&
    d.mMod.keys.all (fun k => !d.mDelete.contains k)

/-- The three change sets are empty, as in a delta just constructed. -/
def SetsEmpty (d : LedgerDelta K E H) : Prop :=
  d.mNew.keys = [] ∧ d.mMod.keys = [] ∧ d.mDelete.keys = []

/-- The members other than the three change sets agree. -/
def SameFrame (d d' : LedgerDelta K E H) : Prop :=
  d'.mOuterDelta = d.mOuterDelta ∧ d'.mHeader = d.mHeader ∧
    d'.mCurrentHeader = d.mCurrentHeader ∧ d'.mPreviousHeaderValue = d.mPreviousHeaderValue

/-- The parent after the child's deleted keys went through `deleteEntry`, then its created
entries through `addEntry`, then its modified entries through `modEntry`, in that order. -/
def replayNet (child parent : LedgerDelta K E H) : LedgerDelta K E H :=
  child.mMod.values.foldl (fun acc entry => (modEntry entry acc).state)
    (child.mNew.values.foldl (fun acc entry => (addEntry entry acc).state)
      (child.mDelete.keys.foldl (fun acc k => (deleteEntry k acc).state) parent))

/-- What delta `d` records for key `k`. -/
def view (d : LedgerDelta K E H) (k : K) : View E :=
  ⟨d.mNew.find k, d.mMod.find k, d.mDelete.contains k⟩

/-- Every stored entry is stored under its own key. -/
def Keyed (d : LedgerDelta K E H) : Prop :=
  (∀ k entry, d.mNew.find k = some entry → EntryFrame.getKey entry = k) ∧
    (∀ k entry, d.mMod.find k = some entry → EntryFrame.getKey entry = k)

end LedgerDelta

namespace Store

variable {K E H : Type} [LinearOrder K] [EntryFrame E K]

/-- The store a `commit` leaves once the header check and the merge are behind it:
`*mHeader = mCurrentHeader.mHeader; mHeader = nullptr`. -/
def finishCommit (s : Nat) (ref : HeaderRef) (w : Store K E H) : Store K E H :=
  (w.writeHeader ref (w.deltas s).mCurrentHeader).setDelta s
    { (w.writeHeader ref (w.deltas s).mCurrentHeader).deltas s with mHeader := none }

end Store

/-- A working-header edit or a change-set call on one delta. -/
inductive Edit (K E H : Type) [LinearOrder K]
  | call (op : Op K E H)
  | header (h : H)

/-- The store after an `Edit` of the delta at `i`, whether the call returned or failed. -/
def Store.edit {K E H : Type} [LinearOrder K] [EntryFrame E K] (i : Nat) (w : Store K E H) :
    Edit K E H → Store K E H
  | Edit.call op => (Store.call i op.apply w).state
  | Edit.header h => w.setHeader i h

/-! ## A concrete instance for evaluation -/

/-- An entry made of an identifier and a payload. -/
structure SampleEntry where
  id : Nat
  payload : Nat
  deriving DecidableEq, Repr

instance : EntryFrame SampleEntry Nat := ⟨SampleEntry.id⟩

/-- A delta over `SampleEntry` with natural numbers as headers. -/
abbrev SampleDelta := LedgerDelta Nat SampleEntry Nat

/-- An Active top-level delta with nothing recorded, opened against external header `0`
when its value was `h`. -/
def SampleDelta.fresh (h : Nat) : SampleDelta :=
  { mOuterDelta := none
    mHeader := some (HeaderRef.external 0)
    mCurrentHeader := h
    mPreviousHeaderValue := h
    mNew := KeyMap.empty
    mMod := KeyMap.empty
    mDelete := KeyMap.empty }

/-- A delta with key `1` modified, key `2` created and key `3` deleted. -/
def SampleDelta.mixed : SampleDelta :=
  (run [Op.modify ⟨1, 10⟩, Op.create ⟨2, 20⟩, Op.delete 3] (SampleDelta.fresh 0)).state

/-- A delta with key `1` created. -/
def SampleDelta.created1 : SampleDelta :=
  (run [Op.create ⟨1, 10⟩] (SampleDelta.fresh 0)).state

/-- A store with header value `7` at every external address and an inert (Terminal, empty)
delta at every delta address. -/
def SampleStore.base : Store Nat SampleEntry Nat :=
  { headers := fun _ => 7
    deltas := fun _ =>
      { mOuterDelta := none
        mHeader := none
        mCurrentHeader := 0
        mPreviousHeaderValue := 0
        mNew := KeyMap.empty
        mMod := KeyMap.empty
        mDelete := KeyMap.empty } }

/-- A top-level delta at address `0`, opened against external header `0`. -/
def SampleStore.root : Store Nat SampleEntry Nat :=
  SampleStore.base.newTopLevel 0 (HeaderRef.external 0)

/-- The root delta at `0` has deleted key `2`; its child at `1` has deleted keys `1` and `2`. -/
def SampleStore.clash : Store Nat SampleEntry Nat :=
  ((((Store.call 0 (LedgerDelta.deleteEntry 2) SampleStore.root).state.newNested 1 0).edit 1
    (Edit.call (Op.delete 1))).edit 1 (Edit.call (Op.delete 2)))

/-- The root delta at `0` and a child at `1` that has created key `1` and set its working
header to `8`. -/
def SampleStore.nested : Store Nat SampleEntry Nat :=
  ((SampleStore.root.newNested 1 0).edit 1 (Edit.call (Op.create ⟨1, 10⟩))).edit 1 (Edit.header 8)

/-! ## Change log and live/dead entries -/

/-- One record of `TransactionMeta::changes`, tagged `LEDGER_ENTRY_CREATED`,
`LEDGER_ENTRY_UPDATED` or `LEDGER_ENTRY_REMOVED`; `L` is the type of the `LedgerEntry`
that an entry frame holds in `mEntry`. -/
inductive LedgerEntryChange (K L : Type)
  | created (entry : L)
  | updated (entry : L)
  | removed (k : K)
  deriving DecidableEq, Repr

/-- The group of a record: created before updated before removed. -/
def LedgerEntryChange.group {K L : Type} : LedgerEntryChange K L → Nat
  | LedgerEntryChange.created _ => 0
  | LedgerEntryChange.updated _ => 1
  | LedgerEntryChange.removed _ => 2

namespace LedgerDelta

variable {K E H L B : Type} [LinearOrder K]

/-- The vector `tm.changes` that `LedgerDelta::getTransactionMeta` has built when it
reaches its `return`: three loops of `emplace_back`. The member `mEntry` of an entry
frame is a parameter. -/
def transactionMetaChanges (mEntry : E → L) (d : LedgerDelta K E H) :
    List (LedgerEntryChange K L) :=
  d.mDelete.keys.foldl (fun changes k => changes ++ [LedgerEntryChange.removed k])
    (d.mMod.entries.foldl
      (fun changes k => changes ++ [LedgerEntryChange.updated (mEntry k.2)])
      (d.mNew.entries.foldl
        (fun changes k => changes ++ [LedgerEntryChange.created (mEntry k.2)]) []))

/-- `LedgerDelta::getTransactionMeta`: the binary encoding of the change log; the encoder
is a parameter. -/
def getTransactionMeta (encode : List (LedgerEntryChange K L) → B) (mEntry : E → L)
    (d : LedgerDelta K E H) : B :=
  encode (transactionMetaChanges mEntry d)

/-- `LedgerDelta::getLiveEntries`: two loops of `push_back`. -/
def getLiveEntries (mEntry : E → L) (d : LedgerDelta K E H) : List L :=
  d.mMod.entries.foldl (fun live k => live ++ [mEntry k.2])
    (d.mNew.entries.foldl (fun live k => live ++ [mEntry k.2]) [])

/-- `LedgerDelta::getDeadEntries`: one loop of `push_back`. -/
def getDeadEntries (d : LedgerDelta K E H) : List K :=
  d.mDelete.keys.foldl (fun dead k => dead ++ [k]) []

end LedgerDelta

/-- The root delta at `0` has created key `1`; its child at `1` has created key `1` and
deleted it again, so that its three sets are empty. -/
def SampleStore.masked : Store Nat SampleEntry Nat :=
  ((((Store.call 0 (LedgerDelta.addEntry ⟨1, 10⟩) SampleStore.root).state.newNested 1 0).edit 1
    (Edit.call (Op.create ⟨1, 11⟩))).edit 1 (Edit.call (Op.delete 1)))

/-- A delta with keys `3` and `4` created. -/
def SampleDelta.child : SampleDelta :=
  (run [Op.create ⟨4, 40⟩, Op.create ⟨3, 30⟩] (SampleDelta.fresh 0)).state

/-- A delta with key `4` deleted and key `3` modified. -/
def SampleDelta.grandchild : SampleDelta :=
  (run [Op.delete 4, Op.modify ⟨3, 31⟩] (SampleDelta.fresh 0)).state

/-! ## Two end-to-end scenarios -/

namespace Store

variable {K E H : Type} [LinearOrder K] [EntryFrame E K]

/-- A child is constructed at `c` on the delta at `r` and calls `addEntry(a)`. -/
def childCreates (r c : Nat) (a : E) (w : Store K E H) : Outcome (Store K E H) :=
  call c (LedgerDelta.addEntry a) (w.newNested c r)

/-- After `childCreates`, the child calls `modEntry(a₂)`. -/
def childModifies (r c : Nat) (a a₂ : E) (w : Store K E H) : Outcome (Store K E H) :=
  call c (LedgerDelta.modEntry a₂) (childCreates r c a w).state

/-- After `childModifies`, the child calls `commit()`. -/
def childCommits [DecidableEq H] (r c : Nat) (a a₂ : E) (w : Store K E H) :
    Outcome (Store K E H) :=
  (childModifies r c a a₂ w).state.commit c

/-- After `childCommits`, the delta at `r` calls `deleteEntry` with the key of `a`. -/
def rootDeletes [DecidableEq H] (r c : Nat) (a a₂ : E) (w : Store K E H) :
    Outcome (Store K E H) :=
  call r (LedgerDelta.deleteEntry (EntryFrame.getKey a)) (childCommits r c a a₂ w).state

/-- A child is constructed at `c` on the delta at `r` and calls `deleteEntry(k)`. -/
def childDeletes (r c : Nat) (k : K) (w : Store K E H) : Outcome (Store K E H) :=
  call c (LedgerDelta.deleteEntry k) (w.newNested c r)

/-- After `childDeletes`, the child calls `commit()`. -/
def childDeleteCommits [DecidableEq H] (r c : Nat) (k : K) (w : Store K E H) :
    Outcome (Store K E H) :=
  (childDeletes r c k w).state.commit c

end Store

/-- The calls that a merge of `child` replays on the receiving delta, in their fixed
order: `deleteEntry` for every key of the child's `mDelete`, then `addEntry` for every
entry of its `mNew`, then `modEntry` for every entry of its `mMod`. -/
def replayOps {K E H : Type} [LinearOrder K] (child : LedgerDelta K E H) : List (Op K E H) :=
  child.mDelete.keys.map Op.delete ++
    (child.mNew.values.map Op.create ++ child.mMod.values.map Op.modify)

/-! ## Properties of the association lists -/

section RawFacts

variable {K : Type} [LinearOrder K] {V : Type}

theorem ascending_ext : ∀ (xs ys : List (K × V)), Ascending xs → Ascending ys →
    (∀ k, rawFind k xs = rawFind k ys) → xs = ys
  | [], [], _, _, _ => rfl
  | [], q :: ys, _, _, h => by
    have := h q.1
    simp [rawFind] at this
  | p :: xs, [], _, _, h => by
    have := h p.1
    simp [rawFind] at this
  | p :: xs, q :: ys, hx, hy, h => by
    unfold Ascending at hx hy
    rw [List.map_cons, List.pairwise_cons] at hx hy
    have hxs : rawFind p.1 xs = none := by
      rw [rawFind_eq_none_iff]; intro hm; exact lt_irrefl _ (hx.1 _ hm)
    have hys : rawFind q.1 ys = none := by
      rw [rawFind_eq_none_iff]; intro hm; exact lt_irrefl _ (hy.1 _ hm)
    have hk : p.1 = q.1 := by
      by_contra hne
      have h1 := h p.1
      have h2 := h q.1
      simp only [rawFind, if_true, hne, if_false, Ne.symm hne] at h1 h2
      have m1 : p.1 ∈ ys.map Prod.fst := by
        rw [← rawFind_isSome_iff, ← h1]; rfl
      have m2 : q.1 ∈ xs.map Prod.fst := by
        rw [← rawFind_isSome_iff, h2]; rfl
      exact lt_asymm (hy.1 _ m1) (hx.1 _ m2)
    have hv : p.2 = q.2 := by
      have h1 := h p.1
      simpa [rawFind, hk] using h1
    have hp : p = q := Prod.ext hk hv
    subst hp
    have ht : xs = ys := by
      apply ascending_ext xs ys hx.2 hy.2
      intro k
      by_cases hkp : k = p.1
      · rw [hkp, hxs, hys]
      · have h1 := h k
        simpa [rawFind, hkp] using h1
    rw [ht]

theorem rawFind_eq_some_iff (k : K) (v : V) (xs : List (K × V)) (h : Ascending xs) :
    rawFind k xs = some v ↔ (k, v) ∈ xs := by
  induction xs with
  | nil => simp [rawFind]
  | cons p xs ih =>
    unfold Ascending at h ih
    rw [List.map_cons, List.pairwise_cons] at h
    by_cases hk : k = p.1
    · subst hk
      simp only [rawFind, if_true, Option.some.injEq, List.mem_cons]
      constructor
      · intro hv; left; exact Prod.ext rfl hv.symm
      · rintro (hv | hv)
        · rw [← hv]
        · exact absurd (h.1 p.1 (List.mem_map.2 ⟨(p.1, v), hv, rfl⟩)) (lt_irrefl _)
    · simp only [rawFind, hk, if_false, List.mem_cons, ih h.2]
      constructor
      · intro hv; exact Or.inr hv
      · rintro (hv | hv)
        · exact absurd (congrArg Prod.fst hv) hk
        · exact hv

end RawFacts

/-! ## Properties of the containers -/

namespace KeyMap

variable {K : Type} [LinearOrder K] {V : Type}

theorem ext_find {m₁ m₂ : KeyMap K V} (h : ∀ k, m₁.find k = m₂.find k) : m₁ = m₂ := by
  cases m₁ with
  | mk xs hx =>
    cases m₂ with
    | mk ys hy =>
      have : xs = ys := ascending_ext xs ys hx hy h
      subst this
      rfl

@[simp] theorem find_empty (k : K) : (empty : KeyMap K V).find k = none := rfl

@[simp] theorem contains_empty (k : K) : (empty : KeyMap K V).contains k = false := rfl

@[simp] theorem find_assign (m : KeyMap K V) (k k' : K) (v : V) :
    (m.assign k v).find k' = if k' = k then some v else m.find k' :=
  rawFind_rawAssign k k' v m.entries

@[simp] theorem find_erase (m : KeyMap K V) (k k' : K) :
    (m.erase k).find k' = if k' = k then none else m.find k' :=
  rawFind_rawErase k k' m.entries

@[simp] theorem find_insertKey (s : KeyMap K Unit) (k k' : K) :
    (s.insertKey k).find k' = if k' = k then some () else s.find k' :=
  find_assign s k k' ()

@[simp] theorem contains_assign (m : KeyMap K V) (k k' : K) (v : V) :
    (m.assign k v).contains k' = (decide (k' = k) || m.contains k') := by
  unfold contains
  rw [find_assign]
  by_cases h : k' = k <;> simp [h]

@[simp] theorem contains_erase (m : KeyMap K V) (k k' : K) :
    (m.erase k).contains k' = (!decide (k' = k) && m.contains k') := by
  unfold contains
  rw [find_erase]
  by_cases h : k' = k <;> simp [h]

@[simp] theorem contains_insertKey (s : KeyMap K Unit) (k k' : K) :
    (s.insertKey k).contains k' = (decide (k' = k) || s.contains k') :=
  contains_assign s k k' ()

theorem contains_iff_mem_keys (m : KeyMap K V) (k : K) : m.contains k = true ↔ k ∈ m.keys :=
  rawFind_isSome_iff k m.entries

theorem keys_nodup (m : KeyMap K V) : m.keys.Nodup :=
  List.Pairwise.imp (fun h => ne_of_lt h) m.ascending

theorem contains_eq_false_iff (m : KeyMap K V) (k : K) : m.contains k = false ↔ m.find k = none := by
  unfold contains
  cases m.find k <;> simp

theorem mem_entries_iff (m : KeyMap K V) (k : K) (v : V) :
    (k, v) ∈ m.entries ↔ m.find k = some v :=
  (rawFind_eq_some_iff k v m.entries m.ascending).symm

theorem mem_values (m : KeyMap K V) (v : V) (h : v ∈ m.values) : ∃ k, m.find k = some v := by
  unfold values at h
  obtain ⟨p, hp, hv⟩ := List.mem_map.1 h
  exact ⟨p.1, (m.mem_entries_iff p.1 v).1 (by rw [← hv]; exact hp)⟩

theorem values_map_eq_keys (m : KeyMap K V) (key : V → K)
    (h : ∀ k v, m.find k = some v → key v = k) : m.values.map key = m.keys := by
  unfold values keys
  rw [List.map_map]
  apply List.map_congr_left
  intro p hp
  exact h p.1 p.2 ((m.mem_entries_iff p.1 p.2).1 hp)

theorem find_unit_eq (s₁ s₂ : KeyMap K Unit) (k : K) (h : s₁.contains k = s₂.contains k) :
    s₁.find k = s₂.find k := by
  unfold contains at h
  cases h1 : s₁.find k <;> cases h2 : s₂.find k <;> simp_all

end KeyMap

/-! ## Pairwise disjointness of the three change sets -/

namespace LedgerDelta

variable {K E H : Type} [LinearOrder K]

theorem pairwiseDisjoint_iff_check (d : LedgerDelta K E H) :
    PairwiseDisjoint d ↔ disjointCheck d = true := by
  unfold PairwiseDisjoint disjointCheck
  simp only [Bool.and_eq_true, List.all_eq_true, Bool.not_eq_true', ← KeyMap.contains_iff_mem_keys]
  constructor
  · intro h
    refine ⟨fun k hk => ?_, fun k hk => ?_⟩
    · have := h k
      cases hm : d.mMod.contains k <;> cases hd : d.mDelete.contains k <;> simp_all
    · have := h k
      cases hd : d.mDelete.contains k <;> simp_all
  · rintro ⟨h1, h2⟩ k
    refine ⟨?_, ?_, ?_⟩
    · rintro ⟨a, b⟩; have := h1 k a; simp_all
    · rintro ⟨a, b⟩; have := h1 k a; simp_all
    · rintro ⟨a, b⟩; have := h2 k a; simp_all

instance (d : LedgerDelta K E H) : Decidable (PairwiseDisjoint d) :=
  decidable_of_iff _ (pairwiseDisjoint_iff_check d).symm

instance (d : LedgerDelta K E H) : Decidable (SetsEmpty d) := by
  unfold SetsEmpty
  exact inferInstanceAs (Decidable (_ ∧ _ ∧ _))

theorem pairwiseDisjoint_of_setsEmpty (d : LedgerDelta K E H) (h : SetsEmpty d) :
    PairwiseDisjoint d := by
  intro k
  have h1 : ¬ d.mNew.contains k = true := by
    rw [KeyMap.contains_iff_mem_keys, h.1]; simp
  have h2 : ¬ d.mMod.contains k = true := by
    rw [KeyMap.contains_iff_mem_keys, h.2.1]; simp
  simp [h1, h2]

variable [EntryFrame E K]

theorem addEntry_disjoint (entry : E) (d : LedgerDelta K E H) (h : PairwiseDisjoint d) :
    PairwiseDisjoint (addEntry entry d).state := by
  unfold addEntry
  split
  · exact h
  · dsimp only
    split_ifs with h1 h2 h3
    · intro k; have := h k; have := h (EntryFrame.getKey entry)
      by_cases hk : k = EntryFrame.getKey entry
      · subst hk; simp_all
      · simp_all
    · exact h
    · exact h
    · intro k; have := h k
      by_cases hk : k = EntryFrame.getKey entry
      · subst hk; simp_all
      · simp_all

theorem deleteEntry_disjoint (k₀ : K) (d : LedgerDelta K E H) (h : PairwiseDisjoint d) :
    PairwiseDisjoint (deleteEntry k₀ d).state := by
  unfold deleteEntry
  split
  · exact h
  · split_ifs with h1 h2
    · intro k; have := h k
      by_cases hk : k = k₀
      · subst hk; simp_all
      · simp_all
    · exact h
    · intro k; have := h k
      by_cases hk : k = k₀
      · subst hk; simp_all
      · simp_all

theorem modEntry_disjoint (entry : E) (d : LedgerDelta K E H) (h : PairwiseDisjoint d) :
    PairwiseDisjoint (modEntry entry d).state := by
  unfold modEntry
  split
  · exact h
  · dsimp only
    split_ifs with h1 h2 h3
    · intro k; have := h k; have := h (EntryFrame.getKey entry)
      by_cases hk : k = EntryFrame.getKey entry
      · subst hk; simp_all
      · simp_all
    · intro k; have := h k; have := h (EntryFrame.getKey entry)
      by_cases hk : k = EntryFrame.getKey entry
      · subst hk; simp_all
      · simp_all
    · exact h
    · intro k; have := h k
      by_cases hk : k = EntryFrame.getKey entry
      · subst hk; simp_all
      · simp_all

end LedgerDelta

theorem forEach_invariant {α σ : Type} (f : α → σ → Outcome σ) (P : σ → Prop)
    (hf : ∀ a s, P s → P (f a s).state) : ∀ (l : List α) (s : σ), P s → P (forEach f l s).state
  | [], _, h => h
  | a :: rest, s, h => by
    unfold forEach
    split
    · exact hf a s h
    · exact forEach_invariant f P hf rest _ (hf a s h)

namespace LedgerDelta

variable {K E H : Type} [LinearOrder K] [EntryFrame E K]

theorem mergeEntries_disjoint (other d : LedgerDelta K E H) (h : PairwiseDisjoint d) :
    PairwiseDisjoint (mergeEntries d other).state := by
  unfold mergeEntries
  split
  · exact h
  · have h1 := forEach_invariant deleteEntry PairwiseDisjoint
      (fun a s hs => deleteEntry_disjoint a s hs) other.mDelete.keys d h
    dsimp only
    split
    · exact h1
    · have h2 := forEach_invariant addEntry PairwiseDisjoint
        (fun a s hs => addEntry_disjoint a s hs) other.mNew.values _ h1
      split
      · exact h2
      · exact forEach_invariant modEntry PairwiseDisjoint
          (fun a s hs => modEntry_disjoint a s hs) other.mMod.values _ h2

end LedgerDelta

theorem Op.apply_disjoint {K E H : Type} [LinearOrder K] [EntryFrame E K] (op : Op K E H)
    (d : LedgerDelta K E H) (h : d.PairwiseDisjoint) : (op.apply d).state.PairwiseDisjoint := by
  cases op with
  | create entry => exact LedgerDelta.addEntry_disjoint entry d h
  | modify entry => exact LedgerDelta.modEntry_disjoint entry d h
  | delete k => exact LedgerDelta.deleteEntry_disjoint k d h
  | merge other => exact LedgerDelta.mergeEntries_disjoint other d h

theorem runAll_disjoint {K E H : Type} [LinearOrder K] [EntryFrame E K] :
    ∀ (ops : List (Op K E H)) (d : LedgerDelta K E H), d.PairwiseDisjoint →
      (runAll ops d).PairwiseDisjoint
  | [], _, h => h
  | op :: ops, d, h => runAll_disjoint ops _ (Op.apply_disjoint op d h)

theorem run_disjoint {K E H : Type} [LinearOrder K] [EntryFrame E K] (ops : List (Op K E H))
    (d : LedgerDelta K E H) (h : d.PairwiseDisjoint) : (run ops d).state.PairwiseDisjoint :=
  forEach_invariant Op.apply LedgerDelta.PairwiseDisjoint Op.apply_disjoint ops d h

/-! ## Fields outside the change sets -/

namespace LedgerDelta

variable {K E H : Type} [LinearOrder K] [EntryFrame E K]

theorem checkState_eq_none {d : LedgerDelta K E H} {ref : HeaderRef} (h : d.mHeader = some ref) :
    d.checkState = none := by
  unfold checkState; rw [h]

theorem checkState_eq_some {d : LedgerDelta K E H} (h : d.mHeader = none) :
    d.checkState = some Error.alreadyCommitted := by
  unfold checkState; rw [h]

theorem addEntry_frame (entry : E) (d₀ d : LedgerDelta K E H) (h : SameFrame d₀ d) :
    SameFrame d₀ (addEntry entry d).state := by
  unfold addEntry
  split
  · exact h
  · dsimp only; split_ifs <;> exact h

theorem deleteEntry_frame (k : K) (d₀ d : LedgerDelta K E H) (h : SameFrame d₀ d) :
    SameFrame d₀ (deleteEntry k d).state := by
  unfold deleteEntry
  split
  · exact h
  · split_ifs <;> exact h

theorem modEntry_frame (entry : E) (d₀ d : LedgerDelta K E H) (h : SameFrame d₀ d) :
    SameFrame d₀ (modEntry entry d).state := by
  unfold modEntry
  split
  · exact h
  · dsimp only; split_ifs <;> exact h

theorem mergeEntries_frame (other d₀ d : LedgerDelta K E H) (h : SameFrame d₀ d) :
    SameFrame d₀ (mergeEntries d other).state := by
  unfold mergeEntries
  split
  · exact h
  · have h1 := forEach_invariant deleteEntry (SameFrame d₀)
      (fun a s hs => deleteEntry_frame a d₀ s hs) other.mDelete.keys d h
    dsimp only
    split
    · exact h1
    · have h2 := forEach_invariant addEntry (SameFrame d₀)
        (fun a s hs => addEntry_frame a d₀ s hs) other.mNew.values _ h1
      split
      · exact h2
      · exact forEach_invariant modEntry (SameFrame d₀)
          (fun a s hs => modEntry_frame a d₀ s hs) other.mMod.values _ h2

theorem addEntry_terminal (entry : E) (d : LedgerDelta K E H) (h : d.mHeader = none) :
    addEntry entry d = ⟨some Error.alreadyCommitted, d⟩ := by
  unfold addEntry; rw [checkState_eq_some h]

theorem deleteEntry_terminal (k : K) (d : LedgerDelta K E H) (h : d.mHeader = none) :
    deleteEntry k d = ⟨some Error.alreadyCommitted, d⟩ := by
  unfold deleteEntry; rw [checkState_eq_some h]

theorem modEntry_terminal (entry : E) (d : LedgerDelta K E H) (h : d.mHeader = none) :
    modEntry entry d = ⟨some Error.alreadyCommitted, d⟩ := by
  unfold modEntry; rw [checkState_eq_some h]

theorem mergeEntries_terminal (other d : LedgerDelta K E H) (h : d.mHeader = none) :
    mergeEntries d other = ⟨some Error.alreadyCommitted, d⟩ := by
  unfold mergeEntries; rw [checkState_eq_some h]

end LedgerDelta

theorem Op.apply_frame {K E H : Type} [LinearOrder K] [EntryFrame E K] (op : Op K E H)
    (d₀ d : LedgerDelta K E H) (h : d₀.SameFrame d) : d₀.SameFrame (op.apply d).state := by
  cases op with
  | create entry => exact LedgerDelta.addEntry_frame entry d₀ d h
  | modify entry => exact LedgerDelta.modEntry_frame entry d₀ d h
  | delete k => exact LedgerDelta.deleteEntry_frame k d₀ d h
  | merge other => exact LedgerDelta.mergeEntries_frame other d₀ d h

namespace Store

variable {K E H : Type} [LinearOrder K] [EntryFrame E K]

theorem ext_fields {w₁ w₂ : Store K E H} (h₁ : w₁.headers = w₂.headers) (h₂ : w₁.deltas = w₂.deltas) :
    w₁ = w₂ := by
  cases w₁; cases w₂; simp only at h₁ h₂; subst h₁ h₂; rfl

theorem setDelta_self (w : Store K E H) (i : Nat) : w.setDelta i (w.deltas i) = w := by
  refine Store.ext_fields rfl ?_
  funext j
  unfold setDelta
  dsimp only
  split_ifs with h
  · rw [h]
  · rfl

@[simp] theorem setDelta_deltas_same (w : Store K E H) (i : Nat) (d : LedgerDelta K E H) :
    (w.setDelta i d).deltas i = d := by
  simp [setDelta]

theorem setDelta_deltas_other (w : Store K E H) (i j : Nat) (d : LedgerDelta K E H)
    (h : j ≠ i) : (w.setDelta i d).deltas j = w.deltas j := by
  simp [setDelta, h]

@[simp] theorem setDelta_headers (w : Store K E H) (i : Nat) (d : LedgerDelta K E H) :
    (w.setDelta i d).headers = w.headers := rfl

end Store

namespace Store

variable {K E H : Type} [LinearOrder K] [EntryFrame E K]

theorem readHeader_writeHeader (w : Store K E H) (ref : HeaderRef) (h : H) :
    (w.writeHeader ref h).readHeader ref = h := by
  cases ref <;> simp [readHeader, writeHeader, setDelta]

theorem readHeader_setDelta (w : Store K E H) (i : Nat) (d : LedgerDelta K E H)
    (ref : HeaderRef) (hd : d.mCurrentHeader = (w.deltas i).mCurrentHeader) :
    (w.setDelta i d).readHeader ref = w.readHeader ref := by
  cases ref with
  | external a => rfl
  | working j =>
    unfold readHeader setDelta
    dsimp only
    split_ifs with h
    · rw [hd, h]
    · rfl

theorem readHeader_finishCommit (w : Store K E H) (s : Nat) (ref : HeaderRef) :
    (finishCommit s ref w).readHeader ref = (w.deltas s).mCurrentHeader := by
  unfold finishCommit
  have h := readHeader_setDelta (w.writeHeader ref (w.deltas s).mCurrentHeader) s
    { (w.writeHeader ref (w.deltas s).mCurrentHeader).deltas s with mHeader := none } ref rfl
  rw [h, readHeader_writeHeader]

theorem commit_snapshot_mismatch [DecidableEq H] (w : Store K E H) (s : Nat) (ref : HeaderRef)
    (hActive : (w.deltas s).mHeader = some ref)
    (hne : (w.deltas s).mPreviousHeaderValue ≠ w.readHeader ref) :
    w.commit s = ⟨some Error.unexpectedHeaderState, w⟩ := by
  unfold commit
  rw [hActive]
  simp only [hne, ne_eq, not_false_eq_true, if_true]

theorem commit_topLevel [DecidableEq H] (w : Store K E H) (s : Nat) (ref : HeaderRef)
    (hActive : (w.deltas s).mHeader = some ref)
    (hsnap : (w.deltas s).mPreviousHeaderValue = w.readHeader ref)
    (hTop : (w.deltas s).mOuterDelta = none) :
    w.commit s = ⟨none, finishCommit s ref w⟩ := by
  unfold commit finishCommit
  rw [hActive, hTop]
  simp only [hsnap, ne_eq, not_true_eq_false, if_false]

theorem commit_nested_fail [DecidableEq H] (w : Store K E H) (s p : Nat) (ref : HeaderRef)
    (e : Error) (hActive : (w.deltas s).mHeader = some ref)
    (hsnap : (w.deltas s).mPreviousHeaderValue = w.readHeader ref)
    (hp : (w.deltas s).mOuterDelta = some p)
    (hm : ((w.deltas p).mergeEntries (w.deltas s)).error = some e) :
    w.commit s = ⟨some e, w.setDelta p ((w.deltas p).mergeEntries (w.deltas s)).state⟩ := by
  unfold commit
  rw [hActive, hp]
  simp only [hsnap, ne_eq, not_true_eq_false, if_false, mergeEntries, call, hm]

theorem commit_nested_ok [DecidableEq H] (w : Store K E H) (s p : Nat) (ref : HeaderRef)
    (hActive : (w.deltas s).mHeader = some ref)
    (hsnap : (w.deltas s).mPreviousHeaderValue = w.readHeader ref)
    (hp : (w.deltas s).mOuterDelta = some p)
    (hm : ((w.deltas p).mergeEntries (w.deltas s)).error = none) :
    w.commit s = ⟨none, finishCommit s ref
      ((w.setDelta p ((w.deltas p).mergeEntries (w.deltas s)).state).setDelta s
        { (w.setDelta p ((w.deltas p).mergeEntries (w.deltas s)).state).deltas s with
          mOuterDelta := none })⟩ := by
  unfold commit finishCommit
  rw [hActive, hp]
  simp only [hsnap, ne_eq, not_true_eq_false, if_false, mergeEntries, call, hm]

end Store

/-! ## Merge as a replay of the child's net effect -/

theorem forEach_state_of_ok {α σ : Type} (f : α → σ → Outcome σ) :
    ∀ (l : List α) (s : σ), (forEach f l s).error = none →
      (forEach f l s).state = l.foldl (fun acc a => (f a acc).state) s
  | [], _, _ => rfl
  | a :: rest, s, h => by
    unfold forEach at h ⊢
    cases hfa : (f a s).error with
    | some e => rw [hfa] at h; simp at h
    | none =>
      rw [hfa] at h
      simp only [List.foldl_cons]
      exact forEach_state_of_ok f rest _ h

theorem forEach_error {α σ : Type} (f : α → σ → Outcome σ) (P : σ → Prop) (Q : Error → Prop)
    (hf : ∀ a s, P s → P (f a s).state)
    (he : ∀ a s e, P s → (f a s).error = some e → Q e) :
    ∀ (l : List α) (s : σ) (e : Error), P s → (forEach f l s).error = some e → Q e
  | [], _, _, _, h => by simp [forEach] at h
  | a :: rest, s, e, hs, h => by
    unfold forEach at h
    cases hfa : (f a s).error with
    | some e' =>
      rw [hfa] at h
      simp only [Option.some.injEq] at h
      subst h
      exact he a s e' hs hfa
    | none =>
      rw [hfa] at h
      exact forEach_error f P Q hf he rest _ e (hf a s hs) h

namespace LedgerDelta

variable {K E H : Type} [LinearOrder K] [EntryFrame E K]

theorem mergeEntries_state_of_ok (d other : LedgerDelta K E H)
    (h : (d.mergeEntries other).error = none) :
    (d.mergeEntries other).state = replayNet other d := by
  unfold mergeEntries at h ⊢
  unfold replayNet
  cases hcs : d.checkState with
  | some e => rw [hcs] at h; simp at h
  | none =>
    rw [hcs] at h
    dsimp only at h ⊢
    cases h1 : (forEach deleteEntry other.mDelete.keys d).error with
    | some e => rw [h1] at h; simp at h
    | none =>
      rw [h1] at h
      dsimp only at h ⊢
      rw [forEach_state_of_ok _ _ _ h1] at h ⊢
      cases h2 : (forEach addEntry other.mNew.values
          (other.mDelete.keys.foldl (fun acc k => (deleteEntry k acc).state) d)).error with
      | some e => rw [h2] at h; simp at h
      | none =>
        rw [h2] at h
        dsimp only at h ⊢
        rw [forEach_state_of_ok _ _ _ h2] at h ⊢
        rw [forEach_state_of_ok _ _ _ h]

theorem addEntry_error_active (entry : E) (d : LedgerDelta K E H) (e : Error)
    (hA : d.mHeader.isSome = true) (h : (addEntry entry d).error = some e) :
    e.isKeyConflict = true := by
  unfold addEntry checkState at h
  cases hh : d.mHeader with
  | none => rw [hh] at hA; simp at hA
  | some r =>
    rw [hh] at h
    dsimp only at h
    split_ifs at h <;> simp at h <;> subst h <;> rfl

theorem deleteEntry_error_active (k : K) (d : LedgerDelta K E H) (e : Error)
    (hA : d.mHeader.isSome = true) (h : (deleteEntry k d).error = some e) :
    e.isKeyConflict = true := by
  unfold deleteEntry checkState at h
  cases hh : d.mHeader with
  | none => rw [hh] at hA; simp at hA
  | some r =>
    rw [hh] at h
    dsimp only at h
    split_ifs at h; simp at h; subst h; rfl

theorem modEntry_error_active (entry : E) (d : LedgerDelta K E H) (e : Error)
    (hA : d.mHeader.isSome = true) (h : (modEntry entry d).error = some e) :
    e.isKeyConflict = true := by
  unfold modEntry checkState at h
  cases hh : d.mHeader with
  | none => rw [hh] at hA; simp at hA
  | some r =>
    rw [hh] at h
    dsimp only at h
    split_ifs at h; simp at h; subst h; rfl

theorem addEntry_active (entry : E) (d : LedgerDelta K E H) (hA : d.mHeader.isSome = true) :
    (addEntry entry d).state.mHeader.isSome = true := by
  have h := addEntry_frame entry d d ⟨rfl, rfl, rfl, rfl⟩
  rw [h.2.1]; exact hA

theorem deleteEntry_active (k : K) (d : LedgerDelta K E H) (hA : d.mHeader.isSome = true) :
    (deleteEntry k d).state.mHeader.isSome = true := by
  have h := deleteEntry_frame k d d ⟨rfl, rfl, rfl, rfl⟩
  rw [h.2.1]; exact hA

theorem modEntry_active (entry : E) (d : LedgerDelta K E H) (hA : d.mHeader.isSome = true) :
    (modEntry entry d).state.mHeader.isSome = true := by
  have h := modEntry_frame entry d d ⟨rfl, rfl, rfl, rfl⟩
  rw [h.2.1]; exact hA

/-- A failed merge either failed on an assertion, or was refused by `checkState` and
changed nothing. -/
theorem mergeEntries_error_cases (d other : LedgerDelta K E H) (e : Error)
    (h : (d.mergeEntries other).error = some e) :
    e.isKeyConflict = true ∨ d.mergeEntries other = ⟨some Error.alreadyCommitted, d⟩ := by
  cases hh : d.mHeader with
  | none => exact Or.inr (mergeEntries_terminal other d hh)
  | some r =>
    left
    have hA : d.mHeader.isSome = true := by rw [hh]; rfl
    have a1 : (forEach deleteEntry other.mDelete.keys d).state.mHeader.isSome = true :=
      forEach_invariant deleteEntry (fun x => x.mHeader.isSome = true)
        (fun a s hs => deleteEntry_active a s hs) _ d hA
    have a2 : (forEach addEntry other.mNew.values
        (forEach deleteEntry other.mDelete.keys d).state).state.mHeader.isSome = true :=
      forEach_invariant addEntry (fun x => x.mHeader.isSome = true)
        (fun a s hs => addEntry_active a s hs) _ _ a1
    unfold mergeEntries at h
    rw [checkState_eq_none hh] at h
    dsimp only at h
    cases h1 : (forEach deleteEntry other.mDelete.keys d).error with
    | some e1 =>
      rw [h1] at h
      simp only [Option.some.injEq] at h
      subst h
      exact forEach_error deleteEntry (fun x => x.mHeader.isSome = true)
        (fun e => e.isKeyConflict = true) (fun a s hs => deleteEntry_active a s hs)
        (fun a s e hs he => deleteEntry_error_active a s e hs he) _ d e1 hA h1
    | none =>
      rw [h1] at h
      dsimp only at h
      cases h2 : (forEach addEntry other.mNew.values
          (forEach deleteEntry other.mDelete.keys d).state).error with
      | some e2 =>
        rw [h2] at h
        simp only [Option.some.injEq] at h
        subst h
        exact forEach_error addEntry (fun x => x.mHeader.isSome = true)
          (fun e => e.isKeyConflict = true) (fun a s hs => addEntry_active a s hs)
          (fun a s e hs he => addEntry_error_active a s e hs he) _ _ e2 a1 h2
      | none =>
        rw [h2] at h
        dsimp only at h
        exact forEach_error modEntry (fun x => x.mHeader.isSome = true)
          (fun e => e.isKeyConflict = true) (fun a s hs => modEntry_active a s hs)
          (fun a s e hs he => modEntry_error_active a s e hs he) _ _ e a2 h

end LedgerDelta

namespace Store

variable {K E H : Type} [LinearOrder K] [EntryFrame E K]

theorem writeHeader_deltas (w : Store K E H) (ref : HeaderRef) (h : H) (j : Nat) :
    ∃ h', (w.writeHeader ref h).deltas j = { w.deltas j with mCurrentHeader := h' } := by
  cases ref with
  | external a => exact ⟨(w.deltas j).mCurrentHeader, rfl⟩
  | working i =>
    unfold writeHeader setDelta
    dsimp only
    split_ifs with hji
    · exact ⟨h, by rw [hji]⟩
    · exact ⟨(w.deltas j).mCurrentHeader, rfl⟩

theorem finishCommit_deltas (w : Store K E H) (s : Nat) (ref : HeaderRef) (j : Nat) :
    ∃ h' r, (finishCommit s ref w).deltas j =
      { w.deltas j with mCurrentHeader := h', mHeader := r } ∧ (j = s → r = none) := by
  obtain ⟨h', hw⟩ := writeHeader_deltas w ref (w.deltas s).mCurrentHeader j
  unfold finishCommit setDelta
  dsimp only
  split_ifs with hjs
  · subst hjs
    exact ⟨h', none, by rw [hw], fun _ => rfl⟩
  · exact ⟨h', (w.deltas j).mHeader, by rw [hw], fun h => absurd h hjs⟩

end Store

theorem Store.edit_keeps {K E H : Type} [LinearOrder K] [EntryFrame E K] (c : Nat)
    (w : Store K E H) (e : Edit K E H) :
    ((w.edit c e).deltas c).mHeader = (w.deltas c).mHeader ∧
      (∀ j, j ≠ c → (w.edit c e).deltas j = w.deltas j) ∧ (w.edit c e).headers = w.headers := by
  cases e with
  | call op =>
    refine ⟨?_, fun j hj => ?_, rfl⟩
    · show ((w.setDelta c (op.apply (w.deltas c)).state).deltas c).mHeader = _
      rw [Store.setDelta_deltas_same]
      exact (Op.apply_frame op (w.deltas c) (w.deltas c) ⟨rfl, rfl, rfl, rfl⟩).2.1
    · exact Store.setDelta_deltas_other _ _ _ _ hj
  | header h =>
    refine ⟨?_, fun j hj => ?_, rfl⟩
    · show ((w.setDelta c { w.deltas c with mCurrentHeader := h }).deltas c).mHeader = _
      rw [Store.setDelta_deltas_same]
    · exact Store.setDelta_deltas_other _ _ _ _ hj

theorem Store.edits_keep {K E H : Type} [LinearOrder K] [EntryFrame E K] (c : Nat) :
    ∀ (edits : List (Edit K E H)) (w : Store K E H),
      ((edits.foldl (Store.edit c) w).deltas c).mHeader = (w.deltas c).mHeader ∧
        (∀ j, j ≠ c → (edits.foldl (Store.edit c) w).deltas j = w.deltas j) ∧
        (edits.foldl (Store.edit c) w).headers = w.headers
  | [], _ => ⟨rfl, fun _ _ => rfl, rfl⟩
  | e :: rest, w => by
    have h1 := Store.edit_keeps c w e
    have h2 := Store.edits_keep c rest (w.edit c e)
    simp only [List.foldl_cons]
    refine ⟨h2.1.trans h1.1, fun j hj => (h2.2.1 j hj).trans (h1.2.1 j hj), h2.2.2.trans h1.2.2⟩

/-! ## What a delta records for one key -/

namespace View

variable {E : Type}

theorem merge_add (entry : E) (c p p' c₂ p₂ : View E) (hc : c.Valid) (hp : p.Valid)
    (hm : c.merge p = some p') (h1 : c.add entry = some c₂) (h2 : p'.add entry = some p₂) :
    c₂.merge p = some p₂ := by
  obtain ⟨cn, cm, cd⟩ := c
  obtain ⟨pn, pm, pd⟩ := p
  cases cn <;> cases cm <;> cases cd <;> cases pn <;> cases pm <;> cases pd <;>
    simp [Valid] at hc hp <;>
    simp [merge, add, delete, modify] at hm h1 <;>
    subst_vars <;>
    simp [merge, add, delete, modify] at h2 ⊢ <;>
    exact h2

theorem merge_modify (entry : E) (c p p' c₂ p₂ : View E) (hc : c.Valid) (hp : p.Valid)
    (hm : c.merge p = some p') (h1 : c.modify entry = some c₂)
    (h2 : p'.modify entry = some p₂) : c₂.merge p = some p₂ := by
  obtain ⟨cn, cm, cd⟩ := c
  obtain ⟨pn, pm, pd⟩ := p
  cases cn <;> cases cm <;> cases cd <;> cases pn <;> cases pm <;> cases pd <;>
    simp [Valid] at hc hp <;>
    simp [merge, add, delete, modify] at hm h1 <;>
    subst_vars <;>
    simp [merge, add, delete, modify] at h2 ⊢ <;>
    exact h2

theorem merge_delete (c p p' c₂ p₂ : View E) (hc : c.Valid) (hp : p.Valid)
    (hm : c.merge p = some p') (h1 : c.delete = some c₂) (h2 : p'.delete = some p₂) :
    c₂.merge p = some p₂ := by
  obtain ⟨cn, cm, cd⟩ := c
  obtain ⟨pn, pm, pd⟩ := p
  cases cn <;> cases cm <;> cases cd <;> cases pn <;> cases pm <;> cases pd <;>
    simp [Valid] at hc hp <;>
    simp [merge, add, delete, modify] at hm h1 <;>
    subst_vars <;>
    simp [merge, add, delete, modify] at h2 ⊢ <;>
    exact h2

end View

namespace LedgerDelta

variable {K E H : Type} [LinearOrder K] [EntryFrame E K]

theorem view_valid (d : LedgerDelta K E H) (h : d.PairwiseDisjoint) (k : K) :
    (d.view k).Valid := h k

theorem keyed_of_setsEmpty (d : LedgerDelta K E H) (h : d.SetsEmpty) : d.Keyed := by
  have h1 : ∀ k, d.mNew.find k = none := fun k => by
    rw [← KeyMap.contains_eq_false_iff, Bool.eq_false_iff, Ne, KeyMap.contains_iff_mem_keys, h.1]
    simp
  have h2 : ∀ k, d.mMod.find k = none := fun k => by
    rw [← KeyMap.contains_eq_false_iff, Bool.eq_false_iff, Ne, KeyMap.contains_iff_mem_keys,
      h.2.1]
    simp
  exact ⟨fun k e he => by rw [h1 k] at he; simp at he,
    fun k e he => by rw [h2 k] at he; simp at he⟩

theorem view_of_setsEmpty (d : LedgerDelta K E H) (h : d.SetsEmpty) (k : K) :
    d.view k = ⟨none, none, false⟩ := by
  have h1 : d.mNew.find k = none := by
    rw [← KeyMap.contains_eq_false_iff, Bool.eq_false_iff, Ne, KeyMap.contains_iff_mem_keys, h.1]
    simp
  have h2 : d.mMod.find k = none := by
    rw [← KeyMap.contains_eq_false_iff, Bool.eq_false_iff, Ne, KeyMap.contains_iff_mem_keys,
      h.2.1]
    simp
  have h3 : d.mDelete.contains k = false := by
    rw [Bool.eq_false_iff, Ne, KeyMap.contains_iff_mem_keys, h.2.2]
    simp
  unfold view
  rw [h1, h2, h3]

theorem addEntry_view_other (entry : E) (d : LedgerDelta K E H) (k' : K)
    (h : k' ≠ EntryFrame.getKey entry) : (addEntry entry d).state.view k' = d.view k' := by
  unfold addEntry
  split
  · rfl
  · dsimp only
    split_ifs <;> simp [view, h]

theorem deleteEntry_view_other (k : K) (d : LedgerDelta K E H) (k' : K)
    (h : k' ≠ k) : (deleteEntry k d).state.view k' = d.view k' := by
  unfold deleteEntry
  split
  · rfl
  · split_ifs <;> simp [view, h]

theorem modEntry_view_other (entry : E) (d : LedgerDelta K E H) (k' : K)
    (h : k' ≠ EntryFrame.getKey entry) : (modEntry entry d).state.view k' = d.view k' := by
  unfold modEntry
  split
  · rfl
  · dsimp only
    split_ifs <;> simp [view, h]

theorem addEntry_view_key (entry : E) (d : LedgerDelta K E H) (hA : d.mHeader.isSome = true) :
    (d.view (EntryFrame.getKey entry)).add entry =
      if (addEntry entry d).error = none then
        some ((addEntry entry d).state.view (EntryFrame.getKey entry))
      else none := by
  cases hh : d.mHeader with
  | none => rw [hh] at hA; simp at hA
  | some r =>
    unfold addEntry
    rw [checkState_eq_none hh]
    unfold View.add view
    simp only [KeyMap.contains]
    split_ifs <;> simp_all [KeyMap.contains]

theorem deleteEntry_view_key (k : K) (d : LedgerDelta K E H) (hA : d.mHeader.isSome = true) :
    (d.view k).delete =
      if (deleteEntry k d).error = none then some ((deleteEntry k d).state.view k)
      else none := by
  cases hh : d.mHeader with
  | none => rw [hh] at hA; simp at hA
  | some r =>
    unfold deleteEntry
    rw [checkState_eq_none hh]
    unfold View.delete view
    simp only [KeyMap.contains]
    split_ifs <;> simp_all [KeyMap.contains]

theorem modEntry_view_key (entry : E) (d : LedgerDelta K E H) (hA : d.mHeader.isSome = true) :
    (d.view (EntryFrame.getKey entry)).modify entry =
      if (modEntry entry d).error = none then
        some ((modEntry entry d).state.view (EntryFrame.getKey entry))
      else none := by
  cases hh : d.mHeader with
  | none => rw [hh] at hA; simp at hA
  | some r =>
    unfold modEntry
    rw [checkState_eq_none hh]
    unfold View.modify view
    simp only [KeyMap.contains]
    split_ifs <;> simp_all [KeyMap.contains]

theorem addEntry_keyed (entry : E) (d : LedgerDelta K E H) (h : d.Keyed) :
    (addEntry entry d).state.Keyed := by
  unfold addEntry
  split
  · exact h
  · dsimp only
    split_ifs
    · refine ⟨h.1, fun k e he => ?_⟩
      simp only [KeyMap.find_assign] at he
      split_ifs at he with hk
      · rw [hk]; exact (Option.some.inj he) ▸ rfl
      · exact h.2 k e he
    · exact h
    · exact h
    · refine ⟨fun k e he => ?_, h.2⟩
      simp only [KeyMap.find_assign] at he
      split_ifs at he with hk
      · rw [hk]; exact (Option.some.inj he) ▸ rfl
      · exact h.1 k e he

theorem deleteEntry_keyed (k₀ : K) (d : LedgerDelta K E H) (h : d.Keyed) :
    (deleteEntry k₀ d).state.Keyed := by
  unfold deleteEntry
  split
  · exact h
  · split_ifs
    · refine ⟨fun k e he => ?_, h.2⟩
      simp only [KeyMap.find_erase] at he
      split_ifs at he with hk
      exact h.1 k e he
    · exact h
    · refine ⟨h.1, fun k e he => ?_⟩
      simp only [KeyMap.find_erase] at he
      split_ifs at he with hk
      exact h.2 k e he

theorem modEntry_keyed (entry : E) (d : LedgerDelta K E H) (h : d.Keyed) :
    (modEntry entry d).state.Keyed := by
  unfold modEntry
  split
  · exact h
  · dsimp only
    split_ifs
    · refine ⟨h.1, fun k e he => ?_⟩
      simp only [KeyMap.find_assign] at he
      split_ifs at he with hk
      · rw [hk]; exact (Option.some.inj he) ▸ rfl
      · exact h.2 k e he
    · refine ⟨fun k e he => ?_, h.2⟩
      simp only [KeyMap.find_assign] at he
      split_ifs at he with hk
      · rw [hk]; exact (Option.some.inj he) ▸ rfl
      · exact h.1 k e he
    · exact h
    · refine ⟨h.1, fun k e he => ?_⟩
      simp only [KeyMap.find_assign] at he
      split_ifs at he with hk
      · rw [hk]; exact (Option.some.inj he) ▸ rfl
      · exact h.2 k e he

end LedgerDelta

namespace LedgerDelta

variable {K E H : Type} [LinearOrder K] [EntryFrame E K]

/-- A loop of calls that each touch one key, over items with distinct keys: when the
per-key effect is defined for every item, the loop runs to its end, every item's key
gets that effect, and the other keys are left alone. -/
theorem forEach_views {α : Type} (f : α → LedgerDelta K E H → Outcome (LedgerDelta K E H))
    (key : α → K) (stepK : α → View E → Option (View E))
    (hkey : ∀ a d, d.mHeader.isSome = true →
      stepK a (d.view (key a)) =
        if (f a d).error = none then some ((f a d).state.view (key a)) else none)
    (hother : ∀ a d k', k' ≠ key a → (f a d).state.view k' = d.view k')
    (hact : ∀ a d, d.mHeader.isSome = true → (f a d).state.mHeader.isSome = true) :
    ∀ (l : List α) (d : LedgerDelta K E H), (l.map key).Nodup → d.mHeader.isSome = true →
      (∀ a ∈ l, (stepK a (d.view (key a))).isSome = true) →
      (forEach f l d).error = none ∧ (forEach f l d).state.mHeader.isSome = true ∧
        (∀ a ∈ l, stepK a (d.view (key a)) = some ((forEach f l d).state.view (key a))) ∧
        (∀ k', (∀ a ∈ l, key a ≠ k') → (forEach f l d).state.view k' = d.view k')
  | [], d, _, hA, _ => ⟨rfl, hA, fun a ha => by simp at ha, fun _ _ => rfl⟩
  | a :: rest, d, hnd, hA, hdef => by
    rw [List.map_cons, List.nodup_cons] at hnd
    have hka := hkey a d hA
    have hda := hdef a (List.mem_cons_self a rest)
    have hok : (f a d).error = none := by
      by_contra hne
      rw [if_neg hne] at hka
      rw [hka] at hda
      simp at hda
    rw [if_pos hok] at hka
    have hne : ∀ b ∈ rest, key b ≠ key a := fun b hb hbk =>
      hnd.1 (List.mem_map.2 ⟨b, hb, hbk⟩)
    have hdef' : ∀ b ∈ rest, (stepK b ((f a d).state.view (key b))).isSome = true := by
      intro b hb
      rw [hother a d (key b) (hne b hb)]
      exact hdef b (List.mem_cons_of_mem a hb)
    obtain ⟨i1, i2, i3, i4⟩ :=
      forEach_views f key stepK hkey hother hact rest (f a d).state hnd.2 (hact a d hA) hdef'
    have hun : forEach f (a :: rest) d = forEach f rest (f a d).state := by
      rw [forEach, hok]
    rw [hun]
    refine ⟨i1, i2, ?_, ?_⟩
    · intro b hb
      rcases List.mem_cons.1 hb with rfl | hb
      · rw [hka, i4 (key b) hne]
      · rw [← i3 b hb, hother a d (key b) (hne b hb)]
    · intro k' hk'
      rw [i4 k' (fun b hb => hk' b (List.mem_cons_of_mem a hb))]
      exact hother a d k' (Ne.symm (hk' a (List.mem_cons_self a rest)))

end LedgerDelta

namespace LedgerDelta

variable {K E H : Type} [LinearOrder K] [EntryFrame E K]

theorem mem_values_of_find (m : KeyMap K E) (k : K) (entry : E) (h : m.find k = some entry) :
    entry ∈ m.values :=
  List.mem_map.2 ⟨(k, entry), (m.mem_entries_iff k entry).2 h, rfl⟩

/-- Merging a child with pairwise disjoint sets, whose entries are stored under their own
keys, into an Active parent: when the per-key merge is defined for every key, the merge
runs to its end and every key of the parent gets the per-key merge. -/
theorem mergeEntries_views (P C : LedgerDelta K E H) (hP : P.mHeader.isSome = true)
    (hCd : C.PairwiseDisjoint) (hCk : C.Keyed)
    (hdef : ∀ k, ((C.view k).merge (P.view k)).isSome = true) :
    (P.mergeEntries C).error = none ∧
      ∀ k, (C.view k).merge (P.view k) = some ((P.mergeEntries C).state.view k) := by
  have hN : ∀ entry ∈ C.mNew.values, C.mNew.find (EntryFrame.getKey entry) = some entry := by
    intro entry he
    obtain ⟨k, hk⟩ := C.mNew.mem_values entry he
    rw [hCk.1 k entry hk]; exact hk
  have hM : ∀ entry ∈ C.mMod.values, C.mMod.find (EntryFrame.getKey entry) = some entry := by
    intro entry he
    obtain ⟨k, hk⟩ := C.mMod.mem_values entry he
    rw [hCk.2 k entry hk]; exact hk
  have cN : ∀ k entry, C.mNew.find k = some entry → C.mNew.contains k = true :=
    fun k entry h => by unfold KeyMap.contains; rw [h]; rfl
  have cM : ∀ k entry, C.mMod.find k = some entry → C.mMod.contains k = true :=
    fun k entry h => by unfold KeyMap.contains; rw [h]; rfl
  -- the deletes
  have hnd1 : (C.mDelete.keys.map id).Nodup := by rw [List.map_id]; exact C.mDelete.keys_nodup
  have hdef1 : ∀ k ∈ C.mDelete.keys, ((fun (_ : K) (v : View E) => v.delete) k
      (P.view (id k))).isSome = true := by
    intro k hk
    have h := hdef k
    have hc : (C.view k).del = true := (C.mDelete.contains_iff_mem_keys k).2 hk
    unfold View.merge at h
    rw [if_pos hc] at h
    exact h
  obtain ⟨e1, a1, v1, o1⟩ := forEach_views deleteEntry id (fun _ v => v.delete)
    (fun k d hA => deleteEntry_view_key k d hA) (fun k d k' h => deleteEntry_view_other k d k' h)
    (fun k d hA => deleteEntry_active k d hA) C.mDelete.keys P hnd1 hP hdef1
  have o1' : ∀ k, C.mDelete.contains k = false →
      (forEach deleteEntry C.mDelete.keys P).state.view k = P.view k := by
    intro k hk
    apply o1 k
    intro a ha hak
    have hak' : a = k := hak
    rw [hak', ← KeyMap.contains_iff_mem_keys, hk] at ha
    simp at ha
  -- the creates
  have hnd2 : (C.mNew.values.map EntryFrame.getKey).Nodup := by
    rw [C.mNew.values_map_eq_keys EntryFrame.getKey hCk.1]; exact C.mNew.keys_nodup
  have hdef2 : ∀ entry ∈ C.mNew.values,
      (((forEach deleteEntry C.mDelete.keys P).state.view (EntryFrame.getKey entry)).add
        entry).isSome = true := by
    intro entry he
    have hf := hN entry he
    have hd := hCd (EntryFrame.getKey entry)
    have hc : C.mDelete.contains (EntryFrame.getKey entry) = false := by
      cases hx : C.mDelete.contains (EntryFrame.getKey entry) with
      | false => rfl
      | true => exact absurd ⟨cN _ _ hf, hx⟩ hd.2.1
    rw [o1' _ hc]
    have h := hdef (EntryFrame.getKey entry)
    unfold View.merge at h
    have hc' : (C.view (EntryFrame.getKey entry)).del = false := hc
    have hn' : (C.view (EntryFrame.getKey entry)).new = some entry := hf
    rw [hc', hn'] at h
    simpa using h
  obtain ⟨e2, a2, v2, o2⟩ := forEach_views addEntry EntryFrame.getKey (fun entry v => v.add entry)
    (fun entry d hA => addEntry_view_key entry d hA)
    (fun entry d k' h => addEntry_view_other entry d k' h)
    (fun entry d hA => addEntry_active entry d hA) C.mNew.values _ hnd2 a1 hdef2
  have o2' : ∀ k, C.mNew.contains k = false →
      (forEach addEntry C.mNew.values (forEach deleteEntry C.mDelete.keys P).state).state.view k
        = (forEach deleteEntry C.mDelete.keys P).state.view k := by
    intro k hk
    apply o2 k
    intro a ha hak
    have := cN _ _ (hN a ha)
    rw [hak, hk] at this
    simp at this
  -- the updates
  have hnd3 : (C.mMod.values.map EntryFrame.getKey).Nodup := by
    rw [C.mMod.values_map_eq_keys EntryFrame.getKey hCk.2]; exact C.mMod.keys_nodup
  have hdef3 : ∀ entry ∈ C.mMod.values,
      (((forEach addEntry C.mNew.values
        (forEach deleteEntry C.mDelete.keys P).state).state.view (EntryFrame.getKey entry)).modify
        entry).isSome = true := by
    intro entry he
    have hf := hM entry he
    have hd := hCd (EntryFrame.getKey entry)
    have hc : C.mDelete.contains (EntryFrame.getKey entry) = false := by
      cases hx : C.mDelete.contains (EntryFrame.getKey entry) with
      | false => rfl
      | true => exact absurd ⟨cM _ _ hf, hx⟩ hd.2.2
    have hn : C.mNew.contains (EntryFrame.getKey entry) = false := by
      cases hx : C.mNew.contains (EntryFrame.getKey entry) with
      | false => rfl
      | true => exact absurd ⟨hx, cM _ _ hf⟩ hd.1
    rw [o2' _ hn, o1' _ hc]
    have h := hdef (EntryFrame.getKey entry)
    unfold View.merge at h
    have hc' : (C.view (EntryFrame.getKey entry)).del = false := hc
    have hn' : (C.view (EntryFrame.getKey entry)).new = none :=
      (KeyMap.contains_eq_false_iff _ _).1 hn
    have hm' : (C.view (EntryFrame.getKey entry)).mod = some entry := hf
    rw [hc', hn', hm'] at h
    simpa using h
  obtain ⟨e3, _, v3, o3⟩ := forEach_views modEntry EntryFrame.getKey
    (fun entry v => v.modify entry)
    (fun entry d hA => modEntry_view_key entry d hA)
    (fun entry d k' h => modEntry_view_other entry d k' h)
    (fun entry d hA => modEntry_active entry d hA) C.mMod.values _ hnd3 a2 hdef3
  have o3' : ∀ k, C.mMod.contains k = false →
      (forEach modEntry C.mMod.values (forEach addEntry C.mNew.values
        (forEach deleteEntry C.mDelete.keys P).state).state).state.view k
        = (forEach addEntry C.mNew.values
          (forEach deleteEntry C.mDelete.keys P).state).state.view k := by
    intro k hk
    apply o3 k
    intro a ha hak
    have := cM _ _ (hM a ha)
    rw [hak, hk] at this
    simp at this
  have hmerge : P.mergeEntries C = forEach modEntry C.mMod.values (forEach addEntry C.mNew.values
      (forEach deleteEntry C.mDelete.keys P).state).state := by
    cases hh : P.mHeader with
    | none => rw [hh] at hP; simp at hP
    | some r =>
      unfold mergeEntries
      rw [checkState_eq_none hh]
      simp only [e1, e2]
  rw [hmerge]
  refine ⟨e3, fun k => ?_⟩
  have hd := hCd k
  unfold View.merge
  cases hcd : C.mDelete.contains k with
  | true =>
    have hn : C.mNew.contains k = false := by
      cases hx : C.mNew.contains k with
      | false => rfl
      | true => exact absurd ⟨hx, hcd⟩ hd.2.1
    have hm : C.mMod.contains k = false := by
      cases hx : C.mMod.contains k with
      | false => rfl
      | true => exact absurd ⟨hx, hcd⟩ hd.2.2
    have hc' : (C.view k).del = true := hcd
    rw [if_pos hc', o3' k hm, o2' k hn]
    exact v1 k ((C.mDelete.contains_iff_mem_keys k).1 hcd)
  | false =>
    have hc' : (C.view k).del = false := hcd
    rw [hc']
    simp only [Bool.false_eq_true, if_false]
    cases hcn : C.mNew.find k with
    | some entry =>
      have hk : EntryFrame.getKey entry = k := hCk.1 k entry hcn
      have hm : C.mMod.contains k = false := by
        cases hx : C.mMod.contains k with
        | false => rfl
        | true => exact absurd ⟨cN _ _ hcn, hx⟩ hd.1
      have hn' : (C.view k).new = some entry := hcn
      rw [hn', o3' k hm]
      have h2 := v2 entry (mem_values_of_find _ k entry hcn)
      rw [hk, o1' k hcd] at h2
      exact h2
    | none =>
      have hn' : (C.view k).new = none := hcn
      have hn : C.mNew.contains k = false := (KeyMap.contains_eq_false_iff _ _).2 hcn
      rw [hn']
      cases hcm : C.mMod.find k with
      | some entry =>
        have hk : EntryFrame.getKey entry = k := hCk.2 k entry hcm
        have hm' : (C.view k).mod = some entry := hcm
        rw [hm']
        have h3 := v3 entry (mem_values_of_find _ k entry hcm)
        rw [hk, o2' k hn, o1' k hcd] at h3
        exact h3
      | none =>
        have hm' : (C.view k).mod = none := hcm
        have hm : C.mMod.contains k = false := (KeyMap.contains_eq_false_iff _ _).2 hcm
        rw [hm', o3' k hm, o2' k hn, o1' k hcd]

end LedgerDelta

theorem Op.apply_active {K E H : Type} [LinearOrder K] [EntryFrame E K] (op : Op K E H)
    (d : LedgerDelta K E H) (h : d.mHeader.isSome = true) :
    (op.apply d).state.mHeader.isSome = true := by
  rw [(Op.apply_frame op d d ⟨rfl, rfl, rfl, rfl⟩).2.1]; exact h

theorem Op.apply_keyed {K E H : Type} [LinearOrder K] [EntryFrame E K] (op : Op K E H)
    (d : LedgerDelta K E H) (hb : op.isBasic = true) (h : d.Keyed) : (op.apply d).state.Keyed := by
  cases op with
  | create entry => exact LedgerDelta.addEntry_keyed entry d h
  | modify entry => exact LedgerDelta.modEntry_keyed entry d h
  | delete k => exact LedgerDelta.deleteEntry_keyed k d h
  | merge other => simp [Op.isBasic] at hb

/-- One create, modify or delete made both on the child and on the replayed parent keeps
the replayed parent equal, key by key, to the merge of the child into the parent. -/
theorem Op.apply_merge_step {K E H : Type} [LinearOrder K] [EntryFrame E K] (op : Op K E H)
    (P C P₀ : LedgerDelta K E H) (hb : op.isBasic = true) (hPd : P.PairwiseDisjoint)
    (hCd : C.PairwiseDisjoint) (hCA : C.mHeader.isSome = true) (hPA : P₀.mHeader.isSome = true)
    (hinv : ∀ k, (C.view k).merge (P.view k) = some (P₀.view k))
    (hC : (op.apply C).error = none) (hP : (op.apply P₀).error = none) :
    ∀ k, ((op.apply C).state.view k).merge (P.view k) = some ((op.apply P₀).state.view k) := by
  intro k
  cases op with
  | create entry =>
    by_cases hk : k = EntryFrame.getKey entry
    · subst hk
      have h1 := LedgerDelta.addEntry_view_key entry C hCA
      have h2 := LedgerDelta.addEntry_view_key entry P₀ hPA
      have hC' : (LedgerDelta.addEntry entry C).error = none := hC
      have hP' : (LedgerDelta.addEntry entry P₀).error = none := hP
      rw [if_pos hC'] at h1
      rw [if_pos hP'] at h2
      exact View.merge_add entry _ _ _ _ _ (LedgerDelta.view_valid C hCd _)
        (LedgerDelta.view_valid P hPd _) (hinv _) h1 h2
    · show ((LedgerDelta.addEntry entry C).state.view k).merge (P.view k) =
        some ((LedgerDelta.addEntry entry P₀).state.view k)
      rw [LedgerDelta.addEntry_view_other entry C k hk,
        LedgerDelta.addEntry_view_other entry P₀ k hk]
      exact hinv k
  | modify entry =>
    by_cases hk : k = EntryFrame.getKey entry
    · subst hk
      have h1 := LedgerDelta.modEntry_view_key entry C hCA
      have h2 := LedgerDelta.modEntry_view_key entry P₀ hPA
      have hC' : (LedgerDelta.modEntry entry C).error = none := hC
      have hP' : (LedgerDelta.modEntry entry P₀).error = none := hP
      rw [if_pos hC'] at h1
      rw [if_pos hP'] at h2
      exact View.merge_modify entry _ _ _ _ _ (LedgerDelta.view_valid C hCd _)
        (LedgerDelta.view_valid P hPd _) (hinv _) h1 h2
    · show ((LedgerDelta.modEntry entry C).state.view k).merge (P.view k) =
        some ((LedgerDelta.modEntry entry P₀).state.view k)
      rw [LedgerDelta.modEntry_view_other entry C k hk,
        LedgerDelta.modEntry_view_other entry P₀ k hk]
      exact hinv k
  | delete k₀ =>
    by_cases hk : k = k₀
    · subst hk
      have h1 := LedgerDelta.deleteEntry_view_key k C hCA
      have h2 := LedgerDelta.deleteEntry_view_key k P₀ hPA
      have hC' : (LedgerDelta.deleteEntry k C).error = none := hC
      have hP' : (LedgerDelta.deleteEntry k P₀).error = none := hP
      rw [if_pos hC'] at h1
      rw [if_pos hP'] at h2
      exact View.merge_delete _ _ _ _ _ (LedgerDelta.view_valid C hCd _)
        (LedgerDelta.view_valid P hPd _) (hinv _) h1 h2
    · show ((LedgerDelta.deleteEntry k₀ C).state.view k).merge (P.view k) =
        some ((LedgerDelta.deleteEntry k₀ P₀).state.view k)
      rw [LedgerDelta.deleteEntry_view_other k₀ C k hk,
        LedgerDelta.deleteEntry_view_other k₀ P₀ k hk]
      exact hinv k
  | merge other => simp [Op.isBasic] at hb

theorem run_cons_ok {K E H : Type} [LinearOrder K] [EntryFrame E K] (op : Op K E H)
    (rest : List (Op K E H)) (d : LedgerDelta K E H) (h : (run (op :: rest) d).error = none) :
    (op.apply d).error = none ∧ run (op :: rest) d = run rest (op.apply d).state := by
  unfold run at h ⊢
  rw [forEach] at h ⊢
  cases ho : (op.apply d).error with
  | some e => rw [ho] at h; simp at h
  | none => exact ⟨rfl, rfl⟩

/-- The same sequence of creates, modifies and deletes run on a child and on the replayed
parent keeps the replayed parent equal, key by key, to the merge of the child; the
child keeps pairwise disjoint sets and entries stored under their own keys. -/
theorem run_merge_inv {K E H : Type} [LinearOrder K] [EntryFrame E K] (P : LedgerDelta K E H)
    (hPd : P.PairwiseDisjoint) :
    ∀ (s : List (Op K E H)) (C P₀ : LedgerDelta K E H), (∀ op ∈ s, op.isBasic = true) →
      C.PairwiseDisjoint → C.Keyed → C.mHeader.isSome = true → P₀.mHeader.isSome = true →
      (∀ k, (C.view k).merge (P.view k) = some (P₀.view k)) →
      (run s C).error = none → (run s P₀).error = none →
      (run s C).state.PairwiseDisjoint ∧ (run s C).state.Keyed ∧
        ∀ k, ((run s C).state.view k).merge (P.view k) = some ((run s P₀).state.view k)
  | [], _, _, _, hCd, hCk, _, _, hinv, _, _ => ⟨hCd, hCk, hinv⟩
  | op :: rest, C, P₀, hb, hCd, hCk, hCA, hPA, hinv, hC, hP => by
    obtain ⟨c1, c2⟩ := run_cons_ok op rest C hC
    obtain ⟨p1, p2⟩ := run_cons_ok op rest P₀ hP
    have hbo := hb op (List.mem_cons_self op rest)
    rw [c2] at hC ⊢
    rw [p2] at hP ⊢
    exact run_merge_inv P hPd rest _ _ (fun o ho => hb o (List.mem_cons_of_mem op ho))
      (Op.apply_disjoint op C hCd) (Op.apply_keyed op C hbo hCk) (Op.apply_active op C hCA)
      (Op.apply_active op P₀ hPA)
      (Op.apply_merge_step op P C P₀ hbo hPd hCd hCA hPA hinv c1 p1) hC hP

/-! ## A merge is a run of the replayed calls -/

theorem forEach_append {α σ : Type} (f : α → σ → Outcome σ) :
    ∀ (l₁ l₂ : List α) (s : σ), forEach f (l₁ ++ l₂) s =
      match (forEach f l₁ s).error with
      | some e => ⟨some e, (forEach f l₁ s).state⟩
      | none => forEach f l₂ (forEach f l₁ s).state
  | [], l₂, s => rfl
  | a :: rest, l₂, s => by
    rw [List.cons_append, forEach, forEach]
    cases h : (f a s).error with
    | some e => rfl
    | none => exact forEach_append f rest l₂ (f a s).state

theorem forEach_map {α β σ : Type} (f : β → σ → Outcome σ) (g : α → β) :
    ∀ (l : List α) (s : σ), forEach f (l.map g) s = forEach (fun a => f (g a)) l s
  | [], _ => rfl
  | a :: rest, s => by
    rw [List.map_cons, forEach, forEach]
    cases h : (f (g a) s).error with
    | some e => rfl
    | none => exact forEach_map f g rest (f (g a) s).state

/-- A loop that fails has run a prefix of its items to the end and failed on the next. -/
theorem forEach_fail_split {α σ : Type} (f : α → σ → Outcome σ) :
    ∀ (l : List α) (s : σ) (e : Error), (forEach f l s).error = some e →
      ∃ done a rest, l = done ++ a :: rest ∧ (forEach f done s).error = none ∧
        (f a (forEach f done s).state).error = some e ∧
        (forEach f l s).state = (f a (forEach f done s).state).state
  | [], _, _, h => by simp [forEach] at h
  | a :: rest, s, e, h => by
    rw [forEach] at h ⊢
    cases hfa : (f a s).error with
    | some e' =>
      rw [hfa] at h
      simp only [Option.some.injEq] at h
      subst h
      exact ⟨[], a, rest, rfl, rfl, hfa, rfl⟩
    | none =>
      rw [hfa] at h
      obtain ⟨done, b, rest', h1, h2, h3, h4⟩ := forEach_fail_split f rest (f a s).state e h
      have hun : forEach f (a :: done) s = forEach f done (f a s).state := by
        rw [forEach, hfa]
      refine ⟨a :: done, b, rest', by rw [h1]; rfl, ?_, ?_, ?_⟩
      · rw [hun]; exact h2
      · rw [hun]; exact h3
      · rw [hun]; exact h4

/-- On an Active delta `mergeEntries` is the run of the replayed calls. -/
theorem LedgerDelta.mergeEntries_eq_run {K E H : Type} [LinearOrder K] [EntryFrame E K]
    (P C : LedgerDelta K E H) (hA : P.mHeader.isSome = true) :
    P.mergeEntries C = run (replayOps C) P := by
  cases hh : P.mHeader with
  | none => rw [hh] at hA; simp at hA
  | some r =>
    unfold LedgerDelta.mergeEntries run replayOps
    rw [LedgerDelta.checkState_eq_none hh, forEach_append, forEach_map]
    have e1 : (fun a => (Op.delete a : Op K E H).apply) = LedgerDelta.deleteEntry := rfl
    rw [e1]
    dsimp only
    cases h1 : (forEach LedgerDelta.deleteEntry C.mDelete.keys P).error with
    | some e => rfl
    | none =>
      dsimp only
      rw [forEach_append, forEach_map, forEach_map]
      rfl

/-- A create, modify or delete that fails has changed nothing. -/
theorem Op.apply_fail_state {K E H : Type} [LinearOrder K] [EntryFrame E K] (op : Op K E H)
    (d : LedgerDelta K E H) (e : Error) (hb : op.isBasic = true)
    (h : (op.apply d).error = some e) : (op.apply d).state = d := by
  cases op with
  | create entry =>
    change (LedgerDelta.addEntry entry d).error = some e at h
    show (LedgerDelta.addEntry entry d).state = d
    unfold LedgerDelta.addEntry at h ⊢
    split at h
    · rfl
    · dsimp only at h ⊢
      split_ifs at h ⊢ <;> rfl
  | modify entry =>
    change (LedgerDelta.modEntry entry d).error = some e at h
    show (LedgerDelta.modEntry entry d).state = d
    unfold LedgerDelta.modEntry at h ⊢
    split at h
    · rfl
    · dsimp only at h ⊢
      split_ifs at h ⊢
      rfl
  | delete k =>
    change (LedgerDelta.deleteEntry k d).error = some e at h
    show (LedgerDelta.deleteEntry k d).state = d
    unfold LedgerDelta.deleteEntry at h ⊢
    split at h
    · rfl
    · split_ifs at h ⊢
      rfl
  | merge other => simp [Op.isBasic] at hb

theorem replayOps_basic {K E H : Type} [LinearOrder K] (C : LedgerDelta K E H) :
    ∀ op ∈ replayOps C, op.isBasic = true := by
  intro op hop
  unfold replayOps at hop
  simp only [List.mem_append, List.mem_map] at hop
  rcases hop with ⟨k, _, rfl⟩ | ⟨e, _, rfl⟩ | ⟨e, _, rfl⟩ <;> rfl

/-- A merge into an Active delta that fails has run a prefix of the replayed calls to the
end, failed on the next one, and left the delta as that prefix left it. -/
theorem LedgerDelta.mergeEntries_fail_split {K E H : Type} [LinearOrder K] [EntryFrame E K]
    (P C : LedgerDelta K E H) (e : Error) (hA : P.mHeader.isSome = true)
    (h : (P.mergeEntries C).error = some e) :
    ∃ done failing rest, replayOps C = done ++ failing :: rest ∧
      (run done P).error = none ∧
      (failing.apply (run done P).state).error = some e ∧
      (P.mergeEntries C).state = (run done P).state := by
  rw [LedgerDelta.mergeEntries_eq_run P C hA] at h ⊢
  obtain ⟨done, a, rest, h1, h2, h3, h4⟩ := forEach_fail_split Op.apply (replayOps C) P e h
  refine ⟨done, a, rest, h1, h2, h3, ?_⟩
  have hb : a.isBasic = true := replayOps_basic C a (by rw [h1]; simp)
  show (forEach Op.apply (replayOps C) P).state = _
  rw [h4]
  exact Op.apply_fail_state a _ e hb h3

/-! ## Claims -/

/-- C1: each of `addEntry`, `modEntry`, `deleteEntry` and `mergeEntries` (for any merged
delta), called on a delta whose sets `mNew`, `mMod`, `mDelete` are pairwise disjoint,
leaves them pairwise disjoint, whether the call returns or fails; so after every call of
every sequence of such calls on a delta that starts with empty sets, no key is in more
than one of the three sets. -/
theorem disjointness_invariant {K E H : Type} [LinearOrder K] [EntryFrame E K]
    (d : LedgerDelta K E H) (op : Op K E H) (d₀ : LedgerDelta K E H) (ops : List (Op K E H))
    (hd : d.PairwiseDisjoint) (h₀ : d₀.SetsEmpty) :
    (op.apply d).state.PairwiseDisjoint ∧
      ∀ n, (runAll (ops.take n) d₀).PairwiseDisjoint :=
  ⟨Op.apply_disjoint op d hd,
    fun n => runAll_disjoint (ops.take n) d₀ (LedgerDelta.pairwiseDisjoint_of_setsEmpty d₀ h₀)⟩

/-- Witness of C1: a merge into a delta that holds a modified, a created and a deleted
key, and a sequence of calls from the empty delta. -/
theorem disjointness_invariant_witness :
    SampleDelta.mixed.PairwiseDisjoint ∧ (SampleDelta.fresh 0).SetsEmpty ∧
      ((Op.merge SampleDelta.created1).apply SampleDelta.mixed).state.PairwiseDisjoint ∧
      ∀ n, (runAll ([Op.create ⟨1, 10⟩, Op.create ⟨1, 11⟩, Op.delete 1,
        Op.merge SampleDelta.mixed].take n) (SampleDelta.fresh 0)).PairwiseDisjoint :=
  ⟨by decide, by decide,
    disjointness_invariant SampleDelta.mixed (Op.merge SampleDelta.created1)
      (SampleDelta.fresh 0) _ (by decide) (by decide)⟩

/-- C5: on an Active delta whose three sets are pairwise disjoint, `addEntry` fails on an
assertion exactly when the entry's key is in `mNew` or in `mMod`, `modEntry` exactly when
the key is in `mDelete`, `deleteEntry` exactly when the key is in `mDelete`; in every
other case the call returns normally. -/
theorem key_conflict_iff {K E H : Type} [LinearOrder K] [EntryFrame E K]
    (d : LedgerDelta K E H) (entry : E) (k : K)
    (hActive : d.mHeader.isSome = true) (hd : d.PairwiseDisjoint) :
    ((d.addEntry entry).KeyConflict ↔
        (d.mNew.contains (EntryFrame.getKey entry) = true ∨
          d.mMod.contains (EntryFrame.getKey entry) = true)) ∧
      (¬ (d.addEntry entry).KeyConflict → (d.addEntry entry).error = none) ∧
      ((d.modEntry entry).KeyConflict ↔ d.mDelete.contains (EntryFrame.getKey entry) = true) ∧
      (¬ (d.modEntry entry).KeyConflict → (d.modEntry entry).error = none) ∧
      ((d.deleteEntry k).KeyConflict ↔ d.mDelete.contains k = true) ∧
      (¬ (d.deleteEntry k).KeyConflict → (d.deleteEntry k).error = none) := by
  have hcs : d.checkState = none := by
    unfold LedgerDelta.checkState
    cases hh : d.mHeader with
    | none => rw [hh] at hActive; simp at hActive
    | some r => rfl
  have hk := hd (EntryFrame.getKey entry)
  have hk' := hd k
  unfold Outcome.KeyConflict
  refine ⟨?_, ?_, ?_, ?_, ?_, ?_⟩
  · unfold LedgerDelta.addEntry
    rw [hcs]; dsimp only
    split_ifs with h1 h2 h3 <;> simp_all [Error.isKeyConflict]
  · unfold LedgerDelta.addEntry
    rw [hcs]; dsimp only
    split_ifs with h1 h2 h3 <;> simp_all [Error.isKeyConflict]
  · unfold LedgerDelta.modEntry
    rw [hcs]; dsimp only
    split_ifs with h1 h2 h3 <;> simp_all [Error.isKeyConflict]
  · unfold LedgerDelta.modEntry
    rw [hcs]; dsimp only
    split_ifs with h1 h2 h3 <;> simp_all [Error.isKeyConflict]
  · unfold LedgerDelta.deleteEntry
    rw [hcs]; dsimp only
    split_ifs with h1 h2 <;> simp_all [Error.isKeyConflict]
  · unfold LedgerDelta.deleteEntry
    rw [hcs]; dsimp only
    split_ifs with h1 h2 <;> simp_all [Error.isKeyConflict]

/-- Witness of C5: on the delta with key `1` modified, key `2` created and key `3` deleted. -/
theorem key_conflict_iff_witness :
    SampleDelta.mixed.mHeader.isSome = true ∧ SampleDelta.mixed.PairwiseDisjoint ∧
      (SampleDelta.mixed.addEntry ⟨2, 21⟩).KeyConflict ∧
      (SampleDelta.mixed.modEntry ⟨2, 21⟩).error = none ∧
      (SampleDelta.mixed.deleteEntry 3).KeyConflict :=
  have h := key_conflict_iff SampleDelta.mixed ⟨2, 21⟩ 3 (by decide) (by decide)
  ⟨by decide, by decide, h.1.2 (Or.inl (by decide)),
    h.2.2.2.1 (fun c => absurd (h.2.2.1.1 c) (by decide)), h.2.2.2.2.1.2 (by decide)⟩

/-- Counterexample to C10: from the empty delta `create(1)` succeeds; then `delete(1)`
succeeds and the `create(1, v)` right after it succeeds, yet `mMod` has no entry for
key `1`: the key is back in `mNew`. -/
theorem delete_then_create_counterexample :
    (run [Op.create ⟨1, 10⟩] (SampleDelta.fresh 0)).error = none ∧
      (SampleDelta.created1.deleteEntry 1).error = none ∧
      ((SampleDelta.created1.deleteEntry 1).state.addEntry ⟨1, 11⟩).error = none ∧
      ¬ (((SampleDelta.created1.deleteEntry 1).state.addEntry ⟨1, 11⟩).state.mMod.find 1
          = some ⟨1, 11⟩ ∧
        ((SampleDelta.created1.deleteEntry 1).state.addEntry ⟨1, 11⟩).state.mDelete.contains 1
          = false ∧
        ((SampleDelta.created1.deleteEntry 1).state.addEntry ⟨1, 11⟩).state.mNew.contains 1
          = false) := by
  decide

/-- C10, amended: on an Active delta reached from an empty one by a sequence of calls, if
`deleteEntry(k)` succeeds and `addEntry` of an entry `v` with key `k` follows, then
`addEntry` succeeds and `k` is not in `mDelete`; when `k` was not in `mNew` before the
delete, `mMod` maps `k` to `v` and `k` is not in `mNew`; when `k` was in `mNew` before
the delete, `mNew` maps `k` to `v` and `k` is not in `mMod`. -/
theorem delete_then_create {K E H : Type} [LinearOrder K] [EntryFrame E K]
    (d₀ : LedgerDelta K E H) (ops : List (Op K E H)) (v : E)
    (h₀ : d₀.SetsEmpty)
    (hActive : (run ops d₀).state.mHeader.isSome = true)
    (hdel : ((run ops d₀).state.deleteEntry (EntryFrame.getKey v)).error = none) :
    (((run ops d₀).state.deleteEntry (EntryFrame.getKey v)).state.addEntry v).error = none ∧
      (((run ops d₀).state.deleteEntry (EntryFrame.getKey v)).state.addEntry v).state.mDelete.contains
        (EntryFrame.getKey v) = false ∧
      ((run ops d₀).state.mNew.contains (EntryFrame.getKey v) = false →
        (((run ops d₀).state.deleteEntry (EntryFrame.getKey v)).state.addEntry v).state.mMod.find
            (EntryFrame.getKey v) = some v ∧
          (((run ops d₀).state.deleteEntry (EntryFrame.getKey v)).state.addEntry v).state.mNew.contains
            (EntryFrame.getKey v) = false) ∧
      ((run ops d₀).state.mNew.contains (EntryFrame.getKey v) = true →
        (((run ops d₀).state.deleteEntry (EntryFrame.getKey v)).state.addEntry v).state.mNew.find
            (EntryFrame.getKey v) = some v ∧
          (((run ops d₀).state.deleteEntry (EntryFrame.getKey v)).state.addEntry v).state.mMod.contains
            (EntryFrame.getKey v) = false) := by
  have hd := run_disjoint ops d₀ (LedgerDelta.pairwiseDisjoint_of_setsEmpty d₀ h₀)
  generalize (run ops d₀).state = d at hd hActive hdel ⊢
  have hcs : d.checkState = none := by
    unfold LedgerDelta.checkState
    cases hh : d.mHeader with
    | none => rw [hh] at hActive; simp at hActive
    | some r => rfl
  have hk := hd (EntryFrame.getKey v)
  cases hh : d.mHeader with
  | none => rw [hh] at hActive; simp at hActive
  | some r =>
    unfold LedgerDelta.deleteEntry at hdel ⊢
    rw [hcs] at hdel ⊢
    dsimp only at hdel ⊢
    split_ifs at hdel ⊢ with h1 h2
    · unfold LedgerDelta.addEntry LedgerDelta.checkState
      simp_all
    · unfold LedgerDelta.addEntry LedgerDelta.checkState
      simp_all

/-- Witness of C10 (amended): key `1` is modified in the delta, deleted, then created again. -/
theorem delete_then_create_witness :
    (SampleDelta.fresh 0).SetsEmpty ∧
      ((((run [Op.modify ⟨1, 10⟩] (SampleDelta.fresh 0)).state.deleteEntry 1).state.addEntry
        ⟨1, 11⟩).state.mMod.find 1 = some ⟨1, 11⟩) :=
  ⟨by decide,
    ((delete_then_create (SampleDelta.fresh 0) [Op.modify ⟨1, 10⟩] ⟨1, 11⟩
      (by decide) (by decide) (by decide)).2.2.1 (by decide)).1⟩

/-- C7: `commit` on an Active delta whose `mPreviousHeaderValue` differs from the current
value of the header it points to throws "unexpected header state" and changes nothing:
the store (external headers, every other delta, the delta itself) is as before. -/
theorem commit_header_conflict {K E H : Type} [LinearOrder K] [EntryFrame E K] [DecidableEq H]
    (w : Store K E H) (s : Nat) (ref : HeaderRef)
    (hActive : (w.deltas s).mHeader = some ref)
    (hne : (w.deltas s).mPreviousHeaderValue ≠ w.readHeader ref) :
    w.commit s = ⟨some Error.unexpectedHeaderState, w⟩ := by
  unfold Store.commit
  rw [hActive]
  simp only [hne, ne_eq, not_false_eq_true, if_true]

/-- Witness of C7: the child at `1` commits after its parent's working header moved on. -/
theorem commit_header_conflict_witness :
    ((SampleStore.nested.setHeader 0 9).deltas 1).mHeader = some (HeaderRef.working 0) ∧
      (SampleStore.nested.setHeader 0 9).commit 1 =
        ⟨some Error.unexpectedHeaderState, SampleStore.nested.setHeader 0 9⟩ :=
  ⟨by decide,
    commit_header_conflict (SampleStore.nested.setHeader 0 9) 1 (HeaderRef.working 0)
      (by decide) (by decide)⟩

/-- C4: a successful `commit` or `rollback` leaves the delta with `mHeader == nullptr`; and
on a delta in that state `addEntry`, `modEntry`, `deleteEntry` (both overloads),
`mergeEntries`, `commit` and `rollback` all throw "delta is already committed", for every
argument, and leave the whole store as it was. -/
theorem terminal_guard {K E H : Type} [LinearOrder K] [EntryFrame E K] [DecidableEq H]
    (w₀ w : Store K E H) (s : Nat) (entry : E) (k : K) (j : Nat)
    (hT : (w.deltas s).mHeader = none) :
    ((w₀.commit s).error = none → ((w₀.commit s).state.deltas s).mHeader = none) ∧
      ((w₀.rollback s).error = none → ((w₀.rollback s).state.deltas s).mHeader = none) ∧
      Store.call s (LedgerDelta.addEntry entry) w = ⟨some Error.alreadyCommitted, w⟩ ∧
      Store.call s (LedgerDelta.modEntry entry) w = ⟨some Error.alreadyCommitted, w⟩ ∧
      Store.call s (LedgerDelta.deleteEntry k) w = ⟨some Error.alreadyCommitted, w⟩ ∧
      Store.call s (LedgerDelta.deleteEntryOf entry) w = ⟨some Error.alreadyCommitted, w⟩ ∧
      w.mergeEntries s j = ⟨some Error.alreadyCommitted, w⟩ ∧
      w.commit s = ⟨some Error.alreadyCommitted, w⟩ ∧
      w.rollback s = ⟨some Error.alreadyCommitted, w⟩ := by
  refine ⟨?_, ?_, ?_, ?_, ?_, ?_, ?_, ?_, ?_⟩
  · unfold Store.commit
    cases (w₀.deltas s).mHeader with
    | none => intro h; simp at h
    | some ref =>
      dsimp only
      split_ifs with h1
      · intro h; simp at h
      · split
        · intro h; simp_all
        · intro _; simp
  · unfold Store.rollback
    split
    · intro h; simp at h
    · intro _; simp
  · unfold Store.call
    rw [LedgerDelta.addEntry_terminal entry _ hT, Store.setDelta_self]
  · unfold Store.call
    rw [LedgerDelta.modEntry_terminal entry _ hT, Store.setDelta_self]
  · unfold Store.call
    rw [LedgerDelta.deleteEntry_terminal k _ hT, Store.setDelta_self]
  · unfold Store.call LedgerDelta.deleteEntryOf
    rw [LedgerDelta.deleteEntry_terminal _ _ hT, Store.setDelta_self]
  · unfold Store.mergeEntries Store.call
    dsimp only
    rw [LedgerDelta.mergeEntries_terminal _ _ hT, Store.setDelta_self]
  · unfold Store.commit
    rw [hT]
  · unfold Store.rollback
    rw [LedgerDelta.checkState_eq_some hT]

/-- Witness of C4: the child at `1` is rolled back, then called again. -/
theorem terminal_guard_witness :
    (((SampleStore.nested.rollback 1).state.deltas 1).mHeader = none) ∧
      (SampleStore.nested.rollback 1).state.commit 1 =
        ⟨some Error.alreadyCommitted, (SampleStore.nested.rollback 1).state⟩ :=
  ⟨by decide,
    (terminal_guard SampleStore.nested (SampleStore.nested.rollback 1).state 1 ⟨5, 50⟩ 5 0
      (by decide)).2.2.2.2.2.2.2.1⟩

/-- Counterexample to C8: a top-level delta, just opened against external header `0`, with
its working header equal to the snapshot taken at construction: `commit` returns
normally, no header conflict is raised. -/
theorem noop_commit_counterexample :
    (SampleStore.root.deltas 0).mOuterDelta = none ∧
      (SampleStore.root.deltas 0).mHeader = some (HeaderRef.external 0) ∧
      (SampleStore.root.deltas 0).mCurrentHeader = (SampleStore.root.deltas 0).mPreviousHeaderValue ∧
      (SampleStore.root.commit 0).error = none ∧
      (SampleStore.root.commit 0).error ≠ some Error.unexpectedHeaderState := by
  decide

/-- C8, amended: for an Active top-level delta whose working header equals the snapshot
taken at construction, `commit` throws "unexpected header state" exactly when the
snapshot differs from the current value of the header it points to; when they are equal
`commit` returns normally and that header keeps its value. -/
theorem noop_commit {K E H : Type} [LinearOrder K] [EntryFrame E K] [DecidableEq H]
    (w : Store K E H) (s : Nat) (ref : HeaderRef)
    (hTop : (w.deltas s).mOuterDelta = none)
    (hActive : (w.deltas s).mHeader = some ref)
    (hNoop : (w.deltas s).mCurrentHeader = (w.deltas s).mPreviousHeaderValue) :
    ((w.commit s).error = some Error.unexpectedHeaderState ↔
        (w.deltas s).mPreviousHeaderValue ≠ w.readHeader ref) ∧
      ((w.deltas s).mPreviousHeaderValue = w.readHeader ref →
        (w.commit s).error = none ∧ (w.commit s).state.readHeader ref = w.readHeader ref) := by
  by_cases h : (w.deltas s).mPreviousHeaderValue = w.readHeader ref
  · rw [Store.commit_topLevel w s ref hActive h hTop]
    refine ⟨by simp [h], fun _ => ⟨rfl, ?_⟩⟩
    show (Store.finishCommit s ref w).readHeader ref = w.readHeader ref
    rw [Store.readHeader_finishCommit, hNoop, h]
  · rw [Store.commit_snapshot_mismatch w s ref hActive h]
    simp [h]

/-- Witness of C8 (amended): the top-level delta at `0`, just opened, commits. -/
theorem noop_commit_witness :
    (SampleStore.root.deltas 0).mOuterDelta = none ∧
      (SampleStore.root.commit 0).error = none :=
  ⟨by decide,
    ((noop_commit SampleStore.root 0 (HeaderRef.external 0) (by decide) (by decide)
      (by decide)).2 (by decide)).1⟩

/-- C3: `commit` on an Active delta whose `mPreviousHeaderValue` equals the current value
of the header it points to, and (when it has an outer delta) whose merge into the outer
delta succeeds, returns normally, and afterwards: (i) the outer delta's `mNew`, `mMod`,
`mDelete` are those obtained from its previous ones by `deleteEntry` for every key of the
committed delta's `mDelete`, then `addEntry` for every entry of its `mNew`, then `modEntry`
for every entry of its `mMod`; (ii) the header the delta points to holds the delta's
working header; (iii) the delta has `mHeader == nullptr` and `mOuterDelta == nullptr`. -/
theorem commit_success {K E H : Type} [LinearOrder K] [EntryFrame E K] [DecidableEq H]
    (w : Store K E H) (s : Nat) (ref : HeaderRef)
    (hActive : (w.deltas s).mHeader = some ref)
    (hsnap : (w.deltas s).mPreviousHeaderValue = w.readHeader ref)
    (hmerge : ∀ p, (w.deltas s).mOuterDelta = some p →
      ((w.deltas p).mergeEntries (w.deltas s)).error = none) :
    (w.commit s).error = none ∧
      (∀ p, (w.deltas s).mOuterDelta = some p →
        ((w.commit s).state.deltas p).mNew =
            (LedgerDelta.replayNet (w.deltas s) (w.deltas p)).mNew ∧
          ((w.commit s).state.deltas p).mMod =
            (LedgerDelta.replayNet (w.deltas s) (w.deltas p)).mMod ∧
          ((w.commit s).state.deltas p).mDelete =
            (LedgerDelta.replayNet (w.deltas s) (w.deltas p)).mDelete) ∧
      (w.commit s).state.readHeader ref = (w.deltas s).mCurrentHeader ∧
      ((w.commit s).state.deltas s).mHeader = none ∧
      ((w.commit s).state.deltas s).mOuterDelta = none := by
  cases hp : (w.deltas s).mOuterDelta with
  | none =>
    rw [Store.commit_topLevel w s ref hActive hsnap hp]
    obtain ⟨h', r, hd, hr⟩ := Store.finishCommit_deltas w s ref s
    refine ⟨rfl, fun p h => by simp at h, Store.readHeader_finishCommit w s ref, ?_, ?_⟩
    · show ((Store.finishCommit s ref w).deltas s).mHeader = none
      rw [hd]; exact hr rfl
    · show ((Store.finishCommit s ref w).deltas s).mOuterDelta = none
      rw [hd]; exact hp
  | some p =>
    have hm := hmerge p hp
    rw [Store.commit_nested_ok w s p ref hActive hsnap hp hm]
    have hstate := LedgerDelta.mergeEntries_state_of_ok _ _ hm
    have hframe := LedgerDelta.mergeEntries_frame (w.deltas s) (w.deltas p) (w.deltas p)
      ⟨rfl, rfl, rfl, rfl⟩
    generalize hw2 : ((w.setDelta p ((w.deltas p).mergeEntries (w.deltas s)).state).setDelta s
        { (w.setDelta p ((w.deltas p).mergeEntries (w.deltas s)).state).deltas s with
          mOuterDelta := none }) = w2
    have hw2p : (w2.deltas p).mNew = (LedgerDelta.replayNet (w.deltas s) (w.deltas p)).mNew ∧
        (w2.deltas p).mMod = (LedgerDelta.replayNet (w.deltas s) (w.deltas p)).mMod ∧
        (w2.deltas p).mDelete = (LedgerDelta.replayNet (w.deltas s) (w.deltas p)).mDelete := by
      rw [← hw2, ← hstate]
      by_cases hps : p = s
      · subst hps; simp
      · rw [Store.setDelta_deltas_other _ _ _ _ hps]; simp
    have hw2s : (w2.deltas s).mCurrentHeader = (w.deltas s).mCurrentHeader ∧
        (w2.deltas s).mOuterDelta = none := by
      rw [← hw2]
      simp only [Store.setDelta_deltas_same, and_true]
      by_cases hps : s = p
      · subst hps; simp only [Store.setDelta_deltas_same]; exact hframe.2.2.1
      · rw [Store.setDelta_deltas_other _ _ _ _ hps]
    obtain ⟨h', r, hd, hr⟩ := Store.finishCommit_deltas w2 s ref s
    refine ⟨rfl, fun q hq => ?_, ?_, ?_, ?_⟩
    · simp only [Option.some.injEq] at hq
      subst hq
      obtain ⟨h'', r', hd', _⟩ := Store.finishCommit_deltas w2 s ref p
      show ((Store.finishCommit s ref w2).deltas p).mNew = _ ∧
        ((Store.finishCommit s ref w2).deltas p).mMod = _ ∧
        ((Store.finishCommit s ref w2).deltas p).mDelete = _
      rw [hd']
      exact hw2p
    · show (Store.finishCommit s ref w2).readHeader ref = _
      rw [Store.readHeader_finishCommit, hw2s.1]
    · show ((Store.finishCommit s ref w2).deltas s).mHeader = none
      rw [hd]; exact hr rfl
    · show ((Store.finishCommit s ref w2).deltas s).mOuterDelta = none
      rw [hd]; exact hw2s.2

/-- Witness of C3: the child at `1`, which created key `1` and set its working header to
`8`, commits into the root delta at `0`. -/
theorem commit_success_witness :
    (SampleStore.nested.deltas 1).mHeader = some (HeaderRef.working 0) ∧
      (SampleStore.nested.commit 1).error = none ∧
      ((SampleStore.nested.commit 1).state.deltas 0).mCurrentHeader = 8 ∧
      ((SampleStore.nested.commit 1).state.deltas 0).mNew.find 1 = some ⟨1, 10⟩ :=
  have h := commit_success SampleStore.nested 1 (HeaderRef.working 0) (by decide) (by decide)
    (fun p hp => by
      have hp0 : p = 0 := by
        have h1 : (SampleStore.nested.deltas 1).mOuterDelta = some 0 := by decide
        rw [h1] at hp
        exact (Option.some.inj hp).symm
      subst hp0
      decide)
  ⟨by decide, h.1, h.2.2.1, by decide⟩

/-- Counterexample to C6: the root delta at `0` has deleted key `2`, its Active child at
`1` has deleted keys `1` and `2`. The child's `commit` fails on the double delete of key
`2`, and the root's `mDelete` is no longer what it was: key `1` has been added to it. -/
theorem commit_partial_merge_counterexample :
    (SampleStore.clash.deltas 1).mHeader = some (HeaderRef.working 0) ∧
      (SampleStore.clash.deltas 1).mOuterDelta = some 0 ∧
      (SampleStore.clash.commit 1).error = some Error.doubleDelete ∧
      (SampleStore.clash.deltas 0).mDelete.keys = [2] ∧
      ((SampleStore.clash.commit 1).state.deltas 0).mDelete.keys = [1, 2] ∧
      ((SampleStore.clash.commit 1).state.deltas 0).mDelete ≠
        (SampleStore.clash.deltas 0).mDelete := by
  decide

/-- C6, amended: when `commit` on a nested delta fails, the outer delta's working header
and the external headers are what they were before the call. When the failure is not a
failed assertion of the merge (it is "delta is already committed" or "unexpected header
state"), nothing at all has changed, so the outer delta's `mNew`, `mMod` and `mDelete`
are what they were. When the failure is a failed assertion of the merge, the calls
replayed before the failing one stay applied: the replayed calls split into a prefix
that ran to its end on the outer delta, the call that failed with this error right
after it, and a rest never made; the outer delta is left exactly as the prefix left it,
and every other delta is what it was. -/
theorem commit_failure {K E H : Type} [LinearOrder K] [EntryFrame E K] [DecidableEq H]
    (w : Store K E H) (c p : Nat) (e : Error)
    (hp : (w.deltas c).mOuterDelta = some p)
    (hfail : (w.commit c).error = some e) :
    ((w.commit c).state.deltas p).mCurrentHeader = (w.deltas p).mCurrentHeader ∧
      (w.commit c).state.headers = w.headers ∧
      (e.isKeyConflict = false → (w.commit c).state = w) ∧
      (e.isKeyConflict = true →
        ∃ done failing rest, replayOps (w.deltas c) = done ++ failing :: rest ∧
          (run done (w.deltas p)).error = none ∧
          (failing.apply (run done (w.deltas p)).state).error = some e ∧
          (w.commit c).state.deltas p = (run done (w.deltas p)).state ∧
          ∀ j, j ≠ p → (w.commit c).state.deltas j = w.deltas j) := by
  cases hh : (w.deltas c).mHeader with
  | none =>
    have hc : w.commit c = ⟨some Error.alreadyCommitted, w⟩ := by
      unfold Store.commit; rw [hh]
    rw [hc] at hfail ⊢
    simp only [Option.some.injEq] at hfail
    subst hfail
    exact ⟨rfl, rfl, fun _ => rfl, fun hk => by simp [Error.isKeyConflict] at hk⟩
  | some ref =>
    by_cases hsnap : (w.deltas c).mPreviousHeaderValue = w.readHeader ref
    · cases hm : ((w.deltas p).mergeEntries (w.deltas c)).error with
      | none =>
        rw [Store.commit_nested_ok w c p ref hh hsnap hp hm] at hfail
        simp at hfail
      | some e' =>
        rw [Store.commit_nested_fail w c p ref e' hh hsnap hp hm] at hfail ⊢
        simp only [Option.some.injEq] at hfail
        subst hfail
        have hframe := LedgerDelta.mergeEntries_frame (w.deltas c) (w.deltas p) (w.deltas p)
          ⟨rfl, rfl, rfl, rfl⟩
        refine ⟨?_, rfl, fun hk => ?_, fun hk => ?_⟩
        · show ((w.setDelta p _).deltas p).mCurrentHeader = _
          rw [Store.setDelta_deltas_same]
          exact hframe.2.2.1
        · rcases LedgerDelta.mergeEntries_error_cases _ _ _ hm with h1 | h1
          · rw [hk] at h1; simp at h1
          · show w.setDelta p _ = w
            rw [h1]
            exact Store.setDelta_self w p
        · have hA : (w.deltas p).mHeader.isSome = true := by
            cases hph : (w.deltas p).mHeader with
            | some r => rfl
            | none =>
              rw [LedgerDelta.mergeEntries_terminal (w.deltas c) (w.deltas p) hph] at hm
              simp only [Option.some.injEq] at hm
              subst hm
              simp [Error.isKeyConflict] at hk
          obtain ⟨done, failing, rest, s1, s2, s3, s4⟩ :=
            LedgerDelta.mergeEntries_fail_split (w.deltas p) (w.deltas c) e' hA hm
          refine ⟨done, failing, rest, s1, s2, s3, ?_, fun j hj => ?_⟩
          · show (w.setDelta p _).deltas p = _
            rw [Store.setDelta_deltas_same]
            exact s4
          · show (w.setDelta p _).deltas j = _
            exact Store.setDelta_deltas_other _ _ _ _ hj
    · rw [Store.commit_snapshot_mismatch w c ref hh hsnap] at hfail ⊢
      simp only [Option.some.injEq] at hfail
      subst hfail
      exact ⟨rfl, rfl, fun _ => rfl, fun hk => by simp [Error.isKeyConflict] at hk⟩

/-- Witness of C6 (amended): the root at `0` has deleted key `2` and the child at `1` keys
`1` and `2`. The child's commit fails on the double delete of key `2`; the working header
of the root is as it was, and the root is left as the replayed prefix left it. -/
theorem commit_failure_witness :
    (SampleStore.clash.deltas 1).mOuterDelta = some 0 ∧
      (SampleStore.clash.commit 1).error = some Error.doubleDelete ∧
      replayOps (SampleStore.clash.deltas 1) =
        ([Op.delete 1, Op.delete 2] : List (Op Nat SampleEntry Nat)) ∧
      ((SampleStore.clash.commit 1).state.deltas 0).mCurrentHeader =
        (SampleStore.clash.deltas 0).mCurrentHeader ∧
      ∃ done failing rest, replayOps (SampleStore.clash.deltas 1) = done ++ failing :: rest ∧
        (run done (SampleStore.clash.deltas 0)).error = none ∧
        (failing.apply (run done (SampleStore.clash.deltas 0)).state).error
          = some Error.doubleDelete ∧
        (SampleStore.clash.commit 1).state.deltas 0
          = (run done (SampleStore.clash.deltas 0)).state ∧
        ∀ j, j ≠ 0 → (SampleStore.clash.commit 1).state.deltas j = SampleStore.clash.deltas j :=
  have h := commit_failure SampleStore.clash 1 0 Error.doubleDelete (by decide) (by decide)
  ⟨by decide, by decide, rfl, h.1, h.2.2.2 (by decide)⟩

/-- C9: a delta is constructed at address `c` as a child of the delta at `p` (another
address); then any sequence of `addEntry`, `modEntry`, `deleteEntry`, `mergeEntries` calls
and working-header edits is made on the child, each succeeding or failing. The child is
still Active, so `rollback` on it returns normally and leaves it with
`mHeader == nullptr`; the parent object (its `mNew`, `mMod`, `mDelete` and its working
header) and the external headers are as they were when the child was constructed. -/
theorem rollback_leaves_parent {K E H : Type} [LinearOrder K] [EntryFrame E K]
    (w : Store K E H) (p c : Nat) (edits : List (Edit K E H)) (hne : c ≠ p) :
    ((edits.foldl (Store.edit c) (w.newNested c p)).rollback c).error = none ∧
      (((edits.foldl (Store.edit c) (w.newNested c p)).rollback c).state.deltas c).mHeader
        = none ∧
      ((edits.foldl (Store.edit c) (w.newNested c p)).rollback c).state.deltas p
        = w.deltas p ∧
      ((edits.foldl (Store.edit c) (w.newNested c p)).rollback c).state.headers
        = w.headers := by
  obtain ⟨h1, h2, h3⟩ := Store.edits_keep c edits (w.newNested c p)
  have hA : ((edits.foldl (Store.edit c) (w.newNested c p)).deltas c).mHeader =
      some (HeaderRef.working p) := by
    rw [h1]; unfold Store.newNested; rw [Store.setDelta_deltas_same]
  have hp : (edits.foldl (Store.edit c) (w.newNested c p)).deltas p = w.deltas p := by
    rw [h2 p (Ne.symm hne)]
    exact Store.setDelta_deltas_other _ _ _ _ (Ne.symm hne)
  generalize edits.foldl (Store.edit c) (w.newNested c p) = w1 at h3 hA hp ⊢
  unfold Store.rollback
  rw [LedgerDelta.checkState_eq_none hA]
  refine ⟨rfl, ?_, ?_, h3⟩
  · show ((w1.setDelta c _).deltas c).mHeader = none
    rw [Store.setDelta_deltas_same]
  · show (w1.setDelta c _).deltas p = w.deltas p
    rw [Store.setDelta_deltas_other _ _ _ _ (Ne.symm hne)]
    exact hp

/-- Witness of C9: a child of the root delta creates key `1`, fails to create it again,
moves its working header, merges another delta, and is rolled back. -/
theorem rollback_leaves_parent_witness :
    (1 : Nat) ≠ 0 ∧
      (([Edit.call (Op.create ⟨1, 10⟩), Edit.call (Op.create ⟨1, 11⟩), Edit.header 8,
          Edit.call (Op.merge SampleDelta.mixed)].foldl (Store.edit 1)
        (SampleStore.root.newNested 1 0)).rollback 1).state.deltas 0 = SampleStore.root.deltas 0 :=
  ⟨by decide,
    (rollback_leaves_parent SampleStore.root 0 1
      [Edit.call (Op.create ⟨1, 10⟩), Edit.call (Op.create ⟨1, 11⟩), Edit.header 8,
        Edit.call (Op.merge SampleDelta.mixed)] (by decide)).2.2.1⟩

/-- C2: let `P` be an Active delta with pairwise disjoint sets and `s` a sequence of
`addEntry`, `modEntry` and `deleteEntry` calls that succeeds on a newly constructed
(Active, empty) child, leaving the child `C`. If `s` run directly on `P` succeeds, then
`P.mergeEntries(C)` succeeds too, and leaves `mNew`, `mMod`, `mDelete` identical to those
that `s` run on `P` leaves. -/
theorem merge_equals_replay {K E H : Type} [LinearOrder K] [EntryFrame E K]
    (P d₀ : LedgerDelta K E H) (s : List (Op K E H))
    (hPA : P.mHeader.isSome = true) (hPd : P.PairwiseDisjoint)
    (hbasic : ∀ op ∈ s, op.isBasic = true)
    (h₀ : d₀.SetsEmpty) (h₀A : d₀.mHeader.isSome = true)
    (hchild : (run s d₀).error = none) (hparent : (run s P).error = none) :
    (P.mergeEntries (run s d₀).state).error = none ∧
      (P.mergeEntries (run s d₀).state).state.mNew = (run s P).state.mNew ∧
      (P.mergeEntries (run s d₀).state).state.mMod = (run s P).state.mMod ∧
      (P.mergeEntries (run s d₀).state).state.mDelete = (run s P).state.mDelete := by
  have hbase : ∀ k, (d₀.view k).merge (P.view k) = some (P.view k) := by
    intro k
    rw [LedgerDelta.view_of_setsEmpty d₀ h₀ k]
    rfl
  obtain ⟨hCd, hCk, hinv⟩ := run_merge_inv P hPd s d₀ P hbasic
    (LedgerDelta.pairwiseDisjoint_of_setsEmpty d₀ h₀) (LedgerDelta.keyed_of_setsEmpty d₀ h₀)
    h₀A hPA hbase hchild hparent
  obtain ⟨hok, hviews⟩ := LedgerDelta.mergeEntries_views P (run s d₀).state hPA hCd hCk
    (fun k => by rw [hinv k]; rfl)
  have hv : ∀ k, (P.mergeEntries (run s d₀).state).state.view k = (run s P).state.view k :=
    fun k => Option.some.inj ((hviews k).symm.trans (hinv k))
  refine ⟨hok, ?_, ?_, ?_⟩
  · exact KeyMap.ext_find (fun k => congrArg View.new (hv k))
  · exact KeyMap.ext_find (fun k => congrArg View.mod (hv k))
  · exact KeyMap.ext_find (fun k => KeyMap.find_unit_eq _ _ k (congrArg View.del (hv k)))

/-- Witness of C2: the parent has key `1` modified, key `2` created and key `3` deleted;
the sequence deletes key `2`, re-creates key `3`, modifies key `1` and creates key `4`. -/
theorem merge_equals_replay_witness :
    SampleDelta.mixed.PairwiseDisjoint ∧
      (run [Op.delete 2, Op.create ⟨3, 30⟩, Op.modify ⟨1, 11⟩, Op.create ⟨4, 40⟩]
        (SampleDelta.fresh 5)).error = none ∧
      (run [Op.delete 2, Op.create ⟨3, 30⟩, Op.modify ⟨1, 11⟩, Op.create ⟨4, 40⟩]
        SampleDelta.mixed).error = none ∧
      (SampleDelta.mixed.mergeEntries
        (run [Op.delete 2, Op.create ⟨3, 30⟩, Op.modify ⟨1, 11⟩, Op.create ⟨4, 40⟩]
          (SampleDelta.fresh 5)).state).state.mMod.keys = [1, 3] :=
  have h := merge_equals_replay SampleDelta.mixed (SampleDelta.fresh 5)
    [Op.delete 2, Op.create ⟨3, 30⟩, Op.modify ⟨1, 11⟩, Op.create ⟨4, 40⟩]
    (by decide) (by decide) (by decide) (by decide) (by decide) (by decide) (by decide)
  ⟨by decide, by decide, by decide, by rw [h.2.2.1]; decide⟩

/-- Counterexample to C11: from the empty delta `delete(1)` succeeds; then `create(1, v)`
succeeds and the `delete(1)` right after it succeeds, yet key `1` is in `mDelete`. -/
theorem create_then_delete_counterexample :
    (run [Op.delete 1] (SampleDelta.fresh 0)).error = none ∧
      (run [Op.delete 1] (SampleDelta.fresh 0)).state.mHeader.isSome = true ∧
      ((run [Op.delete 1] (SampleDelta.fresh 0)).state.addEntry ⟨1, 10⟩).error = none ∧
      ((((run [Op.delete 1] (SampleDelta.fresh 0)).state.addEntry ⟨1, 10⟩).state.deleteEntry
        1).error = none) ∧
      ¬ ((((run [Op.delete 1] (SampleDelta.fresh 0)).state.addEntry ⟨1, 10⟩).state.deleteEntry
            1).state.mNew.contains 1 = false ∧
        (((run [Op.delete 1] (SampleDelta.fresh 0)).state.addEntry ⟨1, 10⟩).state.deleteEntry
            1).state.mMod.contains 1 = false ∧
        (((run [Op.delete 1] (SampleDelta.fresh 0)).state.addEntry ⟨1, 10⟩).state.deleteEntry
            1).state.mDelete.contains 1 = false) := by
  decide

/-- C11, amended: on an Active delta reached from an empty one by a sequence of calls, if
`addEntry` of an entry `v` with key `k` succeeds and `deleteEntry(k)` follows, then
`deleteEntry` succeeds and `k` is in neither `mNew` nor `mMod`; when `k` was not in
`mDelete` before the create, `k` is not in `mDelete` either; when `k` was in `mDelete`
before the create (the create turned the delete into an update), `k` is in `mDelete`. -/
theorem create_then_delete {K E H : Type} [LinearOrder K] [EntryFrame E K]
    (d₀ : LedgerDelta K E H) (ops : List (Op K E H)) (v : E)
    (h₀ : d₀.SetsEmpty)
    (hActive : (run ops d₀).state.mHeader.isSome = true)
    (hadd : ((run ops d₀).state.addEntry v).error = none) :
    (((run ops d₀).state.addEntry v).state.deleteEntry (EntryFrame.getKey v)).error = none ∧
      (((run ops d₀).state.addEntry v).state.deleteEntry (EntryFrame.getKey v)).state.mNew.contains
        (EntryFrame.getKey v) = false ∧
      (((run ops d₀).state.addEntry v).state.deleteEntry (EntryFrame.getKey v)).state.mMod.contains
        (EntryFrame.getKey v) = false ∧
      (((run ops d₀).state.addEntry v).state.deleteEntry (EntryFrame.getKey v)).state.mDelete.contains
        (EntryFrame.getKey v) = (run ops d₀).state.mDelete.contains (EntryFrame.getKey v) := by
  have hd := run_disjoint ops d₀ (LedgerDelta.pairwiseDisjoint_of_setsEmpty d₀ h₀)
  generalize (run ops d₀).state = d at hd hActive hadd ⊢
  have hk := hd (EntryFrame.getKey v)
  cases hh : d.mHeader with
  | none => rw [hh] at hActive; simp at hActive
  | some r =>
    have hcs : d.checkState = none := LedgerDelta.checkState_eq_none hh
    unfold LedgerDelta.addEntry at hadd ⊢
    rw [hcs] at hadd ⊢
    dsimp only at hadd ⊢
    split_ifs at hadd ⊢ with h1 h2 h3
    · unfold LedgerDelta.deleteEntry LedgerDelta.checkState
      simp_all
    · unfold LedgerDelta.deleteEntry LedgerDelta.checkState
      simp_all

/-- Witness of C11 (amended): key `1` is created in the empty delta, then deleted. -/
theorem create_then_delete_witness :
    (SampleDelta.fresh 0).SetsEmpty ∧
      (((run [] (SampleDelta.fresh 0)).state.addEntry ⟨1, 10⟩).state.deleteEntry
        1).state.mDelete.contains 1 = false :=
  ⟨by decide,
    (create_then_delete (SampleDelta.fresh 0) [] ⟨1, 10⟩ (by decide) (by decide)
      (by decide)).2.2.2.trans (by decide)⟩

theorem View.modify_modify {E : Type} (v₁ v₂ : E) (p p₁ : View E) (hp : p.Valid)
    (h : p.modify v₁ = some p₁) :
    ∃ p₂, p₁.modify v₂ = some p₂ ∧ p.modify v₂ = some p₂ ∧
      (p.new.isSome = false → p₂.mod = some v₂) ∧ (p.new.isSome = true → p₂.new = some v₂) := by
  obtain ⟨pn, pm, pd⟩ := p
  cases pn <;> cases pm <;> cases pd <;>
    simp [View.Valid] at hp <;>
    simp [View.modify] at h <;>
    subst h <;>
    simp [View.modify]

theorem LedgerDelta.sets_eq_of_view_eq {K E H : Type} [LinearOrder K]
    (d d' : LedgerDelta K E H) (h : ∀ k, d.view k = d'.view k) :
    d.mNew = d'.mNew ∧ d.mMod = d'.mMod ∧ d.mDelete = d'.mDelete :=
  ⟨KeyMap.ext_find (fun k => congrArg View.new (h k)),
    KeyMap.ext_find (fun k => congrArg View.mod (h k)),
    KeyMap.ext_find (fun k => KeyMap.find_unit_eq _ _ k (congrArg View.del (h k)))⟩

/-- C12: on an Active delta with pairwise disjoint sets, if `modEntry` of `v₁` succeeds,
then `modEntry` of `v₂` with the same key succeeds right after it, and `mNew`, `mMod`,
`mDelete` are then identical to those left by `modEntry` of `v₂` alone on the original
delta (which succeeds too): the key maps to `v₂` in `mMod` when it was not in `mNew`, and
to `v₂` in `mNew` when it was. -/
theorem modify_twice_collapses {K E H : Type} [LinearOrder K] [EntryFrame E K]
    (d : LedgerDelta K E H) (v₁ v₂ : E)
    (hkey : EntryFrame.getKey v₂ = EntryFrame.getKey v₁)
    (hActive : d.mHeader.isSome = true) (hd : d.PairwiseDisjoint)
    (h1 : (d.modEntry v₁).error = none) :
    ((d.modEntry v₁).state.modEntry v₂).error = none ∧ (d.modEntry v₂).error = none ∧
      ((d.modEntry v₁).state.modEntry v₂).state.mNew = (d.modEntry v₂).state.mNew ∧
      ((d.modEntry v₁).state.modEntry v₂).state.mMod = (d.modEntry v₂).state.mMod ∧
      ((d.modEntry v₁).state.modEntry v₂).state.mDelete = (d.modEntry v₂).state.mDelete ∧
      (d.mNew.contains (EntryFrame.getKey v₁) = false →
        ((d.modEntry v₁).state.modEntry v₂).state.mMod.find (EntryFrame.getKey v₁) = some v₂) ∧
      (d.mNew.contains (EntryFrame.getKey v₁) = true →
        ((d.modEntry v₁).state.modEntry v₂).state.mNew.find (EntryFrame.getKey v₁) = some v₂) := by
  have hA1 := LedgerDelta.modEntry_active v₁ d hActive
  have e1 := LedgerDelta.modEntry_view_key v₁ d hActive
  rw [if_pos h1] at e1
  obtain ⟨p₂, q1, q2, q3, q4⟩ := View.modify_modify v₁ v₂ _ _ (LedgerDelta.view_valid d hd _) e1
  have e2 := LedgerDelta.modEntry_view_key v₂ (d.modEntry v₁).state hA1
  have e3 := LedgerDelta.modEntry_view_key v₂ d hActive
  rw [hkey, q1] at e2
  rw [hkey, q2] at e3
  have ok2 : ((d.modEntry v₁).state.modEntry v₂).error = none := by
    by_contra hne; rw [if_neg hne] at e2; simp at e2
  have ok3 : (d.modEntry v₂).error = none := by
    by_contra hne; rw [if_neg hne] at e3; simp at e3
  rw [if_pos ok2] at e2
  rw [if_pos ok3] at e3
  have hv : ∀ k, ((d.modEntry v₁).state.modEntry v₂).state.view k = (d.modEntry v₂).state.view k := by
    intro k
    by_cases hk : k = EntryFrame.getKey v₁
    · rw [hk]; exact Option.some.inj (e2.symm.trans e3)
    · rw [LedgerDelta.modEntry_view_other v₂ _ k (by rw [hkey]; exact hk),
        LedgerDelta.modEntry_view_other v₁ _ k hk,
        LedgerDelta.modEntry_view_other v₂ _ k (by rw [hkey]; exact hk)]
  obtain ⟨s1, s2, s3⟩ := LedgerDelta.sets_eq_of_view_eq _ _ hv
  have hp₂ := Option.some.inj e2
  refine ⟨ok2, ok3, s1, s2, s3, fun hn => ?_, fun hn => ?_⟩
  · have := q3 hn
    rw [hp₂] at this
    exact this
  · have := q4 hn
    rw [hp₂] at this
    exact this

/-- Witness of C12: key `1`, modified in the delta, is modified twice more. -/
theorem modify_twice_collapses_witness :
    SampleDelta.mixed.PairwiseDisjoint ∧
      ((SampleDelta.mixed.modEntry ⟨1, 11⟩).state.modEntry ⟨1, 12⟩).state.mMod =
        (SampleDelta.mixed.modEntry ⟨1, 12⟩).state.mMod :=
  ⟨by decide,
    (modify_twice_collapses SampleDelta.mixed ⟨1, 11⟩ ⟨1, 12⟩ (by decide) (by decide)
      (by decide) (by decide)).2.2.2.1⟩

/-- Counterexample to C13: from the empty delta `create(1)` succeeds; then `delete(1)`
succeeds, and both a second `delete(1)` and a `modify(1)` right after it return normally:
neither raises a key conflict. -/
theorem illegal_pairs_counterexample :
    (run [Op.create ⟨1, 10⟩] (SampleDelta.fresh 0)).error = none ∧
      SampleDelta.created1.mHeader.isSome = true ∧
      (SampleDelta.created1.deleteEntry 1).error = none ∧
      ((SampleDelta.created1.deleteEntry 1).state.deleteEntry 1).error = none ∧
      ¬ ((SampleDelta.created1.deleteEntry 1).state.deleteEntry 1).KeyConflict ∧
      ((SampleDelta.created1.deleteEntry 1).state.modEntry ⟨1, 11⟩).error = none ∧
      ¬ ((SampleDelta.created1.deleteEntry 1).state.modEntry ⟨1, 11⟩).KeyConflict := by
  decide

/-- C13, amended: on an Active delta reached from an empty one by a sequence of calls, for
entries `v`, `v'` with the same key `k`: `addEntry(v')` right after a successful
`addEntry(v)` fails on an assertion, and so does `addEntry(v')` right after a successful
`modEntry(v)`. Right after a successful `deleteEntry(k)`, `deleteEntry(k)` and
`modEntry(v')` fail on an assertion when `k` was not in `mNew` before the delete; when `k`
was in `mNew` before the delete (the delete only cancelled the creation), both return
normally. -/
theorem illegal_pairs {K E H : Type} [LinearOrder K] [EntryFrame E K]
    (d₀ : LedgerDelta K E H) (ops : List (Op K E H)) (v v' : E)
    (hkey : EntryFrame.getKey v' = EntryFrame.getKey v)
    (h₀ : d₀.SetsEmpty)
    (hActive : (run ops d₀).state.mHeader.isSome = true) :
    (((run ops d₀).state.addEntry v).error = none →
        (((run ops d₀).state.addEntry v).state.addEntry v').KeyConflict) ∧
      (((run ops d₀).state.modEntry v).error = none →
        (((run ops d₀).state.modEntry v).state.addEntry v').KeyConflict) ∧
      (((run ops d₀).state.deleteEntry (EntryFrame.getKey v)).error = none →
        (run ops d₀).state.mNew.contains (EntryFrame.getKey v) = false →
        (((run ops d₀).state.deleteEntry (EntryFrame.getKey v)).state.deleteEntry
            (EntryFrame.getKey v)).KeyConflict ∧
          (((run ops d₀).state.deleteEntry (EntryFrame.getKey v)).state.modEntry
            v').KeyConflict) ∧
      (((run ops d₀).state.deleteEntry (EntryFrame.getKey v)).error = none →
        (run ops d₀).state.mNew.contains (EntryFrame.getKey v) = true →
        (((run ops d₀).state.deleteEntry (EntryFrame.getKey v)).state.deleteEntry
            (EntryFrame.getKey v)).error = none ∧
          (((run ops d₀).state.deleteEntry (EntryFrame.getKey v)).state.modEntry
            v').error = none) := by
  have hd := run_disjoint ops d₀ (LedgerDelta.pairwiseDisjoint_of_setsEmpty d₀ h₀)
  generalize (run ops d₀).state = d at hd hActive ⊢
  have hk := hd (EntryFrame.getKey v)
  cases hh : d.mHeader with
  | none => rw [hh] at hActive; simp at hActive
  | some r =>
    have hcs : d.checkState = none := LedgerDelta.checkState_eq_none hh
    refine ⟨?_, ?_, ?_, ?_⟩
    · intro hadd
      unfold LedgerDelta.addEntry at hadd
      rw [hcs] at hadd
      dsimp only at hadd
      have hst : (LedgerDelta.addEntry v d) = LedgerDelta.addEntry v d := rfl
      conv at hst => rhs; unfold LedgerDelta.addEntry
      rw [hcs] at hst
      dsimp only at hst
      rw [hst]
      split_ifs at hadd ⊢ with h1 h2 h3
      · unfold LedgerDelta.addEntry LedgerDelta.checkState Outcome.KeyConflict
        simp_all [Error.isKeyConflict]
      · unfold LedgerDelta.addEntry LedgerDelta.checkState Outcome.KeyConflict
        simp_all [Error.isKeyConflict]
    · intro hmod
      unfold LedgerDelta.modEntry at hmod
      rw [hcs] at hmod
      dsimp only at hmod
      have hst : (LedgerDelta.modEntry v d) = LedgerDelta.modEntry v d := rfl
      conv at hst => rhs; unfold LedgerDelta.modEntry
      rw [hcs] at hst
      dsimp only at hst
      rw [hst]
      split_ifs at hmod ⊢ with h1 h2 h3
      · unfold LedgerDelta.addEntry LedgerDelta.checkState Outcome.KeyConflict
        simp_all [Error.isKeyConflict]
      · unfold LedgerDelta.addEntry LedgerDelta.checkState Outcome.KeyConflict
        simp_all [Error.isKeyConflict]
      · unfold LedgerDelta.addEntry LedgerDelta.checkState Outcome.KeyConflict
        simp_all [Error.isKeyConflict]
    · intro hdel hn
      have hst : (LedgerDelta.deleteEntry (EntryFrame.getKey v) d) =
          LedgerDelta.deleteEntry (EntryFrame.getKey v) d := rfl
      conv at hst => rhs; unfold LedgerDelta.deleteEntry
      rw [hcs] at hst
      dsimp only at hst
      rw [hst] at hdel ⊢
      split_ifs at hdel ⊢ with h1 h2
      · rw [hn] at h1; simp at h1
      · unfold LedgerDelta.deleteEntry LedgerDelta.modEntry LedgerDelta.checkState
          Outcome.KeyConflict
        simp_all [Error.isKeyConflict]
    · intro hdel hn
      have hst : (LedgerDelta.deleteEntry (EntryFrame.getKey v) d) =
          LedgerDelta.deleteEntry (EntryFrame.getKey v) d := rfl
      conv at hst => rhs; unfold LedgerDelta.deleteEntry
      rw [hcs] at hst
      dsimp only at hst
      rw [hst]
      rw [if_pos hn]
      unfold LedgerDelta.deleteEntry LedgerDelta.modEntry LedgerDelta.checkState
      simp_all

/-- Witness of C13 (amended): in the empty delta key `1` is created, then created again. -/
theorem illegal_pairs_witness :
    (SampleDelta.fresh 0).SetsEmpty ∧
      (((run [] (SampleDelta.fresh 0)).state.addEntry ⟨1, 10⟩).state.addEntry
        ⟨1, 11⟩).KeyConflict :=
  ⟨by decide,
    (illegal_pairs (SampleDelta.fresh 0) [] ⟨1, 10⟩ ⟨1, 11⟩ (by decide) (by decide)
      (by decide)).1 (by decide)⟩

/-- C18: a call of `addEntry` or `modEntry` with an entry of key `k`, or of `deleteEntry(k)`,
whether it returns or fails, leaves every other key `j` as it was: in `mNew` or not with
the same stored entry, in `mMod` or not with the same stored entry, in `mDelete` or not;
and it leaves `mOuterDelta`, `mHeader` (so the Active state), `mCurrentHeader` and
`mPreviousHeaderValue` as they were. -/
theorem per_key_frame {K E H : Type} [LinearOrder K] [EntryFrame E K]
    (d : LedgerDelta K E H) (v : E) (j : K) (hj : j ≠ EntryFrame.getKey v) :
    ((d.addEntry v).state.mNew.find j = d.mNew.find j ∧
        (d.addEntry v).state.mMod.find j = d.mMod.find j ∧
        (d.addEntry v).state.mDelete.contains j = d.mDelete.contains j ∧
        d.SameFrame (d.addEntry v).state) ∧
      ((d.modEntry v).state.mNew.find j = d.mNew.find j ∧
        (d.modEntry v).state.mMod.find j = d.mMod.find j ∧
        (d.modEntry v).state.mDelete.contains j = d.mDelete.contains j ∧
        d.SameFrame (d.modEntry v).state) ∧
      ((d.deleteEntry (EntryFrame.getKey v)).state.mNew.find j = d.mNew.find j ∧
        (d.deleteEntry (EntryFrame.getKey v)).state.mMod.find j = d.mMod.find j ∧
        (d.deleteEntry (EntryFrame.getKey v)).state.mDelete.contains j = d.mDelete.contains j ∧
        d.SameFrame (d.deleteEntry (EntryFrame.getKey v)).state) := by
  have h1 := LedgerDelta.addEntry_view_other v d j hj
  have h2 := LedgerDelta.modEntry_view_other v d j hj
  have h3 := LedgerDelta.deleteEntry_view_other (EntryFrame.getKey v) d j hj
  exact ⟨⟨congrArg View.new h1, congrArg View.mod h1, congrArg View.del h1,
      LedgerDelta.addEntry_frame v d d ⟨rfl, rfl, rfl, rfl⟩⟩,
    ⟨congrArg View.new h2, congrArg View.mod h2, congrArg View.del h2,
      LedgerDelta.modEntry_frame v d d ⟨rfl, rfl, rfl, rfl⟩⟩,
    ⟨congrArg View.new h3, congrArg View.mod h3, congrArg View.del h3,
      LedgerDelta.deleteEntry_frame (EntryFrame.getKey v) d d ⟨rfl, rfl, rfl, rfl⟩⟩⟩

/-- Witness of C18: calls on key `2` of the delta with key `1` modified, key `2` created
and key `3` deleted leave key `1` as it was. -/
theorem per_key_frame_witness :
    (1 : Nat) ≠ EntryFrame.getKey (⟨2, 21⟩ : SampleEntry) ∧
      (SampleDelta.mixed.deleteEntry 2).state.mMod.find 1 = SampleDelta.mixed.mMod.find 1 :=
  ⟨by decide, (per_key_frame SampleDelta.mixed ⟨2, 21⟩ 1 (by decide)).2.2.2.1⟩

theorem foldl_push_eq {α β : Type} (f : α → β) :
    ∀ (l : List α) (init : List β), l.foldl (fun acc x => acc ++ [f x]) init = init ++ l.map f
  | [], init => by simp
  | a :: rest, init => by
    rw [List.foldl_cons, foldl_push_eq f rest, List.map_cons, List.append_assoc]
    rfl

/-- C14: the change log that `getTransactionMeta` builds (and then encodes) is one
`created` record with the `mEntry` of each entry of `mNew`, followed by one `updated`
record with the `mEntry` of each entry of `mMod`, followed by one `removed` record with
each key of `mDelete`, each group in the container's iteration order; its length is the
sum of the three sizes, and no record of a later group stands before one of an earlier
group. -/
theorem change_log_order {K E H L B : Type} [LinearOrder K]
    (encode : List (LedgerEntryChange K L) → B) (mEntry : E → L) (d : LedgerDelta K E H) :
    d.transactionMetaChanges mEntry =
        d.mNew.values.map (fun entry => LedgerEntryChange.created (mEntry entry)) ++
          d.mMod.values.map (fun entry => LedgerEntryChange.updated (mEntry entry)) ++
          d.mDelete.keys.map LedgerEntryChange.removed ∧
      d.getTransactionMeta encode mEntry =
        encode (d.mNew.values.map (fun entry => LedgerEntryChange.created (mEntry entry)) ++
          d.mMod.values.map (fun entry => LedgerEntryChange.updated (mEntry entry)) ++
          d.mDelete.keys.map LedgerEntryChange.removed) ∧
      (d.transactionMetaChanges mEntry).length =
        d.mNew.entries.length + d.mMod.entries.length + d.mDelete.entries.length ∧
      ((d.transactionMetaChanges mEntry).map LedgerEntryChange.group).Pairwise (· ≤ ·) := by
  have h : d.transactionMetaChanges mEntry =
      d.mNew.values.map (fun entry => LedgerEntryChange.created (mEntry entry)) ++
        d.mMod.values.map (fun entry => LedgerEntryChange.updated (mEntry entry)) ++
        d.mDelete.keys.map LedgerEntryChange.removed := by
    unfold LedgerDelta.transactionMetaChanges KeyMap.values
    rw [foldl_push_eq (fun k : K × E => LedgerEntryChange.created (mEntry k.2)),
      foldl_push_eq (fun k : K × E => (LedgerEntryChange.updated (mEntry k.2) :
        LedgerEntryChange K L)),
      foldl_push_eq (fun k : K => (LedgerEntryChange.removed k : LedgerEntryChange K L))]
    simp only [List.nil_append, List.map_map]
    rfl
  refine ⟨h, ?_, ?_, ?_⟩
  · unfold LedgerDelta.getTransactionMeta
    rw [h]
  · rw [h]
    simp [KeyMap.values, KeyMap.keys, Nat.add_assoc]
  · rw [h]
    simp only [List.map_append, List.map_map, List.pairwise_append, List.pairwise_map,
      List.mem_append, List.mem_map]
    refine ⟨⟨?_, ?_, ?_⟩, ?_, ?_⟩
    · exact List.pairwise_of_forall (fun _ _ => le_refl _)
    · exact List.pairwise_of_forall (fun _ _ => le_refl _)
    · rintro a ⟨x, _, rfl⟩ b ⟨y, _, rfl⟩
      simp [LedgerEntryChange.group]
    · exact List.pairwise_of_forall (fun _ _ => le_refl _)
    · rintro a (⟨x, _, rfl⟩ | ⟨x, _, rfl⟩) b ⟨y, _, rfl⟩ <;>
        simp [LedgerEntryChange.group]

theorem LedgerDelta.mergeEntries_keyed {K E H : Type} [LinearOrder K] [EntryFrame E K]
    (d other : LedgerDelta K E H) (h : d.Keyed) : (d.mergeEntries other).state.Keyed := by
  unfold LedgerDelta.mergeEntries
  split
  · exact h
  · have h1 := forEach_invariant LedgerDelta.deleteEntry LedgerDelta.Keyed
      (fun a s hs => LedgerDelta.deleteEntry_keyed a s hs) other.mDelete.keys d h
    dsimp only
    split
    · exact h1
    · have h2 := forEach_invariant LedgerDelta.addEntry LedgerDelta.Keyed
        (fun a s hs => LedgerDelta.addEntry_keyed a s hs) other.mNew.values _ h1
      split
      · exact h2
      · exact forEach_invariant LedgerDelta.modEntry LedgerDelta.Keyed
          (fun a s hs => LedgerDelta.modEntry_keyed a s hs) other.mMod.values _ h2

theorem Op.apply_keyed_any {K E H : Type} [LinearOrder K] [EntryFrame E K] (op : Op K E H)
    (d : LedgerDelta K E H) (h : d.Keyed) : (op.apply d).state.Keyed := by
  cases op with
  | create entry => exact LedgerDelta.addEntry_keyed entry d h
  | modify entry => exact LedgerDelta.modEntry_keyed entry d h
  | delete k => exact LedgerDelta.deleteEntry_keyed k d h
  | merge other => exact LedgerDelta.mergeEntries_keyed d other h

theorem run_keyed {K E H : Type} [LinearOrder K] [EntryFrame E K] (ops : List (Op K E H))
    (d : LedgerDelta K E H) (h : d.Keyed) : (run ops d).state.Keyed :=
  forEach_invariant Op.apply LedgerDelta.Keyed Op.apply_keyed_any ops d h

/-- C15: on a delta reached from an empty one by a sequence of calls, `getLiveEntries`
returns the `mEntry` of the entries of `mNew` followed by those of `mMod`, and
`getDeadEntries` returns the keys of `mDelete`, each in the container's iteration order.
With `keyOf` the key of a `LedgerEntry` (the one `EntryFrame::getKey` returns for the
frame holding it): a key is among the keys of the live entries or among the dead keys
exactly when it is in `mNew`, `mMod` or `mDelete`, and no key occurs twice in the keys of
the live entries followed by the dead keys. -/
theorem live_dead_partition {K E H L : Type} [LinearOrder K] [EntryFrame E K]
    (mEntry : E → L) (keyOf : L → K) (d₀ : LedgerDelta K E H) (ops : List (Op K E H))
    (hkey : ∀ entry, keyOf (mEntry entry) = EntryFrame.getKey entry)
    (h₀ : d₀.SetsEmpty) :
    (run ops d₀).state.getLiveEntries mEntry =
        (run ops d₀).state.mNew.values.map mEntry ++ (run ops d₀).state.mMod.values.map mEntry ∧
      (run ops d₀).state.getDeadEntries = (run ops d₀).state.mDelete.keys ∧
      (∀ k, (k ∈ ((run ops d₀).state.getLiveEntries mEntry).map keyOf ∨
            k ∈ (run ops d₀).state.getDeadEntries) ↔
          ((run ops d₀).state.mNew.contains k = true ∨
            (run ops d₀).state.mMod.contains k = true ∨
            (run ops d₀).state.mDelete.contains k = true)) ∧
      (((run ops d₀).state.getLiveEntries mEntry).map keyOf ++
        (run ops d₀).state.getDeadEntries).Nodup := by
  have hd := run_disjoint ops d₀ (LedgerDelta.pairwiseDisjoint_of_setsEmpty d₀ h₀)
  have hk := run_keyed ops d₀ (LedgerDelta.keyed_of_setsEmpty d₀ h₀)
  generalize (run ops d₀).state = d at hd hk ⊢
  have hlive : d.getLiveEntries mEntry = d.mNew.values.map mEntry ++ d.mMod.values.map mEntry := by
    unfold LedgerDelta.getLiveEntries KeyMap.values
    rw [foldl_push_eq (fun k : K × E => mEntry k.2), foldl_push_eq (fun k : K × E => mEntry k.2)]
    simp only [List.nil_append, List.map_map]
    rfl
  have hdead : d.getDeadEntries = d.mDelete.keys := by
    unfold LedgerDelta.getDeadEntries
    rw [foldl_push_eq (fun k : K => k)]
    simp
  have hkeys : (d.getLiveEntries mEntry).map keyOf = d.mNew.keys ++ d.mMod.keys := by
    rw [hlive, List.map_append, List.map_map, List.map_map,
      ← d.mNew.values_map_eq_keys EntryFrame.getKey hk.1,
      ← d.mMod.values_map_eq_keys EntryFrame.getKey hk.2]
    congr 1
    · exact List.map_congr_left (fun e _ => hkey e)
    · exact List.map_congr_left (fun e _ => hkey e)
  refine ⟨hlive, hdead, fun k => ?_, ?_⟩
  · rw [hkeys, hdead, List.mem_append, ← KeyMap.contains_iff_mem_keys,
      ← KeyMap.contains_iff_mem_keys, ← KeyMap.contains_iff_mem_keys, or_assoc]
  · rw [hkeys, hdead, List.nodup_append, List.nodup_append]
    refine ⟨⟨d.mNew.keys_nodup, d.mMod.keys_nodup, ?_⟩, d.mDelete.keys_nodup, ?_⟩
    · intro a h1 h2
      rw [← KeyMap.contains_iff_mem_keys] at h1 h2
      exact (hd a).1 ⟨h1, h2⟩
    · intro a h1 h2
      rw [← KeyMap.contains_iff_mem_keys] at h2
      rcases List.mem_append.1 h1 with h1 | h1
      · rw [← KeyMap.contains_iff_mem_keys] at h1
        exact (hd a).2.1 ⟨h1, h2⟩
      · rw [← KeyMap.contains_iff_mem_keys] at h1
        exact (hd a).2.2 ⟨h1, h2⟩

/-- Witness of C15: the delta with key `1` modified, key `2` created and key `3` deleted,
with an entry as its own `mEntry`. -/
theorem live_dead_partition_witness :
    (SampleDelta.fresh 0).SetsEmpty ∧
      SampleDelta.mixed.getLiveEntries id = [⟨2, 20⟩, ⟨1, 10⟩] ∧
      SampleDelta.mixed.getDeadEntries = [3] ∧
      ((SampleDelta.mixed.getLiveEntries id).map SampleEntry.id ++
        SampleDelta.mixed.getDeadEntries).Nodup :=
  ⟨by decide, by decide, by decide,
    (live_dead_partition id SampleEntry.id (SampleDelta.fresh 0)
      [Op.modify ⟨1, 10⟩, Op.create ⟨2, 20⟩, Op.delete 3] (fun _ => rfl) (by decide)).2.2.2⟩

/-- C19: there are an Active parent with pairwise disjoint sets (key `1` created) and a
sequence of calls (`create(1, v)`, then `delete(1)`) that succeeds on a new empty child,
such that merging the child into the parent succeeds and leaves the parent as it was, and
so does committing the child in a store, although the same sequence run on the parent
fails on an assertion at its first call. -/
theorem nested_scope_masks_conflict :
    ∃ (P d₀ : SampleDelta) (op : Op Nat SampleEntry Nat) (rest : List (Op Nat SampleEntry Nat))
      (w : Store Nat SampleEntry Nat),
      P.mHeader.isSome = true ∧ P.PairwiseDisjoint ∧
        d₀.SetsEmpty ∧ d₀.mHeader.isSome = true ∧
        (run (op :: rest) d₀).error = none ∧
        (P.mergeEntries (run (op :: rest) d₀).state).error = none ∧
        (P.mergeEntries (run (op :: rest) d₀).state).state = P ∧
        (op.apply P).KeyConflict ∧ (run (op :: rest) P).KeyConflict ∧
        (w.deltas 1).mOuterDelta = some 0 ∧
        (w.deltas 0).mNew = P.mNew ∧ (w.deltas 0).mMod = P.mMod ∧
        (w.deltas 0).mDelete = P.mDelete ∧
        (w.deltas 1).mNew = (run (op :: rest) d₀).state.mNew ∧
        (w.deltas 1).mMod = (run (op :: rest) d₀).state.mMod ∧
        (w.deltas 1).mDelete = (run (op :: rest) d₀).state.mDelete ∧
        (w.commit 1).error = none ∧
        ((w.commit 1).state.deltas 0).mNew = (w.deltas 0).mNew ∧
        ((w.commit 1).state.deltas 0).mMod = (w.deltas 0).mMod ∧
        ((w.commit 1).state.deltas 0).mDelete = (w.deltas 0).mDelete :=
  ⟨SampleDelta.created1, SampleDelta.fresh 0, Op.create ⟨1, 11⟩, [Op.delete 1],
    SampleStore.masked, by decide⟩

theorem View.merge_merge {E : Type} (g c p c' r₁ p' r₂ : View E) (hg : g.Valid) (hc : c.Valid)
    (hp : p.Valid) (h1 : g.merge c = some c') (h2 : c'.merge p = some r₁)
    (h3 : c.merge p = some p') (h4 : g.merge p' = some r₂) : r₁ = r₂ := by
  obtain ⟨gn, gm, gd⟩ := g
  obtain ⟨cn, cm, cd⟩ := c
  obtain ⟨pn, pm, pd⟩ := p
  cases gn <;> cases gm <;> cases gd <;> simp [View.Valid] at hg <;>
    cases cn <;> cases cm <;> cases cd <;> simp [View.Valid] at hc <;>
    simp [View.merge, View.add, View.delete, View.modify] at h1 <;>
    subst h1 <;>
    cases pn <;> cases pm <;> cases pd <;> simp [View.Valid] at hp <;>
    simp [View.merge, View.add, View.delete, View.modify] at h2 h3 <;>
    subst h2 <;> subst h3 <;>
    simp [View.merge, View.add, View.delete, View.modify] at h4 <;>
    exact h4

/-- The converse of `forEach_views`: when the loop runs to its end, the per-key effect was
defined for every item. -/
theorem LedgerDelta.forEach_defined_of_ok {K E H α : Type} [LinearOrder K]
    (f : α → LedgerDelta K E H → Outcome (LedgerDelta K E H))
    (key : α → K) (stepK : α → View E → Option (View E))
    (hkey : ∀ a d, d.mHeader.isSome = true →
      stepK a (d.view (key a)) =
        if (f a d).error = none then some ((f a d).state.view (key a)) else none)
    (hother : ∀ a d k', k' ≠ key a → (f a d).state.view k' = d.view k')
    (hact : ∀ a d, d.mHeader.isSome = true → (f a d).state.mHeader.isSome = true) :
    ∀ (l : List α) (d : LedgerDelta K E H), (l.map key).Nodup → d.mHeader.isSome = true →
      (forEach f l d).error = none → ∀ a ∈ l, (stepK a (d.view (key a))).isSome = true
  | [], _, _, _, _ => fun a ha => by simp at ha
  | a :: rest, d, hnd, hA, hok => by
    rw [List.map_cons, List.nodup_cons] at hnd
    have hfa : (f a d).error = none := by
      cases h : (f a d).error with
      | none => rfl
      | some e => rw [forEach, h] at hok; simp at hok
    have hun : forEach f (a :: rest) d = forEach f rest (f a d).state := by
      rw [forEach, hfa]
    rw [hun] at hok
    have ih := LedgerDelta.forEach_defined_of_ok f key stepK hkey hother hact rest (f a d).state
      hnd.2 (hact a d hA) hok
    intro b hb
    rcases List.mem_cons.1 hb with rfl | hb
    · rw [hkey b d hA, if_pos hfa]; rfl
    · have hne : key b ≠ key a := fun hbk => hnd.1 (List.mem_map.2 ⟨b, hb, hbk⟩)
      rw [← hother a d (key b) hne]
      exact ih b hb

theorem LedgerDelta.mergeEntries_ok_active {K E H : Type} [LinearOrder K] [EntryFrame E K]
    (d other : LedgerDelta K E H) (h : (d.mergeEntries other).error = none) :
    d.mHeader.isSome = true := by
  cases hh : d.mHeader with
  | none => rw [LedgerDelta.mergeEntries_terminal other d hh] at h; simp at h
  | some r => rfl

/-- The converse of `mergeEntries_views`: when the merge of a child with pairwise disjoint
sets, whose entries are stored under their own keys, runs to its end, the per-key merge
was defined for every key. -/
theorem LedgerDelta.mergeEntries_defined_of_ok {K E H : Type} [LinearOrder K] [EntryFrame E K]
    (P C : LedgerDelta K E H) (hCd : C.PairwiseDisjoint) (hCk : C.Keyed)
    (hok : (P.mergeEntries C).error = none) :
    ∀ k, ((C.view k).merge (P.view k)).isSome = true := by
  have hP := LedgerDelta.mergeEntries_ok_active P C hok
  have cN : ∀ k entry, C.mNew.find k = some entry → C.mNew.contains k = true :=
    fun k entry h => by unfold KeyMap.contains; rw [h]; rfl
  have cM : ∀ k entry, C.mMod.find k = some entry → C.mMod.contains k = true :=
    fun k entry h => by unfold KeyMap.contains; rw [h]; rfl
  have hN : ∀ entry ∈ C.mNew.values, C.mNew.find (EntryFrame.getKey entry) = some entry := by
    intro entry he
    obtain ⟨k, hk⟩ := C.mNew.mem_values entry he
    rw [hCk.1 k entry hk]; exact hk
  -- the three loops ran to their end
  obtain ⟨e1, e2, e3⟩ : (forEach LedgerDelta.deleteEntry C.mDelete.keys P).error = none ∧
      (forEach LedgerDelta.addEntry C.mNew.values
        (forEach LedgerDelta.deleteEntry C.mDelete.keys P).state).error = none ∧
      (forEach LedgerDelta.modEntry C.mMod.values (forEach LedgerDelta.addEntry C.mNew.values
        (forEach LedgerDelta.deleteEntry C.mDelete.keys P).state).state).error = none := by
    cases hh : P.mHeader with
    | none => rw [hh] at hP; simp at hP
    | some r =>
      unfold LedgerDelta.mergeEntries at hok
      rw [LedgerDelta.checkState_eq_none hh] at hok
      dsimp only at hok
      cases h1 : (forEach LedgerDelta.deleteEntry C.mDelete.keys P).error with
      | some e => rw [h1] at hok; simp at hok
      | none =>
        rw [h1] at hok
        dsimp only at hok
        cases h2 : (forEach LedgerDelta.addEntry C.mNew.values
            (forEach LedgerDelta.deleteEntry C.mDelete.keys P).state).error with
        | some e => rw [h2] at hok; simp at hok
        | none =>
          rw [h2] at hok
          exact ⟨rfl, rfl, hok⟩
  have hnd1 : (C.mDelete.keys.map id).Nodup := by rw [List.map_id]; exact C.mDelete.keys_nodup
  have hnd2 : (C.mNew.values.map EntryFrame.getKey).Nodup := by
    rw [C.mNew.values_map_eq_keys EntryFrame.getKey hCk.1]; exact C.mNew.keys_nodup
  have hnd3 : (C.mMod.values.map EntryFrame.getKey).Nodup := by
    rw [C.mMod.values_map_eq_keys EntryFrame.getKey hCk.2]; exact C.mMod.keys_nodup
  have d1 := LedgerDelta.forEach_defined_of_ok LedgerDelta.deleteEntry id (fun _ v => v.delete)
    (fun k d hA => LedgerDelta.deleteEntry_view_key k d hA)
    (fun k d k' h => LedgerDelta.deleteEntry_view_other k d k' h)
    (fun k d hA => LedgerDelta.deleteEntry_active k d hA) C.mDelete.keys P hnd1 hP e1
  obtain ⟨_, a1, _, o1⟩ := LedgerDelta.forEach_views LedgerDelta.deleteEntry id
    (fun _ v => v.delete)
    (fun k d hA => LedgerDelta.deleteEntry_view_key k d hA)
    (fun k d k' h => LedgerDelta.deleteEntry_view_other k d k' h)
    (fun k d hA => LedgerDelta.deleteEntry_active k d hA) C.mDelete.keys P hnd1 hP d1
  have o1' : ∀ k, C.mDelete.contains k = false →
      (forEach LedgerDelta.deleteEntry C.mDelete.keys P).state.view k = P.view k := by
    intro k hk
    apply o1 k
    intro a ha hak
    have hak' : a = k := hak
    rw [hak', ← KeyMap.contains_iff_mem_keys, hk] at ha
    simp at ha
  have d2 := LedgerDelta.forEach_defined_of_ok LedgerDelta.addEntry EntryFrame.getKey
    (fun entry v => v.add entry)
    (fun entry d hA => LedgerDelta.addEntry_view_key entry d hA)
    (fun entry d k' h => LedgerDelta.addEntry_view_other entry d k' h)
    (fun entry d hA => LedgerDelta.addEntry_active entry d hA) C.mNew.values _ hnd2 a1 e2
  obtain ⟨_, a2, _, o2⟩ := LedgerDelta.forEach_views LedgerDelta.addEntry EntryFrame.getKey
    (fun entry v => v.add entry)
    (fun entry d hA => LedgerDelta.addEntry_view_key entry d hA)
    (fun entry d k' h => LedgerDelta.addEntry_view_other entry d k' h)
    (fun entry d hA => LedgerDelta.addEntry_active entry d hA) C.mNew.values _ hnd2 a1 d2
  have o2' : ∀ k, C.mNew.contains k = false →
      (forEach LedgerDelta.addEntry C.mNew.values
        (forEach LedgerDelta.deleteEntry C.mDelete.keys P).state).state.view k
        = (forEach LedgerDelta.deleteEntry C.mDelete.keys P).state.view k := by
    intro k hk
    apply o2 k
    intro a ha hak
    have := cN _ _ (hN a ha)
    rw [hak, hk] at this
    simp at this
  have d3 := LedgerDelta.forEach_defined_of_ok LedgerDelta.modEntry EntryFrame.getKey
    (fun entry v => v.modify entry)
    (fun entry d hA => LedgerDelta.modEntry_view_key entry d hA)
    (fun entry d k' h => LedgerDelta.modEntry_view_other entry d k' h)
    (fun entry d hA => LedgerDelta.modEntry_active entry d hA) C.mMod.values _ hnd3 a2 e3
  intro k
  have hd := hCd k
  unfold View.merge
  cases hcd : C.mDelete.contains k with
  | true =>
    have hc' : (C.view k).del = true := hcd
    rw [if_pos hc']
    exact d1 k ((C.mDelete.contains_iff_mem_keys k).1 hcd)
  | false =>
    have hc' : (C.view k).del = false := hcd
    rw [hc']
    simp only [Bool.false_eq_true, if_false]
    cases hcn : C.mNew.find k with
    | some entry =>
      have hk : EntryFrame.getKey entry = k := hCk.1 k entry hcn
      have hn' : (C.view k).new = some entry := hcn
      rw [hn']
      have h2 := d2 entry (LedgerDelta.mem_values_of_find _ k entry hcn)
      rw [hk, o1' k hcd] at h2
      exact h2
    | none =>
      have hn' : (C.view k).new = none := hcn
      have hn : C.mNew.contains k = false := (KeyMap.contains_eq_false_iff _ _).2 hcn
      rw [hn']
      cases hcm : C.mMod.find k with
      | some entry =>
        have hk : EntryFrame.getKey entry = k := hCk.2 k entry hcm
        have hm' : (C.view k).mod = some entry := hcm
        rw [hm']
        have h3 := d3 entry (LedgerDelta.mem_values_of_find _ k entry hcm)
        rw [hk, o2' k hn, o1' k hcd] at h3
        exact h3
      | none =>
        have hm' : (C.view k).mod = none := hcm
        rw [hm']
        rfl

theorem LedgerDelta.mergeEntries_views_of_ok {K E H : Type} [LinearOrder K] [EntryFrame E K]
    (P C : LedgerDelta K E H) (hCd : C.PairwiseDisjoint) (hCk : C.Keyed)
    (hok : (P.mergeEntries C).error = none) :
    ∀ k, (C.view k).merge (P.view k) = some ((P.mergeEntries C).state.view k) :=
  (LedgerDelta.mergeEntries_views P C (LedgerDelta.mergeEntries_ok_active P C hok) hCd hCk
    (LedgerDelta.mergeEntries_defined_of_ok P C hCd hCk hok)).2

/-- C20: for deltas `P`, `C`, `G` with pairwise disjoint sets (`C` and `G` holding every
entry under its own key, as every delta built by the member functions does): if merging
`G` into `C` and the result into `P` succeeds, and merging `C` into `P` and then `G` into
the result succeeds, then the two results have identical `mNew`, `mMod` and `mDelete`. -/
theorem merge_nesting_transparent {K E H : Type} [LinearOrder K] [EntryFrame E K]
    (P C G : LedgerDelta K E H)
    (hPd : P.PairwiseDisjoint) (hCd : C.PairwiseDisjoint) (hGd : G.PairwiseDisjoint)
    (hCk : C.Keyed) (hGk : G.Keyed)
    (h1 : (C.mergeEntries G).error = none)
    (h2 : (P.mergeEntries (C.mergeEntries G).state).error = none)
    (h3 : (P.mergeEntries C).error = none)
    (h4 : ((P.mergeEntries C).state.mergeEntries G).error = none) :
    (P.mergeEntries (C.mergeEntries G).state).state.mNew =
        ((P.mergeEntries C).state.mergeEntries G).state.mNew ∧
      (P.mergeEntries (C.mergeEntries G).state).state.mMod =
        ((P.mergeEntries C).state.mergeEntries G).state.mMod ∧
      (P.mergeEntries (C.mergeEntries G).state).state.mDelete =
        ((P.mergeEntries C).state.mergeEntries G).state.mDelete := by
  have v1 := LedgerDelta.mergeEntries_views_of_ok C G hGd hGk h1
  have v2 := LedgerDelta.mergeEntries_views_of_ok P (C.mergeEntries G).state
    (LedgerDelta.mergeEntries_disjoint G C hCd) (LedgerDelta.mergeEntries_keyed C G hCk) h2
  have v3 := LedgerDelta.mergeEntries_views_of_ok P C hCd hCk h3
  have v4 := LedgerDelta.mergeEntries_views_of_ok (P.mergeEntries C).state G hGd hGk h4
  exact LedgerDelta.sets_eq_of_view_eq _ _ (fun k =>
    View.merge_merge _ _ _ _ _ _ _ (LedgerDelta.view_valid G hGd k)
      (LedgerDelta.view_valid C hCd k) (LedgerDelta.view_valid P hPd k)
      (v1 k) (v2 k) (v3 k) (v4 k))

/-- Witness of C20: the parent has key `1` modified, key `2` created and key `3` deleted;
the child creates keys `3` and `4`; the grandchild deletes key `4` and modifies key `3`. -/
theorem merge_nesting_transparent_witness :
    SampleDelta.mixed.PairwiseDisjoint ∧ SampleDelta.child.Keyed ∧
      (SampleDelta.mixed.mergeEntries
        (SampleDelta.child.mergeEntries SampleDelta.grandchild).state).error = none ∧
      (SampleDelta.mixed.mergeEntries
        (SampleDelta.child.mergeEntries SampleDelta.grandchild).state).state.mMod =
        ((SampleDelta.mixed.mergeEntries SampleDelta.child).state.mergeEntries
          SampleDelta.grandchild).state.mMod :=
  have hC : SampleDelta.child.Keyed :=
    run_keyed _ _ (LedgerDelta.keyed_of_setsEmpty (SampleDelta.fresh 0) (by decide))
  have hG : SampleDelta.grandchild.Keyed :=
    run_keyed _ _ (LedgerDelta.keyed_of_setsEmpty (SampleDelta.fresh 0) (by decide))
  ⟨by decide, hC, by decide,
    (merge_nesting_transparent SampleDelta.mixed SampleDelta.child SampleDelta.grandchild
      (by decide) (by decide) (by decide) hC hG
      (by decide) (by decide) (by decide) (by decide)).2.1⟩

namespace Store

variable {K E H : Type} [LinearOrder K] [EntryFrame E K]

theorem call_deltas_same (i : Nat) (f : LedgerDelta K E H → Outcome (LedgerDelta K E H))
    (w : Store K E H) : (call i f w).state.deltas i = (f (w.deltas i)).state := by
  unfold call; exact setDelta_deltas_same _ _ _

theorem call_deltas_other (i j : Nat) (f : LedgerDelta K E H → Outcome (LedgerDelta K E H))
    (w : Store K E H) (h : j ≠ i) : (call i f w).state.deltas j = w.deltas j := by
  unfold call; exact setDelta_deltas_other _ _ _ _ h

theorem newNested_deltas_other (w : Store K E H) (c r j : Nat) (h : j ≠ c) :
    (w.newNested c r).deltas j = w.deltas j := by
  unfold newNested; exact setDelta_deltas_other _ _ _ _ h

/-- The delta that the nested constructor builds. -/
theorem newNested_deltas_same (w : Store K E H) (c r : Nat) :
    ((w.newNested c r).deltas c).SetsEmpty ∧
      ((w.newNested c r).deltas c).mHeader = some (HeaderRef.working r) ∧
      ((w.newNested c r).deltas c).mOuterDelta = some r ∧
      ((w.newNested c r).deltas c).mCurrentHeader = (w.deltas r).mCurrentHeader ∧
      ((w.newNested c r).deltas c).mPreviousHeaderValue = (w.deltas r).mCurrentHeader := by
  unfold newNested
  rw [setDelta_deltas_same]
  exact ⟨⟨rfl, rfl, rfl⟩, rfl, rfl, rfl, rfl⟩

/-- A successful commit of a nested delta: the outer delta becomes the result of the merge,
with the committed delta's working header. -/
theorem commit_nested_parent [DecidableEq H] (w : Store K E H) (c r : Nat) (hne : c ≠ r)
    (hActive : (w.deltas c).mHeader = some (HeaderRef.working r))
    (hsnap : (w.deltas c).mPreviousHeaderValue = (w.deltas r).mCurrentHeader)
    (hp : (w.deltas c).mOuterDelta = some r)
    (hm : ((w.deltas r).mergeEntries (w.deltas c)).error = none) :
    (w.commit c).error = none ∧
      (w.commit c).state.deltas r =
        { ((w.deltas r).mergeEntries (w.deltas c)).state with
          mCurrentHeader := (w.deltas c).mCurrentHeader } := by
  rw [commit_nested_ok w c r (HeaderRef.working r) hActive hsnap hp hm]
  refine ⟨rfl, ?_⟩
  have hne' : r ≠ c := Ne.symm hne
  simp [finishCommit, writeHeader, setDelta, hne, hne']

/-- A failed merge makes the commit of a nested delta fail with the same error. -/
theorem commit_nested_error [DecidableEq H] (w : Store K E H) (c r : Nat) (e : Error)
    (hActive : (w.deltas c).mHeader = some (HeaderRef.working r))
    (hsnap : (w.deltas c).mPreviousHeaderValue = (w.deltas r).mCurrentHeader)
    (hp : (w.deltas c).mOuterDelta = some r)
    (hm : ((w.deltas r).mergeEntries (w.deltas c)).error = some e) :
    (w.commit c).error = some e := by
  rw [commit_nested_fail w c r (HeaderRef.working r) e hActive hsnap hp hm]

end Store

theorem ok_of_step {α : Type} {p : Prop} [Decidable p] {x y : α}
    (h : some x = if p then some y else none) : p ∧ y = x := by
  by_cases hp : p
  · rw [if_pos hp] at h
    exact ⟨hp, (Option.some.inj h).symm⟩
  · rw [if_neg hp] at h
    simp at h

theorem LedgerDelta.contains_of_view {K E H : Type} [LinearOrder K] (d : LedgerDelta K E H)
    (k : K) (n m : Option E) (b : Bool) (h : d.view k = ⟨n, m, b⟩) :
    d.mNew.find k = n ∧ d.mMod.find k = m ∧ d.mDelete.contains k = b :=
  ⟨congrArg View.new h, congrArg View.mod h, congrArg View.del h⟩

theorem LedgerDelta.view_of_untracked {K E H : Type} [LinearOrder K] (d : LedgerDelta K E H)
    (k : K) (hN : d.mNew.contains k = false) (hM : d.mMod.contains k = false)
    (hD : d.mDelete.contains k = false) : d.view k = ⟨none, none, false⟩ := by
  unfold LedgerDelta.view
  rw [(KeyMap.contains_eq_false_iff _ _).1 hN, (KeyMap.contains_eq_false_iff _ _).1 hM, hD]

/-- C16: let the delta at `r` be Active with the key `A` of `a` in none of its sets, and
`a₂` another entry with key `A`. A child constructed at another address `c` on it calls
`addEntry(a)` and `modEntry(a₂)`: both succeed and the child's `mNew` maps `A` to `a₂`,
with `A` not in its `mMod`. The child's `commit` then succeeds and the outer delta's
`mNew` maps `A` to `a₂`. A following `deleteEntry(A)` on the outer delta succeeds and
leaves `A` in none of its `mNew`, `mMod`, `mDelete`. -/
theorem create_modify_commit_delete {K E H : Type} [LinearOrder K] [EntryFrame E K]
    [DecidableEq H] (w : Store K E H) (r c : Nat) (a a₂ : E)
    (hne : c ≠ r) (hkey : EntryFrame.getKey a₂ = EntryFrame.getKey a)
    (hActive : (w.deltas r).mHeader.isSome = true)
    (hN : (w.deltas r).mNew.contains (EntryFrame.getKey a) = false)
    (hM : (w.deltas r).mMod.contains (EntryFrame.getKey a) = false)
    (hD : (w.deltas r).mDelete.contains (EntryFrame.getKey a) = false) :
    (Store.childCreates r c a w).error = none ∧
      (Store.childModifies r c a a₂ w).error = none ∧
      ((Store.childModifies r c a a₂ w).state.deltas c).mNew.find (EntryFrame.getKey a)
        = some a₂ ∧
      ((Store.childModifies r c a a₂ w).state.deltas c).mMod.contains (EntryFrame.getKey a)
        = false ∧
      (Store.childCommits r c a a₂ w).error = none ∧
      ((Store.childCommits r c a a₂ w).state.deltas r).mNew.find (EntryFrame.getKey a)
        = some a₂ ∧
      (Store.rootDeletes r c a a₂ w).error = none ∧
      ((Store.rootDeletes r c a a₂ w).state.deltas r).mNew.contains (EntryFrame.getKey a)
        = false ∧
      ((Store.rootDeletes r c a a₂ w).state.deltas r).mMod.contains (EntryFrame.getKey a)
        = false ∧
      ((Store.rootDeletes r c a a₂ w).state.deltas r).mDelete.contains (EntryFrame.getKey a)
        = false := by
  obtain ⟨nE, nH, nO, nC, nP⟩ := Store.newNested_deltas_same w c r
  have hr : r ≠ c := Ne.symm hne
  -- the child after its two calls
  generalize hNd : (w.newNested c r).deltas c = N at nE nH nO nC nP
  have nA : N.mHeader.isSome = true := by rw [nH]; rfl
  have vN : ∀ k, N.view k = ⟨none, none, false⟩ := LedgerDelta.view_of_setsEmpty N nE
  have s1 := LedgerDelta.addEntry_view_key a N nA
  rw [vN] at s1
  obtain ⟨ok1, v1⟩ := ok_of_step (x := (⟨some a, none, false⟩ : View E)) s1
  have a1 := LedgerDelta.addEntry_active a N nA
  have f1 := LedgerDelta.addEntry_frame a N N ⟨rfl, rfl, rfl, rfl⟩
  have s2 := LedgerDelta.modEntry_view_key a₂ (N.addEntry a).state a1
  rw [hkey, v1] at s2
  obtain ⟨ok2, v2⟩ := ok_of_step (x := (⟨some a₂, none, false⟩ : View E)) s2
  have f2 := LedgerDelta.modEntry_frame a₂ N (N.addEntry a).state f1
  have hCd : ((N.addEntry a).state.modEntry a₂).state.PairwiseDisjoint :=
    LedgerDelta.modEntry_disjoint a₂ _ (LedgerDelta.addEntry_disjoint a N
      (LedgerDelta.pairwiseDisjoint_of_setsEmpty N nE))
  have hCk : ((N.addEntry a).state.modEntry a₂).state.Keyed :=
    LedgerDelta.modEntry_keyed a₂ _ (LedgerDelta.addEntry_keyed a N
      (LedgerDelta.keyed_of_setsEmpty N nE))
  have vOther : ∀ k, k ≠ EntryFrame.getKey a →
      ((N.addEntry a).state.modEntry a₂).state.view k = ⟨none, none, false⟩ := by
    intro k hk
    rw [LedgerDelta.modEntry_view_other a₂ _ k (by rw [hkey]; exact hk),
      LedgerDelta.addEntry_view_other a N k hk, vN]
  generalize hC2 : ((N.addEntry a).state.modEntry a₂).state = C₂ at v2 f2 hCd hCk vOther
  -- the store after the child's two calls
  have e1 : (Store.childCreates r c a w).error = none := by
    show (LedgerDelta.addEntry a ((w.newNested c r).deltas c)).error = none
    rw [hNd]; exact ok1
  have d1 : (Store.childCreates r c a w).state.deltas c = (N.addEntry a).state := by
    unfold Store.childCreates
    rw [Store.call_deltas_same, hNd]
  have e2 : (Store.childModifies r c a a₂ w).error = none := by
    show (LedgerDelta.modEntry a₂ ((Store.childCreates r c a w).state.deltas c)).error = none
    rw [d1]; exact ok2
  have d2 : (Store.childModifies r c a a₂ w).state.deltas c = C₂ := by
    unfold Store.childModifies
    rw [Store.call_deltas_same, d1, hC2]
  have r2 : (Store.childModifies r c a a₂ w).state.deltas r = w.deltas r := by
    unfold Store.childModifies Store.childCreates
    rw [Store.call_deltas_other _ _ _ _ hr, Store.call_deltas_other _ _ _ _ hr,
      Store.newNested_deltas_other _ _ _ _ hr]
  -- the merge into the outer delta
  have vR := LedgerDelta.view_of_untracked (w.deltas r) _ hN hM hD
  have hmv : ∀ k, (C₂.view k).merge ((w.deltas r).view k) =
      some (if k = EntryFrame.getKey a then ⟨some a₂, none, false⟩ else (w.deltas r).view k) := by
    intro k
    by_cases hk : k = EntryFrame.getKey a
    · rw [if_pos hk, hk, v2, vR]; rfl
    · rw [if_neg hk, vOther k hk]; rfl
  obtain ⟨mok, mv⟩ := LedgerDelta.mergeEntries_views (w.deltas r) C₂ hActive hCd hCk
    (fun k => by rw [hmv k]; rfl)
  have mA : ((w.deltas r).mergeEntries C₂).state.view (EntryFrame.getKey a) =
      ⟨some a₂, none, false⟩ := by
    have := (mv (EntryFrame.getKey a)).symm.trans (hmv (EntryFrame.getKey a))
    rw [if_pos rfl] at this
    exact Option.some.inj this
  have mF := LedgerDelta.mergeEntries_frame C₂ (w.deltas r) (w.deltas r) ⟨rfl, rfl, rfl, rfl⟩
  obtain ⟨e3, r3⟩ := Store.commit_nested_parent (Store.childModifies r c a a₂ w).state c r hne
    (by rw [d2, f2.2.1, nH]) (by rw [d2, r2, f2.2.2.2, nP]) (by rw [d2, f2.1, nO])
    (by rw [d2, r2]; exact mok)
  rw [d2, r2] at r3
  have e3' : (Store.childCommits r c a a₂ w).error = none := e3
  have r3' : (Store.childCommits r c a a₂ w).state.deltas r =
      { ((w.deltas r).mergeEntries C₂).state with mCurrentHeader := C₂.mCurrentHeader } := r3
  -- the delete on the outer delta
  generalize hR' : ({ ((w.deltas r).mergeEntries C₂).state with
    mCurrentHeader := C₂.mCurrentHeader } : LedgerDelta K E H) = R' at r3'
  have vR' : R'.view (EntryFrame.getKey a) = ⟨some a₂, none, false⟩ := by
    rw [← hR']; exact mA
  have aR' : R'.mHeader.isSome = true := by
    rw [← hR']
    show ((w.deltas r).mergeEntries C₂).state.mHeader.isSome = true
    rw [mF.2.1]; exact hActive
  have s5 := LedgerDelta.deleteEntry_view_key (EntryFrame.getKey a) R' aR'
  rw [vR'] at s5
  obtain ⟨ok5, v5⟩ := ok_of_step (x := (⟨none, none, false⟩ : View E)) s5
  have e5 : (Store.rootDeletes r c a a₂ w).error = none := by
    show (LedgerDelta.deleteEntry (EntryFrame.getKey a)
      ((Store.childCommits r c a a₂ w).state.deltas r)).error = none
    rw [r3']; exact ok5
  have d5 : (Store.rootDeletes r c a a₂ w).state.deltas r =
      (R'.deleteEntry (EntryFrame.getKey a)).state := by
    unfold Store.rootDeletes
    rw [Store.call_deltas_same, r3']
  obtain ⟨c1, c2, _⟩ := LedgerDelta.contains_of_view _ _ _ _ _ v2
  obtain ⟨c3, _, _⟩ := LedgerDelta.contains_of_view _ _ _ _ _ vR'
  obtain ⟨c4, c5, c6⟩ := LedgerDelta.contains_of_view _ _ _ _ _ v5
  refine ⟨e1, e2, ?_, ?_, e3', ?_, e5, ?_, ?_, ?_⟩
  · rw [d2]; exact c1
  · rw [d2]; exact (KeyMap.contains_eq_false_iff _ _).2 c2
  · rw [r3']; exact c3
  · rw [d5]; exact (KeyMap.contains_eq_false_iff _ _).2 c4
  · rw [d5]; exact (KeyMap.contains_eq_false_iff _ _).2 c5
  · rw [d5]; exact c6

/-- Witness of C16: on the root delta at `0`, a child at `1` creates key `5`, modifies it
and commits; the root then deletes key `5`. -/
theorem create_modify_commit_delete_witness :
    (SampleStore.root.deltas 0).mHeader.isSome = true ∧
      ((Store.childCommits 0 1 ⟨5, 50⟩ ⟨5, 51⟩ SampleStore.root).state.deltas 0).mNew.find 5
        = some ⟨5, 51⟩ ∧
      (Store.rootDeletes 0 1 ⟨5, 50⟩ ⟨5, 51⟩ SampleStore.root).error = none :=
  have h := create_modify_commit_delete SampleStore.root 0 1 ⟨5, 50⟩ ⟨5, 51⟩
    (by decide) (by decide) (by decide) (by decide) (by decide) (by decide)
  ⟨by decide, h.2.2.2.2.2.1, h.2.2.2.2.2.2.1⟩

theorem LedgerDelta.deleteEntry_error_eq {K E H : Type} [LinearOrder K] (k : K)
    (d : LedgerDelta K E H) (e : Error) (hA : d.mHeader.isSome = true)
    (h : (deleteEntry k d).error = some e) : e = Error.doubleDelete := by
  unfold deleteEntry checkState at h
  cases hh : d.mHeader with
  | none => rw [hh] at hA; simp at hA
  | some r =>
    rw [hh] at h
    dsimp only at h
    split_ifs at h; simp at h; exact h.symm

theorem LedgerDelta.deleteEntry_again {K E H : Type} [LinearOrder K] (k : K)
    (d : LedgerDelta K E H) (hA : d.mHeader.isSome = true)
    (hN : d.mNew.contains k = false) (hD : d.mDelete.contains k = true) :
    (deleteEntry k d).error = some Error.doubleDelete := by
  unfold deleteEntry checkState
  cases hh : d.mHeader with
  | none => rw [hh] at hA; simp at hA
  | some r => simp [hN, hD]

/-- A loop of `deleteEntry` that reaches a key already in `mDelete` (and not in `mNew`)
stops on the double-delete assertion, there or before. -/
theorem LedgerDelta.forEach_delete_again {K E H : Type} [LinearOrder K] [EntryFrame E K]
    (k : K) :
    ∀ (l : List K) (d : LedgerDelta K E H), k ∈ l → d.mHeader.isSome = true →
      d.mNew.contains k = false → d.mDelete.contains k = true →
      (forEach deleteEntry l d).error = some Error.doubleDelete
  | [], _, hk, _, _, _ => by simp at hk
  | a :: rest, d, hk, hA, hN, hD => by
    rw [forEach]
    cases he : (deleteEntry a d).error with
    | some e =>
      rw [LedgerDelta.deleteEntry_error_eq a d e hA he]
    | none =>
      have hak : a ≠ k := by
        intro h
        rw [h, LedgerDelta.deleteEntry_again k d hA hN hD] at he
        simp at he
      have hk' : k ∈ rest := by
        rcases List.mem_cons.1 hk with h | h
        · exact absurd h.symm hak
        · exact h
      have hv := LedgerDelta.deleteEntry_view_other a d k (Ne.symm hak)
      have hN' : (deleteEntry a d).state.mNew.contains k = false := by
        have := congrArg View.new hv
        unfold KeyMap.contains at hN ⊢
        rw [show (deleteEntry a d).state.mNew.find k = d.mNew.find k from this]
        exact hN
      have hD' : (deleteEntry a d).state.mDelete.contains k = true :=
        (congrArg View.del hv).trans hD
      exact LedgerDelta.forEach_delete_again k rest _ hk'
        (LedgerDelta.deleteEntry_active a d hA) hN' hD'

theorem LedgerDelta.mergeEntries_delete_again {K E H : Type} [LinearOrder K] [EntryFrame E K]
    (P C : LedgerDelta K E H) (k : K) (hA : P.mHeader.isSome = true)
    (hN : P.mNew.contains k = false) (hD : P.mDelete.contains k = true)
    (hC : C.mDelete.contains k = true) :
    (P.mergeEntries C).error = some Error.doubleDelete := by
  have h := LedgerDelta.forEach_delete_again k C.mDelete.keys P
    ((C.mDelete.contains_iff_mem_keys k).1 hC) hA hN hD
  cases hh : P.mHeader with
  | none => rw [hh] at hA; simp at hA
  | some r =>
    unfold LedgerDelta.mergeEntries
    rw [LedgerDelta.checkState_eq_none hh]
    simp only [h]

/-- A child constructed at `c` on the delta at `r` that calls `deleteEntry(k)`: the call
succeeds, the child records `k` as deleted and nothing else, and the outer delta is as
it was. -/
theorem Store.childDeletes_spec {K E H : Type} [LinearOrder K] [EntryFrame E K]
    (w : Store K E H) (r c : Nat) (k : K) (hne : c ≠ r) :
    (Store.childDeletes r c k w).error = none ∧
      ((Store.childDeletes r c k w).state.deltas c).view k = ⟨none, none, true⟩ ∧
      (∀ j, j ≠ k → ((Store.childDeletes r c k w).state.deltas c).view j = ⟨none, none, false⟩) ∧
      ((Store.childDeletes r c k w).state.deltas c).PairwiseDisjoint ∧
      ((Store.childDeletes r c k w).state.deltas c).Keyed ∧
      ((Store.childDeletes r c k w).state.deltas c).mHeader = some (HeaderRef.working r) ∧
      ((Store.childDeletes r c k w).state.deltas c).mOuterDelta = some r ∧
      ((Store.childDeletes r c k w).state.deltas c).mPreviousHeaderValue
        = (w.deltas r).mCurrentHeader ∧
      (Store.childDeletes r c k w).state.deltas r = w.deltas r := by
  obtain ⟨nE, nH, nO, _, nP⟩ := Store.newNested_deltas_same w c r
  have hr : r ≠ c := Ne.symm hne
  have hd : (Store.childDeletes r c k w).state.deltas c =
      (LedgerDelta.deleteEntry k ((w.newNested c r).deltas c)).state := by
    unfold Store.childDeletes
    rw [Store.call_deltas_same]
  have he : (Store.childDeletes r c k w).error =
      (LedgerDelta.deleteEntry k ((w.newNested c r).deltas c)).error := rfl
  have hrr : (Store.childDeletes r c k w).state.deltas r = w.deltas r := by
    unfold Store.childDeletes
    rw [Store.call_deltas_other _ _ _ _ hr, Store.newNested_deltas_other _ _ _ _ hr]
  rw [hd, he]
  generalize (w.newNested c r).deltas c = N at nE nH nO nP
  have nA : N.mHeader.isSome = true := by rw [nH]; rfl
  have vN : ∀ j, N.view j = ⟨none, none, false⟩ := LedgerDelta.view_of_setsEmpty N nE
  have s1 := LedgerDelta.deleteEntry_view_key k N nA
  rw [vN] at s1
  obtain ⟨ok1, v1⟩ := ok_of_step (x := (⟨none, none, true⟩ : View E)) s1
  have f1 := LedgerDelta.deleteEntry_frame k N N ⟨rfl, rfl, rfl, rfl⟩
  refine ⟨ok1, v1, fun j hj => ?_, ?_, ?_, ?_, ?_, ?_, hrr⟩
  · rw [LedgerDelta.deleteEntry_view_other k N j hj, vN]
  · exact LedgerDelta.deleteEntry_disjoint k N (LedgerDelta.pairwiseDisjoint_of_setsEmpty N nE)
  · exact LedgerDelta.deleteEntry_keyed k N (LedgerDelta.keyed_of_setsEmpty N nE)
  · rw [f1.2.1, nH]
  · rw [f1.1, nO]
  · rw [f1.2.2.2, nP]

/-- The commit of a child that only deleted `k`, into an Active outer delta that has `k`
neither in `mNew` nor in `mDelete`: it succeeds and the outer delta, still Active, has
`k` in `mDelete` and not in `mNew`. -/
theorem Store.childDeleteCommits_spec {K E H : Type} [LinearOrder K] [EntryFrame E K]
    [DecidableEq H] (w : Store K E H) (r c : Nat) (k : K) (hne : c ≠ r)
    (hActive : (w.deltas r).mHeader.isSome = true)
    (hN : (w.deltas r).mNew.contains k = false)
    (hD : (w.deltas r).mDelete.contains k = false) :
    (Store.childDeleteCommits r c k w).error = none ∧
      ((Store.childDeleteCommits r c k w).state.deltas r).mHeader.isSome = true ∧
      ((Store.childDeleteCommits r c k w).state.deltas r).mNew.contains k = false ∧
      ((Store.childDeleteCommits r c k w).state.deltas r).mDelete.contains k = true := by
  obtain ⟨_, vk, vo, hCd, hCk, cH, cO, cP, cR⟩ := Store.childDeletes_spec w r c k hne
  have vR : ((w.deltas r).view k).delete = some ⟨none, none, true⟩ := by
    unfold LedgerDelta.view View.delete
    rw [(KeyMap.contains_eq_false_iff _ _).1 hN, hD]
    rfl
  have hmv : ∀ j, (((Store.childDeletes r c k w).state.deltas c).view j).merge
      ((w.deltas r).view j) =
      some (if j = k then ⟨none, none, true⟩ else (w.deltas r).view j) := by
    intro j
    by_cases hj : j = k
    · rw [if_pos hj, hj, vk]; exact vR
    · rw [if_neg hj, vo j hj]; rfl
  obtain ⟨mok, mv⟩ := LedgerDelta.mergeEntries_views (w.deltas r)
    ((Store.childDeletes r c k w).state.deltas c) hActive hCd hCk (fun j => by rw [hmv j]; rfl)
  have mA : ((w.deltas r).mergeEntries ((Store.childDeletes r c k w).state.deltas c)).state.view k
      = ⟨none, none, true⟩ := by
    have := (mv k).symm.trans (hmv k)
    rw [if_pos rfl] at this
    exact Option.some.inj this
  have mF := LedgerDelta.mergeEntries_frame ((Store.childDeletes r c k w).state.deltas c)
    (w.deltas r) (w.deltas r) ⟨rfl, rfl, rfl, rfl⟩
  obtain ⟨e3, r3⟩ := Store.commit_nested_parent (Store.childDeletes r c k w).state c r hne
    cH (by rw [cR, cP]) cO (by rw [cR]; exact mok)
  rw [cR] at r3
  have r3' : (Store.childDeleteCommits r c k w).state.deltas r =
      { ((w.deltas r).mergeEntries ((Store.childDeletes r c k w).state.deltas c)).state with
        mCurrentHeader := ((Store.childDeletes r c k w).state.deltas c).mCurrentHeader } := r3
  obtain ⟨c1, _, c3⟩ := LedgerDelta.contains_of_view _ _ _ _ _ mA
  refine ⟨e3, ?_, ?_, ?_⟩
  · rw [r3']
    show ((w.deltas r).mergeEntries _).state.mHeader.isSome = true
    rw [mF.2.1]; exact hActive
  · rw [r3']
    exact (KeyMap.contains_eq_false_iff _ _).2 c1
  · rw [r3']
    exact c3

/-- C17: let the delta at `r` be Active with key `B` neither in `mNew` nor in `mDelete`
(untracked, or only modified). A child constructed at `c` on it calls `deleteEntry(B)` and
commits, both successfully, and `B` is then in the outer delta's `mDelete`. A second
child constructed afterwards at `c₂` on the same outer delta calls `deleteEntry(B)`
successfully, but its `commit`, and equally the outer delta's `mergeEntries` of it, fail
on the double-delete assertion. More generally, merging any delta that has `k` in
`mDelete` into a delta with pairwise disjoint sets that has `k` in `mDelete` fails, on the
double-delete assertion when the latter is Active. -/
theorem sequential_siblings_double_delete {K E H : Type} [LinearOrder K] [EntryFrame E K]
    [DecidableEq H] (w : Store K E H) (r c c₂ : Nat) (B : K)
    (P C : LedgerDelta K E H) (k : K)
    (hne : c ≠ r) (hne₂ : c₂ ≠ r)
    (hActive : (w.deltas r).mHeader.isSome = true)
    (hN : (w.deltas r).mNew.contains B = false)
    (hD : (w.deltas r).mDelete.contains B = false)
    (hPd : P.PairwiseDisjoint) (hPk : P.mDelete.contains k = true)
    (hCk : C.mDelete.contains k = true) :
    (Store.childDeletes r c B w).error = none ∧
      (Store.childDeleteCommits r c B w).error = none ∧
      ((Store.childDeleteCommits r c B w).state.deltas r).mDelete.contains B = true ∧
      (Store.childDeletes r c₂ B (Store.childDeleteCommits r c B w).state).error = none ∧
      (Store.childDeleteCommits r c₂ B (Store.childDeleteCommits r c B w).state).error
        = some Error.doubleDelete ∧
      (Store.mergeEntries r c₂
        (Store.childDeletes r c₂ B (Store.childDeleteCommits r c B w).state).state).error
        = some Error.doubleDelete ∧
      (P.mergeEntries C).error ≠ none ∧
      (P.mHeader.isSome = true → (P.mergeEntries C).error = some Error.doubleDelete) := by
  obtain ⟨e1, _⟩ := Store.childDeletes_spec w r c B hne
  obtain ⟨e2, a2, n2, d2⟩ := Store.childDeleteCommits_spec w r c B hne hActive hN hD
  obtain ⟨e3, vk, _, _, _, cH, cO, cP, cR⟩ :=
    Store.childDeletes_spec (Store.childDeleteCommits r c B w).state r c₂ B hne₂
  have hm := LedgerDelta.mergeEntries_delete_again
    ((Store.childDeleteCommits r c B w).state.deltas r)
    ((Store.childDeletes r c₂ B (Store.childDeleteCommits r c B w).state).state.deltas c₂)
    B a2 n2 d2 (congrArg View.del vk)
  have hPn : P.mNew.contains k = false := by
    cases hx : P.mNew.contains k with
    | false => rfl
    | true => exact absurd ⟨hx, hPk⟩ (hPd k).2.1
  have hgen : P.mHeader.isSome = true → (P.mergeEntries C).error = some Error.doubleDelete :=
    fun hA => LedgerDelta.mergeEntries_delete_again P C k hA hPn hPk hCk
  refine ⟨e1, e2, d2, e3, ?_, ?_, ?_, hgen⟩
  · exact Store.commit_nested_error _ c₂ r Error.doubleDelete cH (by rw [cR, cP]) cO
      (by rw [cR]; exact hm)
  · show (LedgerDelta.mergeEntries
      ((Store.childDeletes r c₂ B (Store.childDeleteCommits r c B w).state).state.deltas r)
      ((Store.childDeletes r c₂ B (Store.childDeleteCommits r c B w).state).state.deltas
        c₂)).error = some Error.doubleDelete
    rw [cR]; exact hm
  · cases hh : P.mHeader with
    | none => rw [LedgerDelta.mergeEntries_terminal C P hh]; simp
    | some ref => rw [hgen (by rw [hh]; rfl)]; simp

/-- Witness of C17: on the root delta at `0`, a child at `1` deletes key `5` and commits;
a second child at `2` deletes key `5` and fails to commit. -/
theorem sequential_siblings_double_delete_witness :
    (SampleStore.root.deltas 0).mHeader.isSome = true ∧
      SampleDelta.mixed.mDelete.contains 3 = true ∧
      (Store.childDeleteCommits 0 2 5
        (Store.childDeleteCommits 0 1 5 SampleStore.root).state).error
        = some Error.doubleDelete ∧
      (SampleDelta.mixed.mergeEntries SampleDelta.mixed).error = some Error.doubleDelete :=
  have h := sequential_siblings_double_delete SampleStore.root 0 1 2 5
    SampleDelta.mixed SampleDelta.mixed 3
    (by decide) (by decide) (by decide) (by decide) (by decide) (by decide) (by decide)
    (by decide)
  ⟨by decide, by decide, h.2.2.2.2.1, h.2.2.2.2.2.2.2 (by decide)⟩

end Stellar
